import Mathlib

/-!
# SSD1306 framebuffer driver: shallow embedding and verified properties

The C driver (`ssd1306.c`, `ssd1306.h`) keeps one global byte array
`uint8_t buffer[BUFFER_SIZE]` and draws into it.  Here the array is a
`List Nat` that every drawing routine receives as its last argument and
returns updated.  Arguments of type `uint8_t` are natural numbers (theorems
assume or enforce the 8-bit range where it matters), arguments of type `int`
are integers (theorems assume the 32-bit range where it matters) and `int`
arithmetic wraps at 32 bits, and every conversion of an `int` expression to a
`uint8_t` parameter is an explicit reduction modulo 256.
-/

namespace SSD1306

/-! ## Constants of `ssd1306.h` -/

/-- The macro `SCREEN_WIDTH`. -/
def SCREEN_WIDTH : Nat := 128

/-- The macro `SCREEN_HEIGHT`. -/
def SCREEN_HEIGHT : Nat := 64

/-- The macro `BUFFER_SIZE`, `(SCREEN_WIDTH * SCREEN_HEIGHT / 8)`. -/
def BUFFER_SIZE : Nat := SCREEN_WIDTH * SCREEN_HEIGHT / 8

/-- The macro `COLOR_WHITE` (pixel on). -/
def COLOR_WHITE : Bool := true

/-- The macro `COLOR_BLACK` (pixel off). -/
def COLOR_BLACK : Bool := false

/-! ## The framebuffer -/

/-- The contents of the global `uint8_t buffer[BUFFER_SIZE]`. -/
abbrev Framebuffer := List Nat

/-- A framebuffer as the C program can hold it: `BUFFER_SIZE` bytes, each an
8-bit value. -/
def Framebuffer.WF (buffer : Framebuffer) : Prop :=
  buffer.length = BUFFER_SIZE ∧ ∀ b ∈ buffer, b < 256

/-- Conversion of an `int` value to a `uint8_t` parameter. -/
def to_u8 (v : Int) : Nat := (v % 256).toNat

/-- The function `ssd1306_clear`: `memset(buffer, 0x00, sizeof(buffer))`. -/
def ssd1306_clear (_buffer : Framebuffer) : Framebuffer :=
  List.replicate BUFFER_SIZE 0x00

/-- The function `ssd1306_draw_pixel`.  The operand `~(1 << (y % 8))` is the
32-bit complement of the mask; the result of `|=` and `&=` is stored back into
a `uint8_t`. -/
def ssd1306_draw_pixel (x y : Nat) (color : Bool) (buffer : Framebuffer) : Framebuffer :=
  if x ≥ SCREEN_WIDTH ∨ y ≥ SCREEN_HEIGHT then buffer
  else if color then
    buffer.set (x + (y / 8) * SCREEN_WIDTH)
      ((buffer.getD (x + (y / 8) * SCREEN_WIDTH) 0 ||| (1 <<< (y % 8))) % 256)
  else
    buffer.set (x + (y / 8) * SCREEN_WIDTH)
      ((buffer.getD (x + (y / 8) * SCREEN_WIDTH) 0 &&& (0xFFFFFFFF ^^^ (1 <<< (y % 8)))) % 256)

/-- Reading pixel `(x, y)`: bit `y mod 8` of byte `x + 128 * (y div 8)`. -/
def get_pixel (buffer : Framebuffer) (x y : Nat) : Bool :=
  (buffer.getD (x + SCREEN_WIDTH * (y / 8)) 0).testBit (y % 8)

/-! ## Sequences of pixel writes -/

/-- One call `ssd1306_draw_pixel(x, y, color)`. -/
abbrev Write := Nat × Nat × Bool

/-- Performing a sequence of `ssd1306_draw_pixel` calls in order. -/
def apply_writes (ws : List Write) (buffer : Framebuffer) : Framebuffer :=
  ws.foldl (fun fb w => ssd1306_draw_pixel w.1 w.2.1 w.2.2 fb) buffer

/-- The colour of the last write of `ws` that addresses `(i, j)`, if any. -/
def last_write : List Write → Nat → Nat → Option Bool
  | [], _, _ => none
  | w :: ws, i, j =>
    match last_write ws i j with
    | some c => some c
    | none => if w.1 = i ∧ w.2.1 = j then some w.2.2 else none

/-- The number of pixels of the 128x64 display that read ON. -/
def count_on (buffer : Framebuffer) : Nat :=
  ((Finset.range SCREEN_WIDTH ×ˢ Finset.range SCREEN_HEIGHT).filter
    (fun p => get_pixel buffer p.1 p.2 = true)).card

/-! ## Rectangles -/

/-- The function `ssd1306_draw_full_rect`.  The counter `i` starts at `x` and
runs while `i < x + w && i < SCREEN_WIDTH` (the sum is computed as `int`), that
is over `x, x+1, ..., min (x + w) SCREEN_WIDTH - 1`; likewise `j`. -/
def ssd1306_draw_full_rect (x y w h : Nat) (color : Bool) (buffer : Framebuffer) :
    Framebuffer :=
  (List.range' x (min (x + w) SCREEN_WIDTH - x)).foldl
    (fun fb i =>
      (List.range' y (min (y + h) SCREEN_HEIGHT - y)).foldl
        (fun fb j => ssd1306_draw_pixel i j color fb) fb)
    buffer

/-- The `ssd1306_draw_pixel` calls of `ssd1306_draw_full_rect`, in order. -/
def full_rect_writes (x y w h : Nat) (color : Bool) : List Write :=
  (List.range' x (min (x + w) SCREEN_WIDTH - x)).flatMap
    (fun i => (List.range' y (min (y + h) SCREEN_HEIGHT - y)).map (fun j => (i, j, color)))

/-! ## Glyphs and characters -/

/-- The table `const char font5x7[]`: five column bytes per character code,
starting at code 32. -/
def font5x7 : List Nat := [
  0x00, 0x00, 0x00, 0x00, 0x00,  -- code 32
  0x00, 0x00, 0x5F, 0x00, 0x00,  -- code 33
  0x00, 0x07, 0x00, 0x07, 0x00,  -- code 34
  0x14, 0x7F, 0x14, 0x7F, 0x14,  -- code 35
  0x24, 0x2A, 0x7F, 0x2A, 0x12,  -- code 36
  0x23, 0x13, 0x08, 0x64, 0x62,  -- code 37
  0x36, 0x49, 0x55, 0x22, 0x50,  -- code 38
  0x00, 0x05, 0x03, 0x00, 0x00,  -- code 39
  0x00, 0x1C, 0x22, 0x41, 0x00,  -- code 40
  0x00, 0x41, 0x22, 0x1C, 0x00,  -- code 41
  0x08, 0x2A, 0x1C, 0x2A, 0x08,  -- code 42
  0x08, 0x08, 0x3E, 0x08, 0x08,  -- code 43
  0x00, 0x50, 0x30, 0x00, 0x00,  -- code 44
  0x08, 0x08, 0x08, 0x08, 0x08,  -- code 45
  0x00, 0x60, 0x60, 0x00, 0x00,  -- code 46
  0x20, 0x10, 0x08, 0x04, 0x02,  -- code 47
  0x3E, 0x51, 0x49, 0x45, 0x3E,  -- code 48
  0x00, 0x42, 0x7F, 0x40, 0x00,  -- code 49
  0x42, 0x61, 0x51, 0x49, 0x46,  -- code 50
  0x21, 0x41, 0x45, 0x4B, 0x31,  -- code 51
  0x18, 0x14, 0x12, 0x7F, 0x10,  -- code 52
  0x27, 0x45, 0x45, 0x45, 0x39,  -- code 53
  0x3C, 0x4A, 0x49, 0x49, 0x30,  -- code 54
  0x01, 0x71, 0x09, 0x05, 0x03,  -- code 55
  0x36, 0x49, 0x49, 0x49, 0x36,  -- code 56
  0x06, 0x49, 0x49, 0x29, 0x1E,  -- code 57
  0x00, 0x36, 0x36, 0x00, 0x00,  -- code 58
  0x00, 0x56, 0x36, 0x00, 0x00,  -- code 59
  0x00, 0x08, 0x14, 0x22, 0x41,  -- code 60
  0x14, 0x14, 0x14, 0x14, 0x14,  -- code 61
  0x41, 0x22, 0x14, 0x08, 0x00,  -- code 62
  0x02, 0x01, 0x51, 0x09, 0x06,  -- code 63
  0x32, 0x49, 0x79, 0x41, 0x3E,  -- code 64
  0x7E, 0x11, 0x11, 0x11, 0x7E,  -- code 65
  0x7F, 0x49, 0x49, 0x49, 0x36,  -- code 66
  0x3E, 0x41, 0x41, 0x41, 0x22,  -- code 67
  0x7F, 0x41, 0x41, 0x22, 0x1C,  -- code 68
  0x7F, 0x49, 0x49, 0x49, 0x41,  -- code 69
  0x7F, 0x09, 0x09, 0x01, 0x01,  -- code 70
  0x3E, 0x41, 0x41, 0x51, 0x32,  -- code 71
  0x7F, 0x08, 0x08, 0x08, 0x7F,  -- code 72
  0x00, 0x41, 0x7F, 0x41, 0x00,  -- code 73
  0x20, 0x40, 0x41, 0x3F, 0x01,  -- code 74
  0x7F, 0x08, 0x14, 0x22, 0x41,  -- code 75
  0x7F, 0x40, 0x40, 0x40, 0x40,  -- code 76
  0x7F, 0x02, 0x04, 0x02, 0x7F,  -- code 77
  0x7F, 0x04, 0x08, 0x10, 0x7F,  -- code 78
  0x3E, 0x41, 0x41, 0x41, 0x3E,  -- code 79
  0x7F, 0x09, 0x09, 0x09, 0x06,  -- code 80
  0x3E, 0x41, 0x51, 0x21, 0x5E,  -- code 81
  0x7F, 0x09, 0x19, 0x29, 0x46,  -- code 82
  0x46, 0x49, 0x49, 0x49, 0x31,  -- code 83
  0x01, 0x01, 0x7F, 0x01, 0x01,  -- code 84
  0x3F, 0x40, 0x40, 0x40, 0x3F,  -- code 85
  0x1F, 0x20, 0x40, 0x20, 0x1F,  -- code 86
  0x7F, 0x20, 0x18, 0x20, 0x7F,  -- code 87
  0x63, 0x14, 0x08, 0x14, 0x63,  -- code 88
  0x03, 0x04, 0x78, 0x04, 0x03,  -- code 89
  0x61, 0x51, 0x49, 0x45, 0x43,  -- code 90
  0x00, 0x00, 0x7F, 0x41, 0x41,  -- code 91
  0x02, 0x04, 0x08, 0x10, 0x20,  -- code 92
  0x41, 0x41, 0x7F, 0x00, 0x00,  -- code 93
  0x04, 0x02, 0x01, 0x02, 0x04,  -- code 94
  0x40, 0x40, 0x40, 0x40, 0x40,  -- code 95
  0x00, 0x01, 0x02, 0x04, 0x00,  -- code 96
  0x20, 0x54, 0x54, 0x54, 0x78,  -- code 97
  0x7F, 0x48, 0x44, 0x44, 0x38,  -- code 98
  0x38, 0x44, 0x44, 0x44, 0x20,  -- code 99
  0x38, 0x44, 0x44, 0x48, 0x7F,  -- code 100
  0x38, 0x54, 0x54, 0x54, 0x18,  -- code 101
  0x08, 0x7E, 0x09, 0x01, 0x02,  -- code 102
  0x08, 0x14, 0x54, 0x54, 0x3C,  -- code 103
  0x7F, 0x08, 0x04, 0x04, 0x78,  -- code 104
  0x00, 0x44, 0x7D, 0x40, 0x00,  -- code 105
  0x20, 0x40, 0x44, 0x3D, 0x00,  -- code 106
  0x00, 0x7F, 0x10, 0x28, 0x44,  -- code 107
  0x00, 0x41, 0x7F, 0x40, 0x00,  -- code 108
  0x7C, 0x04, 0x18, 0x04, 0x78,  -- code 109
  0x7C, 0x08, 0x04, 0x04, 0x78,  -- code 110
  0x38, 0x44, 0x44, 0x44, 0x38,  -- code 111
  0x7C, 0x14, 0x14, 0x14, 0x08,  -- code 112
  0x08, 0x14, 0x14, 0x18, 0x7C,  -- code 113
  0x7C, 0x08, 0x04, 0x04, 0x08,  -- code 114
  0x48, 0x54, 0x54, 0x54, 0x20,  -- code 115
  0x04, 0x3F, 0x44, 0x40, 0x20,  -- code 116
  0x3C, 0x40, 0x40, 0x20, 0x7C,  -- code 117
  0x1C, 0x20, 0x40, 0x20, 0x1C,  -- code 118
  0x3C, 0x40, 0x30, 0x40, 0x3C,  -- code 119
  0x44, 0x28, 0x10, 0x28, 0x44,  -- code 120
  0x0C, 0x50, 0x50, 0x50, 0x3C,  -- code 121
  0x44, 0x64, 0x54, 0x4C, 0x44,  -- code 122
  0x00, 0x08, 0x36, 0x41, 0x00,  -- code 123
  0x00, 0x00, 0x7F, 0x00, 0x00,  -- code 124
  0x00, 0x41, 0x36, 0x08, 0x00,  -- code 125
  0x08, 0x08, 0x2A, 0x1C, 0x08,  -- code 126
  0x08, 0x1C, 0x2A, 0x08, 0x08  -- code 127
]

/-- The two innermost loops of `ssd1306_draw_char`: the `size_x` by `size_y`
block of glyph cell `(i, j)`.  The coordinate expressions are computed as `int`
and converted to the `uint8_t` parameters of `ssd1306_draw_pixel`. -/
def draw_char_block (x y i j size_x size_y : Nat) (color : Bool) (buffer : Framebuffer) :
    Framebuffer :=
  (List.range size_x).foldl
    (fun fb dx =>
      (List.range size_y).foldl
        (fun fb dy =>
          ssd1306_draw_pixel ((x + i * size_x + dx) % 256) ((y + j * size_y + dy) % 256)
            color fb) fb)
    buffer

/-- The function `ssd1306_draw_char`; `c` is the character code.  The inner
loop over `j` carries the column byte `line`, shifted right once per round. -/
def ssd1306_draw_char (x y c size_x size_y : Nat) (color : Bool) (buffer : Framebuffer) :
    Framebuffer :=
  if c < 32 ∨ c > 126 then buffer
  else
    let index := (c - 32) * 5
    let glyph := (List.range 5).foldl
      (fun fb i =>
        ((List.range 8).foldl
          (fun (st : Framebuffer × Nat) j =>
            (if st.2 &&& 0x01 ≠ 0 then draw_char_block x y i j size_x size_y color st.1
              else st.1,
             st.2 >>> 1))
          (fb, font5x7.getD (index + i) 0)).1)
      buffer
    (List.range 8).foldl
      (fun fb j => draw_char_block x y 5 j size_x size_y COLOR_BLACK fb) glyph

/-- The `ssd1306_draw_pixel` calls of one block of `ssd1306_draw_char`. -/
def block_writes (x y i j size_x size_y : Nat) (color : Bool) : List Write :=
  (List.range size_x).flatMap
    (fun dx => (List.range size_y).map
      (fun dy => ((x + i * size_x + dx) % 256, (y + j * size_y + dy) % 256, color)))

/-- The `ssd1306_draw_pixel` calls of the five glyph columns of a character. -/
def glyph_writes (x y c size_x size_y : Nat) (color : Bool) : List Write :=
  (List.range 5).flatMap
    (fun i => (List.range 8).flatMap
      (fun j => if (font5x7.getD ((c - 32) * 5 + i) 0).testBit j
        then block_writes x y i j size_x size_y color else []))

/-- The `ssd1306_draw_pixel` calls of the spacing column of a character. -/
def spacing_writes (x y size_x size_y : Nat) : List Write :=
  (List.range 8).flatMap (fun j => block_writes x y 5 j size_x size_y COLOR_BLACK)

/-- The `ssd1306_draw_pixel` calls of `ssd1306_draw_char`, in order. -/
def draw_char_writes (x y c size_x size_y : Nat) (color : Bool) : List Write :=
  if c < 32 ∨ c > 126 then []
  else glyph_writes x y c size_x size_y color ++ spacing_writes x y size_x size_y

/-- Pixel `(p, q)` is addressed by a glyph block of the character: a set bit
`j` of column byte `i`, and offsets inside the scaled block. -/
def glyph_at (x y c size_x size_y p q : Nat) : Prop :=
  ∃ i, i < 5 ∧ ∃ j, j < 8 ∧ (font5x7.getD ((c - 32) * 5 + i) 0).testBit j = true ∧
    ∃ dx, dx < size_x ∧ ∃ dy, dy < size_y ∧
      p = (x + i * size_x + dx) % 256 ∧ q = (y + j * size_y + dy) % 256

/-- Pixel `(p, q)` is addressed by the spacing column of the character. -/
def spacing_at (x y size_x size_y p q : Nat) : Prop :=
  ∃ j, j < 8 ∧ ∃ dx, dx < size_x ∧ ∃ dy, dy < size_y ∧
    p = (x + 5 * size_x + dx) % 256 ∧ q = (y + j * size_y + dy) % 256

/-- The function `ssd1306_overwrite_char`. -/
def ssd1306_overwrite_char (x y old new old_size_x old_size_y new_size_x new_size_y : Nat)
    (buffer : Framebuffer) : Framebuffer :=
  ssd1306_draw_char x y new new_size_x new_size_y COLOR_WHITE
    (ssd1306_draw_char x y old old_size_x old_size_y COLOR_BLACK buffer)

/-! ## Text layout -/

/-- A C string: the character codes before the terminating NUL. -/
abbrev CString := List Nat

/-- The function `ssd1306_get_string_width`: `strlen(str) * 6 * size_x`,
returned as `uint8_t`. -/
def ssd1306_get_string_width (str : CString) (size_x : Nat) : Nat :=
  (str.length * 6 * size_x) % 256

/-- The function `ssd1306_draw_string`; the cursor `x` is a `uint8_t`, so
`x += 6 * size_x` wraps at 256. -/
def ssd1306_draw_string (x y : Nat) (str : CString) (size_x size_y : Nat) (color : Bool)
    (buffer : Framebuffer) : Framebuffer :=
  match str with
  | [] => buffer
  | c :: rest =>
    ssd1306_draw_string ((x + 6 * size_x) % 256) y rest size_x size_y color
      (ssd1306_draw_char x y c size_x size_y color buffer)

/-- The `while (*str)` loop of `ssd1306_draw_string_wrapped`, from the cursor
`(x, y)`: wrap when `x + 6 * size_x >= SCREEN_WIDTH`, stop when the new `y`
(a `uint8_t`) is `>= SCREEN_HEIGHT`, else draw and advance. -/
def draw_string_wrapped_loop (start_x size_x size_y : Nat) (color : Bool) :
    Nat → Nat → CString → Framebuffer → Framebuffer
  | _, _, [], fb => fb
  | x, y, c :: rest, fb =>
    if x + 6 * size_x ≥ SCREEN_WIDTH then
      if (y + 8 * size_y) % 256 ≥ SCREEN_HEIGHT then fb
      else
        draw_string_wrapped_loop start_x size_x size_y color
          ((start_x + 6 * size_x) % 256) ((y + 8 * size_y) % 256) rest
          (ssd1306_draw_char start_x ((y + 8 * size_y) % 256) c size_x size_y color fb)
    else
      draw_string_wrapped_loop start_x size_x size_y color
        ((x + 6 * size_x) % 256) y rest
        (ssd1306_draw_char x y c size_x size_y color fb)

/-- The function `ssd1306_draw_string_wrapped`. -/
def ssd1306_draw_string_wrapped (x y : Nat) (str : CString) (size_x size_y : Nat)
    (color : Bool) (buffer : Framebuffer) : Framebuffer :=
  draw_string_wrapped_loop x size_x size_y color x y str buffer

/-- One call `ssd1306_draw_char(x, y, c, ...)` of a string routine: `(x, y, c)`. -/
abbrev CharCall := Nat × Nat × Nat

/-- The `ssd1306_draw_char` calls of `ssd1306_draw_string_wrapped` from the
cursor `(x, y)`, in order: the same control flow as `draw_string_wrapped_loop`. -/
def wrapped_calls (start_x size_x size_y : Nat) : Nat → Nat → CString → List CharCall
  | _, _, [] => []
  | x, y, c :: rest =>
    if x + 6 * size_x ≥ SCREEN_WIDTH then
      if (y + 8 * size_y) % 256 ≥ SCREEN_HEIGHT then []
      else
        (start_x, (y + 8 * size_y) % 256, c) ::
          wrapped_calls start_x size_x size_y
            ((start_x + 6 * size_x) % 256) ((y + 8 * size_y) % 256) rest
    else
      (x, y, c) :: wrapped_calls start_x size_x size_y ((x + 6 * size_x) % 256) y rest

/-- Performing a sequence of `ssd1306_draw_char` calls in order. -/
def apply_char_calls (calls : List CharCall) (size_x size_y : Nat) (color : Bool)
    (buffer : Framebuffer) : Framebuffer :=
  calls.foldl (fun fb p => ssd1306_draw_char p.1 p.2.1 p.2.2 size_x size_y color fb) buffer

/-! ## Circles -/

/-- The values of `for (int i = lo; i <= hi; i++)`. -/
def int_range (lo hi : Int) : List Int :=
  (List.range (hi + 1 - lo).toNat).map (fun (k : Nat) => lo + (k : Int))

/-- The local variables `x, y, f, ddF_x, ddF_y` of the midpoint circle loops. -/
structure CircleState where
  x : Int
  y : Int
  f : Int
  ddF_x : Int
  ddF_y : Int

/-- The variable updates at the head of the loop body of both circle routines:
`if (f >= 0) { y--; ddF_y += 2; f += ddF_y; } x++; ddF_x += 2; f += ddF_x;`. -/
def circle_advance (s : CircleState) : CircleState :=
  let s1 : CircleState :=
    if s.f ≥ 0 then { s with y := s.y - 1, ddF_y := s.ddF_y + 2, f := s.f + (s.ddF_y + 2) }
    else s
  { s1 with x := s1.x + 1, ddF_x := s1.ddF_x + 2, f := s1.f + (s1.ddF_x + 2) }

/-- One chord loop of `ssd1306_draw_full_circle`:
`for (int i = y0 - b; i <= y0 + b; i++) { draw_pixel(x0 + a, i); draw_pixel(x0 - a, i); }`. -/
def draw_chord_pair (x0 y0 : Nat) (a b : Int) (color : Bool) (buffer : Framebuffer) :
    Framebuffer :=
  (int_range ((y0 : Int) - b) ((y0 : Int) + b)).foldl
    (fun fb i =>
      ssd1306_draw_pixel (to_u8 ((x0 : Int) - a)) (to_u8 i) color
        (ssd1306_draw_pixel (to_u8 ((x0 : Int) + a)) (to_u8 i) color fb))
    buffer

/-- The `while (x < y)` loop of `ssd1306_draw_full_circle`; `none` when the
fuel runs out before the loop condition fails. -/
def full_circle_loop (x0 y0 : Nat) (color : Bool) :
    Nat → CircleState → Framebuffer → Option Framebuffer
  | 0, _, _ => none
  | fuel + 1, s, fb =>
    if s.x < s.y then
      full_circle_loop x0 y0 color fuel (circle_advance s)
        (draw_chord_pair x0 y0 (circle_advance s).y (circle_advance s).x color
          (draw_chord_pair x0 y0 (circle_advance s).x (circle_advance s).y color fb))
    else some fb

/-- The function `ssd1306_draw_full_circle`.  The loop runs at most `radius`
times (`y - x` starts at `radius` and drops every round), so `radius + 1`
rounds of fuel let it reach its exit test. -/
def ssd1306_draw_full_circle (x0 y0 radius : Nat) (color : Bool) (buffer : Framebuffer) :
    Option Framebuffer :=
  full_circle_loop x0 y0 color (radius + 1)
    { x := 0, y := radius, f := 1 - radius, ddF_x := 1, ddF_y := -2 * radius }
    ((int_range ((y0 : Int) - radius) ((y0 : Int) + radius)).foldl
      (fun fb i => ssd1306_draw_pixel x0 (to_u8 i) color fb) buffer)

/-- The `ssd1306_draw_pixel` calls of one chord loop. -/
def chord_pair_writes (x0 y0 : Nat) (a b : Int) (color : Bool) : List Write :=
  (int_range ((y0 : Int) - b) ((y0 : Int) + b)).flatMap
    (fun i => [(to_u8 ((x0 : Int) + a), to_u8 i, color), (to_u8 ((x0 : Int) - a), to_u8 i, color)])

/-- A framebuffer whose ON pixels lie in the square of half-width `r` around
`(x0, y0)` and are mirror-symmetric about both centre axes. -/
def CircleSym (x0 y0 r : Nat) (fb : Framebuffer) : Prop :=
  ∀ p q, p < 128 → q < 64 → get_pixel fb p q = true →
    (x0 - r ≤ p ∧ p ≤ x0 + r ∧ y0 - r ≤ q ∧ q ≤ y0 + r) ∧
    get_pixel fb (2 * x0 - p) q = true ∧ get_pixel fb p (2 * y0 - q) = true

/-- A sequence of ON writes inside the square of half-width `r` around
`(x0, y0)` that is closed under both mirror images. -/
def SymWrites (x0 y0 r : Nat) (ws : List Write) : Prop :=
  ∀ p q c, (p, q, c) ∈ ws →
    c = true ∧ (x0 - r ≤ p ∧ p ≤ x0 + r ∧ y0 - r ≤ q ∧ q ≤ y0 + r) ∧
    (2 * x0 - p, q, true) ∈ ws ∧ (p, 2 * y0 - q, true) ∈ ws

/-! ## Lines and triangles

The type `int` has 32 bits.  An argument of type `int` is an integer of the
range `INT_MIN .. INT_MAX`, and the result of every `int` operation is reduced
to that range by `wrap_int`: signed overflow wraps in two's complement, as it
does in the compiled driver. -/

/-- The constant `INT_MIN` of `limits.h` for a 32-bit `int`. -/
def INT_MIN : Int := -2147483648

/-- The constant `INT_MAX` of `limits.h` for a 32-bit `int`. -/
def INT_MAX : Int := 2147483647

/-- The value of an `int` result: the integer of `INT_MIN .. INT_MAX` that is
congruent to `v` modulo `2^32`. -/
def wrap_int (v : Int) : Int := (v + 2147483648) % 4294967296 - 2147483648

/-- The library function `abs` on `int`. -/
def c_abs (v : Int) : Int := if v < 0 then wrap_int (-v) else v

/-- One round of the loop of `ssd1306_draw_line` after the `break` test:
`int e2 = 2 * err; if (e2 >= dy) { err += dy; x0 += sx; }
if (e2 <= dx) { err += dx; y0 += sy; }`.  The result is `(x0, y0, err)` after
the round. -/
def line_step (dx sx dy sy x0 y0 err : Int) : Int × Int × Int :=
  (if wrap_int (2 * err) ≥ dy then wrap_int (x0 + sx) else x0,
    if wrap_int (2 * err) ≤ dx then wrap_int (y0 + sy) else y0,
    if wrap_int (2 * err) ≤ dx then
      wrap_int ((if wrap_int (2 * err) ≥ dy then wrap_int (err + dy) else err) + dx)
    else (if wrap_int (2 * err) ≥ dy then wrap_int (err + dy) else err))

/-- The `while (1)` loop of `ssd1306_draw_line` from the current point
`(x0, y0)` with error term `err`; `none` when the fuel runs out before the
`break`. -/
def draw_line_loop (x1 y1 dx sx dy sy : Int) (color : Bool) :
    Nat → Int → Int → Int → Framebuffer → Option Framebuffer
  | 0, _, _, _, _ => none
  | fuel + 1, x0, y0, err, fb =>
    if x0 = x1 ∧ y0 = y1 then some (ssd1306_draw_pixel (to_u8 x0) (to_u8 y0) color fb)
    else
      draw_line_loop x1 y1 dx sx dy sy color fuel
        (line_step dx sx dy sy x0 y0 err).1 (line_step dx sx dy sy x0 y0 err).2.1
        (line_step dx sx dy sy x0 y0 err).2.2
        (ssd1306_draw_pixel (to_u8 x0) (to_u8 y0) color fb)

/-- The initial value `abs(x1 - x0)` of `dx` in `ssd1306_draw_line`. -/
def line_dx (x0 x1 : Int) : Int := c_abs (wrap_int (x1 - x0))

/-- The initial value `-abs(y1 - y0)` of `dy` in `ssd1306_draw_line`. -/
def line_dy (y0 y1 : Int) : Int := wrap_int (-c_abs (wrap_int (y1 - y0)))

/-- The function `ssd1306_draw_line` (Bresenham).  The result is `none` when
the loop has not reached its `break` after `|x1 - x0| + |y1 - y0| + 1` rounds;
as long as no `int` overflows, every round that does not break moves the
current point one step towards the end point along at least one axis, so that
many rounds reach the `break`. -/
def ssd1306_draw_line (x0 y0 x1 y1 : Int) (color : Bool) (buffer : Framebuffer) :
    Option Framebuffer :=
  draw_line_loop x1 y1 (line_dx x0 x1) (if x0 < x1 then 1 else -1) (line_dy y0 y1)
    (if y0 < y1 then 1 else -1) color
    ((|x1 - x0| + |y1 - y0|).toNat + 1) x0 y0 (wrap_int (line_dx x0 x1 + line_dy y0 y1)) buffer

/-- The function `ssd1306_draw_horizontal_line`. -/
def ssd1306_draw_horizontal_line (x_start x_end y : Int) (color : Bool)
    (buffer : Framebuffer) : Framebuffer :=
  if y < 0 ∨ y ≥ SCREEN_HEIGHT then buffer
  else
    (int_range
        (if (if x_start > x_end then x_end else x_start) < 0 then 0
          else (if x_start > x_end then x_end else x_start))
        (if (if x_start > x_end then x_start else x_end) ≥ SCREEN_WIDTH then SCREEN_WIDTH - 1
          else (if x_start > x_end then x_start else x_end))).foldl
      (fun fb x => ssd1306_draw_pixel (to_u8 x) (to_u8 y) color fb) buffer

/-- The function `ssd1306_draw_empty_triangle`: three line calls. -/
def ssd1306_draw_empty_triangle (x0 y0 x1 y1 x2 y2 : Int) (color : Bool)
    (buffer : Framebuffer) : Option Framebuffer :=
  (ssd1306_draw_line x0 y0 x1 y1 color buffer).bind fun fb1 =>
    (ssd1306_draw_line x1 y1 x2 y2 color fb1).bind fun fb2 =>
      ssd1306_draw_line x2 y2 x0 y0 color fb2

/-- The three conditional swaps at the head of
`ssd1306_draw_filled_triangle`; the result is `((x0, y0), (x1, y1), (x2, y2))`
after them. -/
def triangle_sort (x0 y0 x1 y1 x2 y2 : Int) : (Int × Int) × (Int × Int) × (Int × Int) :=
  let a : (Int × Int) × (Int × Int) :=
    if y0 > y1 then ((x1, y1), (x0, y0)) else ((x0, y0), (x1, y1))
  let b : (Int × Int) × (Int × Int) :=
    if a.2.2 > y2 then ((x2, y2), a.2) else (a.2, (x2, y2))
  let c : (Int × Int) × (Int × Int) :=
    if a.1.2 > b.1.2 then (b.1, a.1) else (a.1, b.1)
  (c.1, c.2, b.2)

/-- One call `ssd1306_draw_horizontal_line(a, b, y, color)` made by
`ssd1306_draw_filled_triangle`, with its place in the routine: `span` is 0 for
the single call of the early return, 1 for an iteration of the first scanline
loop and 2 for an iteration of the second; `divs` lists the divisors by which
that iteration divides `sa` and `sb` (none for the early return). -/
structure Scanline where
  span : Nat
  divs : List Int
  a : Int
  b : Int
  y : Int
  deriving DecidableEq

/-- The divisor guard `(dy == 0 ? 1 : dy)` of `ssd1306_draw_filled_triangle`. -/
def zero_guard (d : Int) : Int := if d = 0 then 1 else d

/-- The iterations of one scanline loop of `ssd1306_draw_filled_triangle` over
the rows `ys`: `a = xa + sa / da; b = xb + sb / db; sa += dxa; sb += dxb;` then
the horizontal line from `a` to `b`.  The C division truncates towards zero. -/
def span_scanlines (span : Nat) (xa xb da db dxa dxb : Int) :
    Int → Int → List Int → List Scanline
  | _, _, [] => []
  | sa, sb, y :: ys =>
    { span := span, divs := [da, db],
      a := wrap_int (xa + wrap_int (Int.tdiv sa da)),
      b := wrap_int (xb + wrap_int (Int.tdiv sb db)),
      y := y } ::
      span_scanlines span xa xb da db dxa dxb (wrap_int (sa + dxa)) (wrap_int (sb + dxb)) ys

/-- The values of `y` in the iterations of `for (y = lo; y <= hi; y++)` with a
32-bit `y`: the loop test cannot fail when `hi` is `INT_MAX`, and then the loop
does not exit (`none`). -/
def loop_rows (lo hi : Int) : Option (List Int) :=
  if hi = INT_MAX then none else some (int_range lo hi)

/-- The calls of `ssd1306_draw_horizontal_line` made by the body of
`ssd1306_draw_filled_triangle` after the vertices are sorted, in order; `none`
when one of the two scanline loops does not exit. -/
def sorted_triangle_scanlines (x0 y0 x1 y1 x2 y2 : Int) : Option (List Scanline) :=
  if y0 = y2 then
    some [{ span := 0, divs := [],
            a := if x0 < x1 then (if x0 < x2 then x0 else x2) else (if x1 < x2 then x1 else x2),
            b := if x0 > x1 then (if x0 > x2 then x0 else x2) else (if x1 > x2 then x1 else x2),
            y := y0 }]
  else
    let last : Int := if y1 = y2 then y1 else wrap_int (y1 - 1)
    let y : Int := if y0 ≤ last then last + 1 else y0
    (loop_rows y0 last).bind fun rows1 =>
      (loop_rows y y2).bind fun rows2 =>
        some
          (span_scanlines 1 x0 x0 (zero_guard (wrap_int (y1 - y0)))
              (zero_guard (wrap_int (y2 - y0))) (wrap_int (x1 - x0)) (wrap_int (x2 - x0))
              0 0 rows1 ++
            span_scanlines 2 x1 x0 (zero_guard (wrap_int (y2 - y1)))
              (zero_guard (wrap_int (y2 - y0))) (wrap_int (x2 - x1)) (wrap_int (x2 - x0))
              (wrap_int (wrap_int (x2 - x1) * wrap_int (y - y1)))
              (wrap_int (wrap_int (x2 - x0) * wrap_int (y - y0))) rows2)

/-- The calls of `ssd1306_draw_horizontal_line` made by
`ssd1306_draw_filled_triangle`, in order. -/
def filled_triangle_scanlines (x0 y0 x1 y1 x2 y2 : Int) : Option (List Scanline) :=
  sorted_triangle_scanlines
    (triangle_sort x0 y0 x1 y1 x2 y2).1.1 (triangle_sort x0 y0 x1 y1 x2 y2).1.2
    (triangle_sort x0 y0 x1 y1 x2 y2).2.1.1 (triangle_sort x0 y0 x1 y1 x2 y2).2.1.2
    (triangle_sort x0 y0 x1 y1 x2 y2).2.2.1 (triangle_sort x0 y0 x1 y1 x2 y2).2.2.2

/-- Performing a sequence of `ssd1306_draw_horizontal_line` calls in order. -/
def draw_scanlines (color : Bool) (t : List Scanline) (buffer : Framebuffer) : Framebuffer :=
  t.foldl (fun fb s => ssd1306_draw_horizontal_line s.a s.b s.y color fb) buffer

/-- The body of `ssd1306_draw_filled_triangle` after the vertices are sorted:
it changes the framebuffer only through its `ssd1306_draw_horizontal_line`
calls. -/
def fill_sorted_triangle (x0 y0 x1 y1 x2 y2 : Int) (color : Bool) (buffer : Framebuffer) :
    Option Framebuffer :=
  (sorted_triangle_scanlines x0 y0 x1 y1 x2 y2).map (fun t => draw_scanlines color t buffer)

/-- The function `ssd1306_draw_filled_triangle`; `none` when the call does not
return. -/
def ssd1306_draw_filled_triangle (x0 y0 x1 y1 x2 y2 : Int) (color : Bool)
    (buffer : Framebuffer) : Option Framebuffer :=
  fill_sorted_triangle
    (triangle_sort x0 y0 x1 y1 x2 y2).1.1 (triangle_sort x0 y0 x1 y1 x2 y2).1.2
    (triangle_sort x0 y0 x1 y1 x2 y2).2.1.1 (triangle_sort x0 y0 x1 y1 x2 y2).2.1.2
    (triangle_sort x0 y0 x1 y1 x2 y2).2.2.1 (triangle_sort x0 y0 x1 y1 x2 y2).2.2.2
    color buffer

/-- The `ssd1306_draw_pixel` calls of the loop of `ssd1306_draw_line`. -/
def line_loop_writes (x1 y1 dx sx dy sy : Int) (color : Bool) :
    Nat → Int → Int → Int → Option (List Write)
  | 0, _, _, _ => none
  | fuel + 1, x0, y0, err =>
    if x0 = x1 ∧ y0 = y1 then some [(to_u8 x0, to_u8 y0, color)]
    else
      (line_loop_writes x1 y1 dx sx dy sy color fuel
        (line_step dx sx dy sy x0 y0 err).1 (line_step dx sx dy sy x0 y0 err).2.1
        (line_step dx sx dy sy x0 y0 err).2.2).map
        (fun ws => (to_u8 x0, to_u8 y0, color) :: ws)

/-- The `ssd1306_draw_pixel` calls of `ssd1306_draw_line`, in order. -/
def line_writes (x0 y0 x1 y1 : Int) (color : Bool) : Option (List Write) :=
  line_loop_writes x1 y1 (line_dx x0 x1) (if x0 < x1 then 1 else -1) (line_dy y0 y1)
    (if y0 < y1 then 1 else -1) color
    ((|x1 - x0| + |y1 - y0|).toNat + 1) x0 y0 (wrap_int (line_dx x0 x1 + line_dy y0 y1))

/-- The `ssd1306_draw_pixel` calls of `ssd1306_draw_horizontal_line`. -/
def horizontal_line_writes (x_start x_end y : Int) (color : Bool) : List Write :=
  if y < 0 ∨ y ≥ SCREEN_HEIGHT then []
  else
    (int_range
        (if (if x_start > x_end then x_end else x_start) < 0 then 0
          else (if x_start > x_end then x_end else x_start))
        (if (if x_start > x_end then x_start else x_end) ≥ SCREEN_WIDTH then SCREEN_WIDTH - 1
          else (if x_start > x_end then x_start else x_end))).map
      (fun x => (to_u8 x, to_u8 y, color))

/-- The on-screen pixels addressed by a sequence of writes, without repetition. -/
def written_pixels (ws : List Write) : List (Nat × Nat) :=
  ((ws.map (fun w => (w.1, w.2.1))).filter (fun p => p.1 < 128 ∧ p.2 < 64)).dedup

/-- The points of the Bresenham line from `(0,0)` to `(10,0)`. -/
def edge_a : List Write :=
  [(0, 0, true), (1, 0, true), (2, 0, true), (3, 0, true), (4, 0, true), (5, 0, true),
    (6, 0, true), (7, 0, true), (8, 0, true), (9, 0, true), (10, 0, true)]

/-- The points of the Bresenham line from `(10,0)` to `(5,10)`. -/
def edge_b : List Write :=
  [(10, 0, true), (9, 1, true), (9, 2, true), (8, 3, true), (8, 4, true), (7, 5, true),
    (7, 6, true), (6, 7, true), (6, 8, true), (5, 9, true), (5, 10, true)]

/-- The points of the Bresenham line from `(5,10)` to `(0,0)`. -/
def edge_c : List Write :=
  [(5, 10, true), (4, 9, true), (4, 8, true), (3, 7, true), (3, 6, true), (2, 5, true),
    (2, 4, true), (1, 3, true), (1, 2, true), (0, 1, true), (0, 0, true)]

/-- The scanlines `(a, b, y)` of the filled triangle `(0,0), (10,0), (5,10)`. -/
def example_scanlines : List (Int × Int × Int) :=
  [(10, 0, 0), (10, 0, 1), (9, 1, 2), (9, 1, 3), (8, 2, 4), (8, 2, 5), (7, 3, 6), (7, 3, 7),
    (6, 4, 8), (6, 4, 9), (5, 5, 10)]

/-! ## Centred strings and rectangle outlines -/

/-- The function `ssd1306_draw_string_centered`: `str_w` is the `uint8_t` width,
`(SCREEN_WIDTH - str_w) / 2` is computed as `int` (the division truncates) and
stored in the `uint8_t` cursor `x`. -/
def ssd1306_draw_string_centered (y : Nat) (str : CString) (size_x size_y : Nat)
    (color : Bool) (buffer : Framebuffer) : Framebuffer :=
  ssd1306_draw_string
    (to_u8 (Int.tdiv ((SCREEN_WIDTH : Int) - (ssd1306_get_string_width str size_x : Int)) 2))
    y str size_x size_y color buffer

/-- The function `ssd1306_draw_empty_rect`.  The loop counters run as in
`ssd1306_draw_full_rect`; `y + h - 1` and `x + w - 1` are computed as `int` and
converted to the `uint8_t` parameters of `ssd1306_draw_pixel`. -/
def ssd1306_draw_empty_rect (x y w h : Nat) (color : Bool) (buffer : Framebuffer) :
    Framebuffer :=
  (List.range' y (min (y + h) SCREEN_HEIGHT - y)).foldl
    (fun fb j =>
      ssd1306_draw_pixel (to_u8 ((x : Int) + (w : Int) - 1)) j color
        (ssd1306_draw_pixel x j color fb))
    ((List.range' x (min (x + w) SCREEN_WIDTH - x)).foldl
      (fun fb i =>
        ssd1306_draw_pixel i (to_u8 ((y : Int) + (h : Int) - 1)) color
          (ssd1306_draw_pixel i y color fb))
      buffer)

/-- The `ssd1306_draw_pixel` calls of `ssd1306_draw_empty_rect`, in order. -/
def empty_rect_writes (x y w h : Nat) (color : Bool) : List Write :=
  (List.range' x (min (x + w) SCREEN_WIDTH - x)).flatMap
      (fun i => [(i, y, color), (i, to_u8 ((y : Int) + (h : Int) - 1), color)]) ++
    (List.range' y (min (y + h) SCREEN_HEIGHT - y)).flatMap
      (fun j => [(x, j, color), (to_u8 ((x : Int) + (w : Int) - 1), j, color)])

/-! ## Transport and timing events, animated overwrite -/

/-- What the driver hands to its collaborators: a command byte
(`ssd1306_cmd`), a data block (`ssd1306_data`), or a call `vTaskDelay(ticks)`. -/
inductive Event where
  | cmd (byte : Nat)
  | data (bytes : List Nat)
  | delay (ticks : Nat)
  deriving DecidableEq

/-- The framebuffer together with the events sent so far, oldest first. -/
structure Device where
  buffer : Framebuffer
  log : List Event

/-- The function `ssd1306_display`: column range, page range, then the whole
buffer as one data block. -/
def ssd1306_display (dev : Device) : Device :=
  { dev with log := dev.log ++
      [Event.cmd 0x21, Event.cmd 0x00, Event.cmd 0x7F,
       Event.cmd 0x22, Event.cmd 0x00, Event.cmd 0x07, Event.data dev.buffer] }

/-- The call `vTaskDelay(tick_delay_ms / portTICK_PERIOD_MS)`; the FreeRTOS
constant `portTICK_PERIOD_MS` is a parameter. -/
def task_delay (portTICK_PERIOD_MS tick_delay_ms : Nat) (dev : Device) : Device :=
  { dev with log := dev.log ++ [Event.delay (tick_delay_ms / portTICK_PERIOD_MS)] }

/-- The function `ssd1306_overwrite_string_char_by_char`: one round of the
`while (*old_str || *new_str)` loop per character position. -/
def ssd1306_overwrite_string_char_by_char (portTICK_PERIOD_MS : Nat) (x y : Nat)
    (old_str new_str : CString) (size_x size_y tick_delay_ms : Nat) (dev : Device) : Device :=
  match old_str, new_str with
  | [], [] => dev
  | o :: os, n :: ns =>
    ssd1306_overwrite_string_char_by_char portTICK_PERIOD_MS ((x + 6 * size_x) % 256) y os ns
      size_x size_y tick_delay_ms
      (task_delay portTICK_PERIOD_MS tick_delay_ms
        (ssd1306_display
          { dev with buffer :=
              ssd1306_overwrite_char x y o n size_x size_y size_x size_y dev.buffer }))
  | [], n :: ns =>
    ssd1306_overwrite_string_char_by_char portTICK_PERIOD_MS ((x + 6 * size_x) % 256) y [] ns
      size_x size_y tick_delay_ms
      (task_delay portTICK_PERIOD_MS tick_delay_ms
        (ssd1306_display
          { dev with buffer := ssd1306_draw_char x y n size_x size_y COLOR_WHITE dev.buffer }))
  | o :: os, [] =>
    ssd1306_overwrite_string_char_by_char portTICK_PERIOD_MS ((x + 6 * size_x) % 256) y os []
      size_x size_y tick_delay_ms
      (task_delay portTICK_PERIOD_MS tick_delay_ms
        (ssd1306_display
          { dev with buffer := ssd1306_draw_char x y o size_x size_y COLOR_BLACK dev.buffer }))
termination_by old_str.length + new_str.length

/-- The value of a pixel after a sequence of writes, given its value before. -/
def write_map (ws : List Write) (p q : Nat) (v : Bool) : Bool :=
  (last_write ws p q).getD v

/-- The value of pixel `(p, q)` after `ssd1306_draw_char`, given its value before. -/
def char_map (x y c size_x size_y : Nat) (color : Bool) (p q : Nat) (v : Bool) : Bool :=
  write_map (draw_char_writes x y c size_x size_y color) p q v

/-- The value of pixel `(p, q)` after `ssd1306_draw_string`, given its value before. -/
def string_map (x y : Nat) (str : CString) (size_x size_y : Nat) (color : Bool)
    (p q : Nat) (v : Bool) : Bool :=
  match str with
  | [] => v
  | c :: rest =>
    string_map ((x + 6 * size_x) % 256) y rest size_x size_y color p q
      (char_map x y c size_x size_y color p q v)

/-- The `ssd1306_draw_char` calls of `ssd1306_draw_string`, in order. -/
def string_calls (x y : Nat) (str : CString) (size_x : Nat) : List CharCall :=
  match str with
  | [] => []
  | c :: rest => (x, y, c) :: string_calls ((x + 6 * size_x) % 256) y rest size_x

/-! ## Step counters of the line loop -/

/-- The loop of `ssd1306_draw_line` on step counters: `i` steps taken along x,
`j` along y, `a = dx`, `b = -dy`, the same error term `e`; the result lists the
counter pairs of the plotted points, `none` when the fuel runs out. -/
def bres_loop (a b : Int) : Nat → Nat → Nat → Int → Option (List (Nat × Nat))
  | 0, _, _, _ => none
  | fuel + 1, i, j, e =>
    if (i : Int) = a ∧ (j : Int) = b then some [(i, j)]
    else
      (bres_loop a b fuel
        (if 2 * e ≥ -b then i + 1 else i)
        (if 2 * e ≤ a then j + 1 else j)
        (if 2 * e ≤ a then (if 2 * e ≥ -b then e + -b else e) + a
          else (if 2 * e ≥ -b then e + -b else e))).map
        (fun pts => (i, j) :: pts)

/-! ## Animated strings -/

/-- The function `ssd1306_draw_string_char_by_char`: per character
`ssd1306_draw_char`, the cursor advance, `vTaskDelay`, then `ssd1306_display`. -/
def ssd1306_draw_string_char_by_char (portTICK_PERIOD_MS : Nat) (x y : Nat) (str : CString)
    (size_x size_y tick_delay_ms : Nat) (color : Bool) (dev : Device) : Device :=
  match str with
  | [] => dev
  | c :: rest =>
    ssd1306_draw_string_char_by_char portTICK_PERIOD_MS ((x + 6 * size_x) % 256) y rest
      size_x size_y tick_delay_ms color
      (ssd1306_display
        (task_delay portTICK_PERIOD_MS tick_delay_ms
          { dev with buffer := ssd1306_draw_char x y c size_x size_y color dev.buffer }))

/-- The `while (*str)` loop of `ssd1306_draw_string_wrapped_char_by_char`, from
the cursor `(x, y)`: the wrap test of `ssd1306_draw_string_wrapped`, then per
character `ssd1306_draw_char`, the cursor advance, `vTaskDelay`, then
`ssd1306_display`. -/
def draw_string_wrapped_char_by_char_loop (portTICK_PERIOD_MS start_x size_x size_y
    tick_delay_ms : Nat) (color : Bool) : Nat → Nat → CString → Device → Device
  | _, _, [], dev => dev
  | x, y, c :: rest, dev =>
    if x + 6 * size_x ≥ SCREEN_WIDTH then
      if (y + 8 * size_y) % 256 ≥ SCREEN_HEIGHT then dev
      else
        draw_string_wrapped_char_by_char_loop portTICK_PERIOD_MS start_x size_x size_y
          tick_delay_ms color ((start_x + 6 * size_x) % 256) ((y + 8 * size_y) % 256) rest
          (ssd1306_display
            (task_delay portTICK_PERIOD_MS tick_delay_ms
              { dev with buffer :=
                  ssd1306_draw_char start_x ((y + 8 * size_y) % 256) c size_x size_y color dev.buffer }))
    else
      draw_string_wrapped_char_by_char_loop portTICK_PERIOD_MS start_x size_x size_y
        tick_delay_ms color ((x + 6 * size_x) % 256) y rest
        (ssd1306_display
          (task_delay portTICK_PERIOD_MS tick_delay_ms
            { dev with buffer := ssd1306_draw_char x y c size_x size_y color dev.buffer }))

/-- The function `ssd1306_draw_string_wrapped_char_by_char`. -/
def ssd1306_draw_string_wrapped_char_by_char (portTICK_PERIOD_MS : Nat) (x y : Nat)
    (str : CString) (size_x size_y tick_delay_ms : Nat) (color : Bool) (dev : Device) :
    Device :=
  draw_string_wrapped_char_by_char_loop portTICK_PERIOD_MS x size_x size_y tick_delay_ms color
    x y str dev

/-- The wrap test at the head of the loop body of
`ssd1306_overwrite_string_wrapped_char_by_char`:
`if (x + (6 * size_x) > SCREEN_WIDTH) { x = start_x; y += (8 * size_y); if (y >= SCREEN_HEIGHT) break; }`.
The result is the cursor after the test, `none` for the `break`. -/
def overwrite_wrap_cursor (start_x size_x size_y x y : Nat) : Option (Nat × Nat) :=
  if x + 6 * size_x > SCREEN_WIDTH then
    if (y + 8 * size_y) % 256 ≥ SCREEN_HEIGHT then none
    else some (start_x, (y + 8 * size_y) % 256)
  else some (x, y)

/-- The `while (*old_str || *new_str)` loop of
`ssd1306_overwrite_string_wrapped_char_by_char`, from the cursor `(x, y)`. -/
def overwrite_string_wrapped_loop (portTICK_PERIOD_MS start_x size_x size_y
    tick_delay_ms : Nat) (x y : Nat) (old_str new_str : CString) (dev : Device) : Device :=
  match old_str, new_str with
  | [], [] => dev
  | o :: os, n :: ns =>
    match overwrite_wrap_cursor start_x size_x size_y x y with
    | none => dev
    | some p =>
      overwrite_string_wrapped_loop portTICK_PERIOD_MS start_x size_x size_y tick_delay_ms
        ((p.1 + 6 * size_x) % 256) p.2 os ns
        (task_delay portTICK_PERIOD_MS tick_delay_ms
          (ssd1306_display
            { dev with buffer :=
                ssd1306_overwrite_char p.1 p.2 o n size_x size_y size_x size_y dev.buffer }))
  | [], n :: ns =>
    match overwrite_wrap_cursor start_x size_x size_y x y with
    | none => dev
    | some p =>
      overwrite_string_wrapped_loop portTICK_PERIOD_MS start_x size_x size_y tick_delay_ms
        ((p.1 + 6 * size_x) % 256) p.2 [] ns
        (task_delay portTICK_PERIOD_MS tick_delay_ms
          (ssd1306_display
            { dev with buffer :=
                ssd1306_draw_char p.1 p.2 n size_x size_y COLOR_WHITE dev.buffer }))
  | o :: os, [] =>
    match overwrite_wrap_cursor start_x size_x size_y x y with
    | none => dev
    | some p =>
      overwrite_string_wrapped_loop portTICK_PERIOD_MS start_x size_x size_y tick_delay_ms
        ((p.1 + 6 * size_x) % 256) p.2 os []
        (task_delay portTICK_PERIOD_MS tick_delay_ms
          (ssd1306_display
            { dev with buffer :=
                ssd1306_draw_char p.1 p.2 o size_x size_y COLOR_BLACK dev.buffer }))
termination_by old_str.length + new_str.length

/-- The function `ssd1306_overwrite_string_wrapped_char_by_char`. -/
def ssd1306_overwrite_string_wrapped_char_by_char (portTICK_PERIOD_MS : Nat) (x y : Nat)
    (old_str new_str : CString) (size_x size_y tick_delay_ms : Nat) (dev : Device) : Device :=
  overwrite_string_wrapped_loop portTICK_PERIOD_MS x size_x size_y tick_delay_ms x y
    old_str new_str dev

/-- The events of one `ssd1306_display` call that sends the buffer `fb`. -/
def display_events (fb : Framebuffer) : List Event :=
  [Event.cmd 0x21, Event.cmd 0x00, Event.cmd 0x7F,
   Event.cmd 0x22, Event.cmd 0x00, Event.cmd 0x07, Event.data fb]

/-- Performing a sequence of `ssd1306_draw_char` calls, each followed by
`vTaskDelay` and then `ssd1306_display`. -/
def animate_char_calls (portTICK_PERIOD_MS : Nat) (calls : List CharCall)
    (size_x size_y tick_delay_ms : Nat) (color : Bool) (dev : Device) : Device :=
  calls.foldl
    (fun d p =>
      ssd1306_display
        (task_delay portTICK_PERIOD_MS tick_delay_ms
          { d with buffer := ssd1306_draw_char p.1 p.2.1 p.2.2 size_x size_y color d.buffer }))
    dev

/-! ## Points of the line loop -/

/-- The successive values of `(x0, y0)` at the head of the loop body of
`ssd1306_draw_line`, before the conversion to `uint8_t` in the call of
`ssd1306_draw_pixel`; `none` when the fuel runs out before the `break`. -/
def line_loop_points (x1 y1 dx sx dy sy : Int) :
    Nat → Int → Int → Int → Option (List (Int × Int))
  | 0, _, _, _ => none
  | fuel + 1, x0, y0, err =>
    if x0 = x1 ∧ y0 = y1 then some [(x0, y0)]
    else
      (line_loop_points x1 y1 dx sx dy sy fuel
        (line_step dx sx dy sy x0 y0 err).1 (line_step dx sx dy sy x0 y0 err).2.1
        (line_step dx sx dy sy x0 y0 err).2.2).map
        (fun ps => (x0, y0) :: ps)

/-- The successive values of `(x0, y0)` in `ssd1306_draw_line`, with the fuel
of `ssd1306_draw_line`. -/
def line_points (x0 y0 x1 y1 : Int) : Option (List (Int × Int)) :=
  line_loop_points x1 y1 (line_dx x0 x1) (if x0 < x1 then 1 else -1) (line_dy y0 y1)
    (if y0 < y1 then 1 else -1)
    ((|x1 - x0| + |y1 - y0|).toNat + 1) x0 y0 (wrap_int (line_dx x0 x1 + line_dy y0 y1))

/-- The values of `(x0, y0)` in the first `n` rounds of the loop of
`ssd1306_draw_line` (fewer when the loop breaks earlier). -/
def line_loop_prefix (x1 y1 dx sx dy sy : Int) : Nat → Int → Int → Int → List (Int × Int)
  | 0, _, _, _ => []
  | n + 1, x0, y0, err =>
    (x0, y0) ::
      (if x0 = x1 ∧ y0 = y1 then []
        else
          line_loop_prefix x1 y1 dx sx dy sy n
            (line_step dx sx dy sy x0 y0 err).1 (line_step dx sx dy sy x0 y0 err).2.1
            (line_step dx sx dy sy x0 y0 err).2.2)

/-- The values of `(x0, y0)` in the first `n` rounds of the loop of
`ssd1306_draw_line(x0, y0, x1, y1, color)`. -/
def line_prefix (n : Nat) (x0 y0 x1 y1 : Int) : List (Int × Int) :=
  line_loop_prefix x1 y1 (line_dx x0 x1) (if x0 < x1 then 1 else -1) (line_dy y0 y1)
    (if y0 < y1 then 1 else -1) n x0 y0 (wrap_int (line_dx x0 x1 + line_dy y0 y1))

/-! ## Columns of the filled circle -/

/-- A framebuffer in which every column is blank or holds exactly one run of
ON pixels, centred on row `y0` and of half-height at most `r`. -/
def CentredRuns (y0 r : Nat) (fb : Framebuffer) : Prop :=
  ∀ p, p < 128 →
    (∀ q, q < 64 → get_pixel fb p q = false) ∨
    ∃ h, h ≤ r ∧ ∀ q, q < 64 → (get_pixel fb p q = true ↔ (y0 - h ≤ q ∧ q ≤ y0 + h))

/-! ## Basic facts about the framebuffer -/

theorem BUFFER_SIZE_eq : BUFFER_SIZE = 1024 := by decide

theorem wf_clear (fb : Framebuffer) : (ssd1306_clear fb).WF := by
  refine ⟨by simp [ssd1306_clear], ?_⟩
  intro b hb
  simp [ssd1306_clear] at hb
  omega

theorem length_draw_pixel (x y : Nat) (c : Bool) (fb : Framebuffer) :
    (ssd1306_draw_pixel x y c fb).length = fb.length := by
  unfold ssd1306_draw_pixel
  split_ifs <;> simp

theorem wf_draw_pixel (x y : Nat) (c : Bool) (fb : Framebuffer) (h : fb.WF) :
    (ssd1306_draw_pixel x y c fb).WF := by
  refine ⟨by rw [length_draw_pixel]; exact h.1, ?_⟩
  intro b hb
  unfold ssd1306_draw_pixel at hb
  split_ifs at hb
  · exact h.2 b hb
  · rcases List.mem_or_eq_of_mem_set hb with hb | hb
    · exact h.2 b hb
    · rw [hb]; exact Nat.mod_lt _ (by norm_num)
  · rcases List.mem_or_eq_of_mem_set hb with hb | hb
    · exact h.2 b hb
    · rw [hb]; exact Nat.mod_lt _ (by norm_num)

theorem index_lt (x y : Nat) (hx : x < 128) (hy : y < 64) : x + 128 * (y / 8) < 1024 := by
  omega

/-- Bit `k` of a byte after `|= (1 << m)`, stored as `uint8_t`. -/
theorem testBit_set_bit (b m k : Nat) (hb : b < 256) (hm : m < 8) :
    ((b ||| (1 <<< m)) % 256).testBit k = if k = m then true else b.testBit k := by
  have h256 : (256 : Nat) = 2 ^ 8 := by norm_num
  rw [h256, Nat.testBit_mod_two_pow, Nat.testBit_or, Nat.one_shiftLeft, Nat.testBit_two_pow]
  by_cases hk : k = m
  · subst hk; simp [hm]
  · have hk2 : ¬ m = k := fun h => hk h.symm
    simp only [hk, hk2, if_false, decide_False, Bool.or_false]
    by_cases h8 : k < 8
    · simp [h8]
    · have : b.testBit k = false :=
        Nat.testBit_lt_two_pow (lt_of_lt_of_le hb (by
          calc (256 : Nat) = 2 ^ 8 := by norm_num
            _ ≤ 2 ^ k := Nat.pow_le_pow_right (by norm_num) (by omega)))
      simp [h8, this]

/-- Bit `k` of a byte after `&= ~(1 << m)`, stored as `uint8_t`. -/
theorem testBit_clear_bit (b m k : Nat) (hb : b < 256) (hm : m < 8) :
    ((b &&& (0xFFFFFFFF ^^^ (1 <<< m))) % 256).testBit k =
      if k = m then false else b.testBit k := by
  have h256 : (256 : Nat) = 2 ^ 8 := by norm_num
  have hff : (0xFFFFFFFF : Nat) = 2 ^ 32 - 1 := by norm_num
  rw [h256, Nat.testBit_mod_two_pow, Nat.testBit_and, Nat.testBit_xor, Nat.one_shiftLeft,
    Nat.testBit_two_pow, hff, Nat.testBit_two_pow_sub_one]
  by_cases hk : k = m
  · subst hk
    have : k < 32 := by omega
    simp [hm, this]
  · have hk2 : ¬ m = k := fun h => hk h.symm
    simp only [hk, hk2, if_false, decide_False]
    by_cases h8 : k < 8
    · have : k < 32 := by omega
      simp [h8, this]
    · have : b.testBit k = false :=
        Nat.testBit_lt_two_pow (lt_of_lt_of_le hb (by
          calc (256 : Nat) = 2 ^ 8 := by norm_num
            _ ≤ 2 ^ k := Nat.pow_le_pow_right (by norm_num) (by omega)))
      simp [h8, this]

theorem getD_lt_256 (fb : Framebuffer) (h : fb.WF) (idx : Nat) : fb.getD idx 0 < 256 := by
  rw [List.getD_eq_getElem?_getD]
  by_cases hi : idx < fb.length
  · rw [List.getElem?_eq_getElem hi]
    exact h.2 _ (List.getElem_mem _)
  · rw [List.getElem?_eq_none (by omega)]
    simp

/-- Every bit of every byte after one `ssd1306_draw_pixel` on an on-screen
coordinate: the addressed bit takes the colour, all others keep their value. -/
theorem testBit_draw_pixel (fb : Framebuffer) (h : fb.WF) (x y : Nat) (c : Bool)
    (hx : x < 128) (hy : y < 64) (idx bit : Nat) :
    ((ssd1306_draw_pixel x y c fb).getD idx 0).testBit bit =
      if idx = x + 128 * (y / 8) ∧ bit = y % 8 then c else (fb.getD idx 0).testBit bit := by
  have hlen : fb.length = 1024 := by rw [h.1, BUFFER_SIZE_eq]
  have hidx : x + y / 8 * 128 < fb.length := by omega
  have hm : y % 8 < 8 := Nat.mod_lt _ (by norm_num)
  have hb := getD_lt_256 fb h (x + y / 8 * 128)
  have hcomm : x + 128 * (y / 8) = x + y / 8 * 128 := by omega
  unfold ssd1306_draw_pixel
  simp only [SCREEN_WIDTH, SCREEN_HEIGHT]
  rw [if_neg (by omega)]
  rw [hcomm]
  by_cases hi : idx = x + y / 8 * 128
  · subst hi
    cases c
    · simp only [Bool.false_eq_true, if_false, true_and]
      rw [List.getD_eq_getElem?_getD, List.getElem?_set_self hidx, Option.getD_some,
        testBit_clear_bit _ _ _ hb hm]
    · simp only [if_true, true_and]
      rw [List.getD_eq_getElem?_getD, List.getElem?_set_self hidx, Option.getD_some,
        testBit_set_bit _ _ _ hb hm]
  · have hne : x + y / 8 * 128 ≠ idx := fun e => hi e.symm
    simp only [hi, false_and, if_false]
    cases c
    · simp only [Bool.false_eq_true, if_false]
      rw [List.getD_eq_getElem?_getD, List.getElem?_set_ne hne, ← List.getD_eq_getElem?_getD]
    · simp only [if_true]
      rw [List.getD_eq_getElem?_getD, List.getElem?_set_ne hne, ← List.getD_eq_getElem?_getD]

/-- Pixel-level effect of one `ssd1306_draw_pixel` call, any coordinates. -/
theorem get_pixel_draw_pixel (fb : Framebuffer) (h : fb.WF) (x y : Nat) (c : Bool)
    (i j : Nat) (hi : i < 128) (hj : j < 64) :
    get_pixel (ssd1306_draw_pixel x y c fb) i j =
      if x = i ∧ y = j then c else get_pixel fb i j := by
  by_cases hxy : x < 128 ∧ y < 64
  · unfold get_pixel
    simp only [SCREEN_WIDTH]
    rw [testBit_draw_pixel fb h x y c hxy.1 hxy.2]
    by_cases e : x = i ∧ y = j
    · rw [if_pos e, if_pos ⟨by rw [e.1, e.2], by rw [e.2]⟩]
    · rw [if_neg e, if_neg]
      rintro ⟨h1, h2⟩
      apply e
      omega
  · have hno : ¬ (x = i ∧ y = j) := by
      rintro ⟨rfl, rfl⟩
      exact hxy ⟨hi, hj⟩
    rw [if_neg hno]
    unfold ssd1306_draw_pixel
    simp only [SCREEN_WIDTH, SCREEN_HEIGHT]
    rw [if_pos (by omega)]

theorem apply_writes_nil (fb : Framebuffer) : apply_writes [] fb = fb := rfl

theorem apply_writes_cons (w : Write) (ws : List Write) (fb : Framebuffer) :
    apply_writes (w :: ws) fb = apply_writes ws (ssd1306_draw_pixel w.1 w.2.1 w.2.2 fb) := rfl

theorem apply_writes_append (ws1 ws2 : List Write) (fb : Framebuffer) :
    apply_writes (ws1 ++ ws2) fb = apply_writes ws2 (apply_writes ws1 fb) := by
  simp [apply_writes]

theorem wf_apply_writes (ws : List Write) (fb : Framebuffer) (h : fb.WF) :
    (apply_writes ws fb).WF := by
  induction ws generalizing fb with
  | nil => exact h
  | cons w ws ih =>
    rw [apply_writes_cons]
    exact ih _ (wf_draw_pixel _ _ _ _ h)

/-- Pixel-level effect of a sequence of writes: the last write to a pixel
decides its value, and a pixel nobody writes keeps its value. -/
theorem get_pixel_apply_writes (ws : List Write) (fb : Framebuffer) (h : fb.WF)
    (i j : Nat) (hi : i < 128) (hj : j < 64) :
    get_pixel (apply_writes ws fb) i j = (last_write ws i j).getD (get_pixel fb i j) := by
  induction ws generalizing fb with
  | nil => rfl
  | cons w ws ih =>
    rw [apply_writes_cons, ih _ (wf_draw_pixel _ _ _ _ h)]
    simp only [last_write]
    cases hl : last_write ws i j with
    | some c => simp
    | none =>
      simp only [Option.getD_none]
      rw [get_pixel_draw_pixel fb h _ _ _ i j hi hj]
      by_cases e : w.1 = i ∧ w.2.1 = j
      · simp [e]
      · simp [e]

/-- Two well-formed framebuffers with the same 128x64 pixels are equal. -/
theorem framebuffer_ext (fb1 fb2 : Framebuffer) (h1 : fb1.WF) (h2 : fb2.WF)
    (hp : ∀ i j, i < 128 → j < 64 → get_pixel fb1 i j = get_pixel fb2 i j) : fb1 = fb2 := by
  have hl1 : fb1.length = 1024 := by rw [h1.1, BUFFER_SIZE_eq]
  have hl2 : fb2.length = 1024 := by rw [h2.1, BUFFER_SIZE_eq]
  apply List.ext_getElem (by rw [hl1, hl2])
  intro n hn1 hn2
  have e1 : fb1.getD n 0 = fb1[n] := by
    rw [List.getD_eq_getElem?_getD, List.getElem?_eq_getElem hn1, Option.getD_some]
  have e2 : fb2.getD n 0 = fb2[n] := by
    rw [List.getD_eq_getElem?_getD, List.getElem?_eq_getElem hn2, Option.getD_some]
  rw [← e1, ← e2]
  apply Nat.eq_of_testBit_eq
  intro k
  by_cases hk : k < 8
  · have := hp (n % 128) (8 * (n / 128) + k) (Nat.mod_lt _ (by norm_num)) (by omega)
    unfold get_pixel at this
    simp only [SCREEN_WIDTH] at this
    have ea : n % 128 + 128 * ((8 * (n / 128) + k) / 8) = n := by omega
    have eb : (8 * (n / 128) + k) % 8 = k := by omega
    rw [ea, eb] at this
    exact this
  · have hpow : (256 : Nat) ≤ 2 ^ k := by
      calc (256 : Nat) = 2 ^ 8 := by norm_num
        _ ≤ 2 ^ k := Nat.pow_le_pow_right (by norm_num) (by omega)
    rw [Nat.testBit_lt_two_pow (lt_of_lt_of_le (getD_lt_256 fb1 h1 n) hpow),
      Nat.testBit_lt_two_pow (lt_of_lt_of_le (getD_lt_256 fb2 h2 n) hpow)]

/-! ## Lemmas on write sequences -/

theorem foldl_apply_writes {α : Type} (f : α → List Write) (l : List α) (fb : Framebuffer) :
    l.foldl (fun fb a => apply_writes (f a) fb) fb = apply_writes (l.flatMap f) fb := by
  induction l generalizing fb with
  | nil => rfl
  | cons a l ih =>
    rw [List.foldl_cons, ih, List.flatMap_cons, apply_writes_append]

theorem foldl_draw_pixel {α : Type} (g : α → Write) (l : List α) (fb : Framebuffer) :
    l.foldl (fun fb a => ssd1306_draw_pixel (g a).1 (g a).2.1 (g a).2.2 fb) fb =
      apply_writes (l.map g) fb := by
  induction l generalizing fb with
  | nil => rfl
  | cons a l ih =>
    rw [List.foldl_cons, ih, List.map_cons, apply_writes_cons]

theorem last_write_eq_none (ws : List Write) (i j : Nat) :
    last_write ws i j = none ↔ ∀ w ∈ ws, ¬ (w.1 = i ∧ w.2.1 = j) := by
  induction ws with
  | nil => simp [last_write]
  | cons w ws ih =>
    simp only [last_write, List.mem_cons, forall_eq_or_imp]
    cases hl : last_write ws i j with
    | some c =>
      simp only [false_iff, reduceCtorEq]
      intro hh
      rw [ih.mpr hh.2] at hl
      cases hl
    | none =>
      have := ih.mp hl
      by_cases e : w.1 = i ∧ w.2.1 = j
      · simp [e]
      · simp only [e, if_false, true_iff, not_false_eq_true, true_and]
        exact this

theorem last_write_eq_some (ws : List Write) (i j : Nat) (c : Bool)
    (h : last_write ws i j = some c) : (i, j, c) ∈ ws := by
  induction ws with
  | nil => simp [last_write] at h
  | cons w ws ih =>
    simp only [last_write] at h
    cases hl : last_write ws i j with
    | some c' =>
      rw [hl] at h
      simp only [Option.some.injEq] at h
      subst h
      exact List.mem_cons_of_mem _ (ih hl)
    | none =>
      rw [hl] at h
      by_cases e : w.1 = i ∧ w.2.1 = j
      · simp only [e, and_self, if_true, Option.some.injEq] at h
        have : w = (i, j, c) := by
          rcases w with ⟨a, b, d⟩
          simp only at e h
          rw [e.1, e.2, h]
        rw [this]
        exact List.mem_cons_self _ _
      · simp [e] at h

/-- When all writes of a sequence carry the same colour, a pixel takes that
colour if some write addresses it and keeps its value otherwise. -/
theorem get_pixel_apply_writes_uniform (ws : List Write) (c : Bool)
    (hc : ∀ w ∈ ws, w.2.2 = c) (fb : Framebuffer) (h : fb.WF)
    (i j : Nat) (hi : i < 128) (hj : j < 64) :
    get_pixel (apply_writes ws fb) i j =
      if (i, j, c) ∈ ws then c else get_pixel fb i j := by
  rw [get_pixel_apply_writes ws fb h i j hi hj]
  cases hl : last_write ws i j with
  | none =>
    have hn := (last_write_eq_none ws i j).mp hl
    have : (i, j, c) ∉ ws := fun hm => hn _ hm ⟨rfl, rfl⟩
    simp [this]
  | some c' =>
    have hm := last_write_eq_some ws i j c' hl
    have : c' = c := hc _ hm
    subst this
    simp [hm]

/-! ## Framebuffer operations (section 4.1) -/

/-- C1: for a 1024-byte framebuffer and on-screen `(x, y)`, after
`ssd1306_draw_pixel(x, y, c)` the pixel `(x, y)`, which is bit `y mod 8` of the
byte with index `x + 128 * (y div 8) < 1024`, reads `c`; the framebuffer still
has 1024 bytes and every other bit of every byte is unchanged. -/
theorem draw_pixel_sets_exactly_one_bit (fb : Framebuffer) (h : fb.WF) (x y : Nat) (c : Bool)
    (hx : x < 128) (hy : y < 64) :
    x + 128 * (y / 8) < 1024 ∧
    get_pixel (ssd1306_draw_pixel x y c fb) x y = c ∧
    ((ssd1306_draw_pixel x y c fb).getD (x + 128 * (y / 8)) 0).testBit (y % 8) = c ∧
    (ssd1306_draw_pixel x y c fb).length = 1024 ∧
    ∀ idx bit, ¬ (idx = x + 128 * (y / 8) ∧ bit = y % 8) →
      ((ssd1306_draw_pixel x y c fb).getD idx 0).testBit bit = (fb.getD idx 0).testBit bit := by
  refine ⟨index_lt x y hx hy, ?_, ?_, ?_, ?_⟩
  · rw [get_pixel_draw_pixel fb h x y c x y hx hy]
    simp
  · rw [testBit_draw_pixel fb h x y c hx hy]
    simp
  · rw [length_draw_pixel, h.1, BUFFER_SIZE_eq]
  · intro idx bit hne
    rw [testBit_draw_pixel fb h x y c hx hy, if_neg hne]

theorem draw_pixel_sets_exactly_one_bit_witness :
    get_pixel (ssd1306_draw_pixel 5 10 true (ssd1306_clear [])) 5 10 = true :=
  (draw_pixel_sets_exactly_one_bit (ssd1306_clear []) (wf_clear []) 5 10 true
    (by decide) (by decide)).2.1

/-- C2: for `(x, y)` with `x >= 128` or `y >= 64` (in particular every such 8-bit
pair), `ssd1306_draw_pixel` returns the framebuffer unchanged, whatever the
framebuffer and the colour: no byte is touched. -/
theorem draw_pixel_out_of_bounds_noop (fb : Framebuffer) (x y : Nat) (c : Bool)
    (hout : x ≥ 128 ∨ y ≥ 64) :
    ssd1306_draw_pixel x y c fb = fb := by
  unfold ssd1306_draw_pixel
  simp only [SCREEN_WIDTH, SCREEN_HEIGHT]
  rw [if_pos hout]

theorem draw_pixel_out_of_bounds_noop_witness :
    ssd1306_draw_pixel 128 0 true [1, 2, 3] = [1, 2, 3] :=
  draw_pixel_out_of_bounds_noop [1, 2, 3] 128 0 true (by decide)

/-- C3: after `ssd1306_clear()` the framebuffer has 1024 bytes, all of them
`0x00`, and every one of the 128x64 pixels reads OFF, whatever it held before. -/
theorem clear_all_pixels_off (fb : Framebuffer) :
    (ssd1306_clear fb).length = 1024 ∧
    (∀ b ∈ ssd1306_clear fb, b = 0x00) ∧
    (∀ idx, idx < 1024 → (ssd1306_clear fb).getD idx 0xFF = 0x00) ∧
    ∀ x y, x < 128 → y < 64 → get_pixel (ssd1306_clear fb) x y = false := by
  refine ⟨?_, ?_, ?_, ?_⟩
  · unfold ssd1306_clear
    rw [List.length_replicate, BUFFER_SIZE_eq]
  · intro b hb
    unfold ssd1306_clear at hb
    exact (List.mem_replicate.mp hb).2
  · intro idx hidx
    have : idx < BUFFER_SIZE := by rw [BUFFER_SIZE_eq]; exact hidx
    unfold ssd1306_clear
    rw [List.getD_eq_getElem?_getD, List.getElem?_replicate, if_pos this, Option.getD_some]
  · intro x y hx hy
    have : x + 128 * (y / 8) < BUFFER_SIZE := by rw [BUFFER_SIZE_eq]; omega
    unfold get_pixel ssd1306_clear
    simp only [SCREEN_WIDTH]
    rw [List.getD_eq_getElem?_getD, List.getElem?_replicate, if_pos this, Option.getD_some]
    exact Nat.zero_testBit _

/-! ## Filled rectangle (section 4.2) -/

theorem draw_full_rect_eq_writes (x y w h : Nat) (c : Bool) (fb : Framebuffer) :
    ssd1306_draw_full_rect x y w h c fb = apply_writes (full_rect_writes x y w h c) fb := by
  unfold ssd1306_draw_full_rect full_rect_writes
  rw [← foldl_apply_writes]
  congr 1
  funext fb i
  exact foldl_draw_pixel (fun j => (i, j, c)) _ fb

theorem mem_range'_clip (x w n a : Nat) :
    a ∈ List.range' x (min (x + w) n - x) ↔ x ≤ a ∧ a < x + w ∧ a < n := by
  rw [List.mem_range'_1]
  rcases Nat.le_total (x + w) n with hle | hle
  · rw [Nat.min_eq_left hle]; omega
  · rw [Nat.min_eq_right hle]; omega

theorem mem_full_rect_writes (x y w h : Nat) (c : Bool) (i j : Nat) (c' : Bool) :
    (i, j, c') ∈ full_rect_writes x y w h c ↔
      (x ≤ i ∧ i < x + w ∧ i < 128) ∧ (y ≤ j ∧ j < y + h ∧ j < 64) ∧ c' = c := by
  unfold full_rect_writes
  simp only [List.mem_flatMap, List.mem_map, mem_range'_clip, SCREEN_WIDTH, SCREEN_HEIGHT,
    Prod.mk.injEq]
  constructor
  · rintro ⟨a, ha, b, hb, e1, e2, e3⟩
    subst e1 e2 e3
    exact ⟨ha, hb, rfl⟩
  · rintro ⟨hi, hj, e⟩
    exact ⟨i, hi, j, hj, rfl, rfl, e.symm⟩

theorem get_pixel_draw_full_rect (fb : Framebuffer) (hwf : fb.WF) (x y w h : Nat) (c : Bool)
    (i j : Nat) (hi : i < 128) (hj : j < 64) :
    get_pixel (ssd1306_draw_full_rect x y w h c fb) i j =
      if (x ≤ i ∧ i < x + w) ∧ (y ≤ j ∧ j < y + h) then c else get_pixel fb i j := by
  rw [draw_full_rect_eq_writes, get_pixel_apply_writes_uniform _ c _ fb hwf i j hi hj]
  · by_cases hb : (x ≤ i ∧ i < x + w) ∧ (y ≤ j ∧ j < y + h)
    · rw [if_pos hb, if_pos]
      rw [mem_full_rect_writes]
      exact ⟨⟨hb.1.1, hb.1.2, hi⟩, ⟨hb.2.1, hb.2.2, hj⟩, rfl⟩
    · rw [if_neg hb, if_neg]
      rw [mem_full_rect_writes]
      rintro ⟨h1, h2, -⟩
      exact hb ⟨⟨h1.1, h1.2.1⟩, ⟨h2.1, h2.2.1⟩⟩
  · rintro ⟨a, b, d⟩ hm
    exact ((mem_full_rect_writes x y w h c a b d).mp hm).2.2

theorem get_pixel_clear (fb : Framebuffer) (x y : Nat) :
    get_pixel (ssd1306_clear fb) x y = false := by
  unfold get_pixel ssd1306_clear
  rw [List.getD_eq_getElem?_getD, List.getElem?_replicate]
  split_ifs
  · exact Nat.zero_testBit _
  · exact Nat.zero_testBit _

/-- C4: on any 1024-byte framebuffer `ssd1306_draw_full_rect(x, y, w, h, colour)`
gives every on-screen pixel `(i, j)` with `x <= i < x+w` and `y <= j < y+h` the
colour and leaves every other on-screen pixel unchanged; so on a cleared
framebuffer with colour ON a pixel is ON iff it lies in the box, and
`draw_full_rect(0, 0, w, h, ON)` sets exactly `min(w,128) * min(h,64)` pixels. -/
theorem draw_full_rect_paints_clipped_box (fb : Framebuffer) (hwf : fb.WF)
    (x y w h : Nat) (c : Bool) :
    (∀ i j, i < 128 → j < 64 →
      get_pixel (ssd1306_draw_full_rect x y w h c fb) i j =
        if (x ≤ i ∧ i < x + w) ∧ (y ≤ j ∧ j < y + h) then c else get_pixel fb i j) ∧
    (∀ i j, i < 128 → j < 64 →
      (get_pixel (ssd1306_draw_full_rect x y w h true (ssd1306_clear fb)) i j = true ↔
        (x ≤ i ∧ i < x + w) ∧ (y ≤ j ∧ j < y + h))) ∧
    count_on (ssd1306_draw_full_rect 0 0 w h true (ssd1306_clear fb)) =
      min w 128 * min h 64 := by
  refine ⟨fun i j hi hj => get_pixel_draw_full_rect fb hwf x y w h c i j hi hj, ?_, ?_⟩
  · intro i j hi hj
    rw [get_pixel_draw_full_rect _ (wf_clear fb) x y w h true i j hi hj, get_pixel_clear]
    by_cases hb : (x ≤ i ∧ i < x + w) ∧ (y ≤ j ∧ j < y + h)
    · simp [hb]
    · simp [hb]
  · unfold count_on
    have hset : (Finset.range SCREEN_WIDTH ×ˢ Finset.range SCREEN_HEIGHT).filter
        (fun p => get_pixel (ssd1306_draw_full_rect 0 0 w h true (ssd1306_clear fb)) p.1 p.2
          = true) = Finset.range (min w 128) ×ˢ Finset.range (min h 64) := by
      ext ⟨i, j⟩
      simp only [Finset.mem_filter, Finset.mem_product, Finset.mem_range, SCREEN_WIDTH,
        SCREEN_HEIGHT]
      constructor
      · rintro ⟨⟨hi, hj⟩, hp⟩
        rw [get_pixel_draw_full_rect _ (wf_clear fb) 0 0 w h true i j hi hj,
          get_pixel_clear] at hp
        by_cases hb : (0 ≤ i ∧ i < 0 + w) ∧ (0 ≤ j ∧ j < 0 + h)
        · omega
        · rw [if_neg hb] at hp
          cases hp
      · rintro ⟨hi, hj⟩
        have hi' : i < 128 := by omega
        have hj' : j < 64 := by omega
        refine ⟨⟨hi', hj'⟩, ?_⟩
        rw [get_pixel_draw_full_rect _ (wf_clear fb) 0 0 w h true i j hi' hj', if_pos]
        omega
    rw [hset, Finset.card_product, Finset.card_range, Finset.card_range]

theorem draw_full_rect_paints_clipped_box_witness :
    count_on (ssd1306_draw_full_rect 0 0 133 5 true (ssd1306_clear (ssd1306_clear []))) =
      min 133 128 * min 5 64 :=
  (draw_full_rect_paints_clipped_box (ssd1306_clear []) (wf_clear []) 0 0 133 5 true).2.2

/-! ## Glyph renderer (section 4.3) -/

theorem draw_char_block_eq_writes (x y i j sx sy : Nat) (c : Bool) (fb : Framebuffer) :
    draw_char_block x y i j sx sy c fb = apply_writes (block_writes x y i j sx sy c) fb := by
  unfold draw_char_block block_writes
  rw [← foldl_apply_writes]
  congr 1
  funext fb dx
  exact foldl_draw_pixel
    (fun dy => ((x + i * sx + dx) % 256, (y + j * sy + dy) % 256, c)) _ fb

theorem and_one_ne_zero_iff (line : Nat) : line &&& 1 ≠ 0 ↔ line.testBit 0 = true := by
  rw [Nat.testBit, Nat.shiftRight_zero, Nat.and_comm]
  simp

/-- The loop over the bits of one column byte, started at bit `k`. -/
theorem column_loop_eq_writes (blk : Nat → List Write) (n k line : Nat) (fb : Framebuffer) :
    ((List.range' k n).foldl
      (fun (st : Framebuffer × Nat) j =>
        (if st.2 &&& 0x01 ≠ 0 then apply_writes (blk j) st.1 else st.1, st.2 >>> 1))
      (fb, line)).1 =
    apply_writes
      ((List.range' k n).flatMap (fun j => if line.testBit (j - k) then blk j else [])) fb := by
  induction n generalizing k line fb with
  | zero => rfl
  | succ n ih =>
    rw [List.range'_succ, List.foldl_cons, List.flatMap_cons, apply_writes_append]
    simp only
    rw [ih (k + 1) (line >>> 1)]
    have hfl : (List.range' (k + 1) n).flatMap
          (fun j => if (line >>> 1).testBit (j - (k + 1)) then blk j else []) =
        (List.range' (k + 1) n).flatMap
          (fun j => if line.testBit (j - k) then blk j else []) := by
      unfold List.flatMap
      congr 1
      apply List.map_congr_left
      intro j hj
      rw [List.mem_range'_1] at hj
      rw [Nat.testBit_shiftRight]
      have : 1 + (j - (k + 1)) = j - k := by omega
      rw [this]
    rw [hfl]
    congr 1
    rw [Nat.sub_self]
    by_cases hb : line.testBit 0 = true
    · rw [if_pos ((and_one_ne_zero_iff line).mpr hb), if_pos hb]
    · rw [if_neg (fun h => hb ((and_one_ne_zero_iff line).mp h)), if_neg hb]
      rfl

theorem draw_char_eq_writes (x y c sx sy : Nat) (col : Bool) (fb : Framebuffer) :
    ssd1306_draw_char x y c sx sy col fb = apply_writes (draw_char_writes x y c sx sy col) fb := by
  unfold ssd1306_draw_char draw_char_writes
  by_cases hc : c < 32 ∨ c > 126
  · rw [if_pos hc, if_pos hc]; rfl
  · rw [if_neg hc, if_neg hc, apply_writes_append]
    simp only
    unfold spacing_writes glyph_writes
    rw [← foldl_apply_writes, ← foldl_apply_writes]
    congr 1
    · funext fb j
      exact draw_char_block_eq_writes x y 5 j sx sy COLOR_BLACK fb
    · congr 1
      funext fb i
      have h := column_loop_eq_writes (fun j => block_writes x y i j sx sy col) 8 0
        (font5x7.getD ((c - 32) * 5 + i) 0) fb
      simp only [Nat.sub_zero, ← List.range_eq_range'] at h
      rw [← h]
      congr 2
      funext st j
      rw [draw_char_block_eq_writes]

theorem mem_block_writes (x y i j sx sy : Nat) (c : Bool) (p q : Nat) (c' : Bool) :
    (p, q, c') ∈ block_writes x y i j sx sy c ↔
      (∃ dx, dx < sx ∧ ∃ dy, dy < sy ∧
        p = (x + i * sx + dx) % 256 ∧ q = (y + j * sy + dy) % 256) ∧ c' = c := by
  unfold block_writes
  simp only [List.mem_flatMap, List.mem_map, List.mem_range, Prod.mk.injEq]
  constructor
  · rintro ⟨dx, hdx, dy, hdy, e1, e2, e3⟩
    exact ⟨⟨dx, hdx, dy, hdy, e1.symm, e2.symm⟩, e3.symm⟩
  · rintro ⟨⟨dx, hdx, dy, hdy, e1, e2⟩, e3⟩
    exact ⟨dx, hdx, dy, hdy, e1.symm, e2.symm, e3.symm⟩

theorem mem_glyph_writes (x y c sx sy : Nat) (col : Bool) (p q : Nat) (c' : Bool) :
    (p, q, c') ∈ glyph_writes x y c sx sy col ↔ glyph_at x y c sx sy p q ∧ c' = col := by
  unfold glyph_writes glyph_at
  simp only [List.mem_flatMap, List.mem_range]
  constructor
  · rintro ⟨i, hi, j, hj, hm⟩
    split_ifs at hm with hb
    · rw [mem_block_writes] at hm
      obtain ⟨⟨dx, hdx, dy, hdy, e1, e2⟩, e3⟩ := hm
      exact ⟨⟨i, hi, j, hj, hb, dx, hdx, dy, hdy, e1, e2⟩, e3⟩
    · simp at hm
  · rintro ⟨⟨i, hi, j, hj, hb, dx, hdx, dy, hdy, e1, e2⟩, e3⟩
    refine ⟨i, hi, j, hj, ?_⟩
    rw [if_pos hb, mem_block_writes]
    exact ⟨⟨dx, hdx, dy, hdy, e1, e2⟩, e3⟩

theorem mem_spacing_writes (x y sx sy : Nat) (p q : Nat) (c' : Bool) :
    (p, q, c') ∈ spacing_writes x y sx sy ↔ spacing_at x y sx sy p q ∧ c' = false := by
  unfold spacing_writes spacing_at
  simp only [List.mem_flatMap, List.mem_range, mem_block_writes, COLOR_BLACK]
  constructor
  · rintro ⟨j, hj, ⟨dx, hdx, dy, hdy, e1, e2⟩, e3⟩
    exact ⟨⟨j, hj, dx, hdx, dy, hdy, e1, e2⟩, e3⟩
  · rintro ⟨⟨j, hj, dx, hdx, dy, hdy, e1, e2⟩, e3⟩
    exact ⟨j, hj, ⟨dx, hdx, dy, hdy, e1, e2⟩, e3⟩

/-- Pixel-level effect of `ssd1306_draw_char` for a supported code, at any
position and scale: the spacing column is written last and OFF, glyph blocks of
set bits take the colour, every other pixel keeps its value. -/
theorem get_pixel_draw_char (fb : Framebuffer) (hwf : fb.WF) (x y c sx sy : Nat) (col : Bool)
    (hc : 32 ≤ c ∧ c ≤ 126) (p q : Nat) (hp : p < 128) (hq : q < 64)
    [Decidable (spacing_at x y sx sy p q)] [Decidable (glyph_at x y c sx sy p q)] :
    get_pixel (ssd1306_draw_char x y c sx sy col fb) p q =
      if spacing_at x y sx sy p q then false
      else if glyph_at x y c sx sy p q then col
      else get_pixel fb p q := by
  have hsup : ¬ (c < 32 ∨ c > 126) := by omega
  rw [draw_char_eq_writes]
  unfold draw_char_writes
  rw [if_neg hsup, apply_writes_append]
  rw [get_pixel_apply_writes_uniform _ false _ _ (wf_apply_writes _ _ hwf) p q hp hq]
  · rw [get_pixel_apply_writes_uniform _ col _ _ hwf p q hp hq]
    · by_cases hs : spacing_at x y sx sy p q
      · rw [if_pos hs, if_pos]
        exact (mem_spacing_writes _ _ _ _ _ _ _).mpr ⟨hs, rfl⟩
      · rw [if_neg hs, if_neg]
        · by_cases hg : glyph_at x y c sx sy p q
          · rw [if_pos hg, if_pos]
            exact (mem_glyph_writes _ _ _ _ _ _ _ _ _).mpr ⟨hg, rfl⟩
          · rw [if_neg hg, if_neg]
            intro hm
            exact hg ((mem_glyph_writes _ _ _ _ _ _ _ _ _).mp hm).1
        · intro hm
          exact hs ((mem_spacing_writes _ _ _ _ _ _ _).mp hm).1
    · rintro ⟨a, b, d⟩ hm
      exact ((mem_glyph_writes _ _ _ _ _ _ _ _ _).mp hm).2
  · rintro ⟨a, b, d⟩ hm
    exact ((mem_spacing_writes _ _ _ _ _ _ _).mp hm).2

theorem wf_draw_char (fb : Framebuffer) (hwf : fb.WF) (x y c sx sy : Nat) (col : Bool) :
    (ssd1306_draw_char x y c sx sy col fb).WF := by
  rw [draw_char_eq_writes]
  exact wf_apply_writes _ _ hwf

theorem block_index_unique (s a b d e : Nat) (hd : d < s) (he : e < s)
    (h : a * s + d = b * s + e) : a = b := by
  have hs : 0 < s := by omega
  have ha : (a * s + d) / s = a := by
    rw [Nat.add_comm, Nat.add_mul_div_right _ _ hs, Nat.div_eq_of_lt hd, Nat.zero_add]
  have hb : (b * s + e) / s = b := by
    rw [Nat.add_comm, Nat.add_mul_div_right _ _ hs, Nat.div_eq_of_lt he, Nat.zero_add]
  rw [← ha, ← hb, h]

theorem block_offset_lt (s i n d : Nat) (hi : i < n) (hd : d < s) : i * s + d < n * s := by
  have h1 : (i + 1) * s ≤ n * s := Nat.mul_le_mul_right s hi
  rw [Nat.add_mul, Nat.one_mul] at h1
  omega

/-- C10: for a supported code `c` (32..126) and a cell that does not overflow
the 8-bit coordinates (`x + 6*size_x <= 256`, `y + 8*size_y <= 256`), after
`ssd1306_draw_char(x, y, c, size_x, size_y, colour)`: (a) an on-screen pixel
`(x + i*size_x + dx, y + j*size_y + dy)` with `i < 5`, `j < 8`, `dx < size_x`,
`dy < size_y` has the colour if bit `j` of font byte `(c-32)*5 + i` is set and
is unchanged otherwise; (b) every on-screen pixel of the spacing column
(`i = 5`) is OFF whatever the colour; (c) every on-screen pixel outside the
`6*size_x` by `8*size_y` cell is unchanged. -/
theorem draw_char_cell_pixels (fb : Framebuffer) (hwf : fb.WF) (x y c sx sy : Nat) (col : Bool)
    (hc : 32 ≤ c ∧ c ≤ 126) (hx : x + 6 * sx ≤ 256) (hy : y + 8 * sy ≤ 256) :
    (∀ i j dx dy, i < 5 → j < 8 → dx < sx → dy < sy →
      x + i * sx + dx < 128 → y + j * sy + dy < 64 →
      get_pixel (ssd1306_draw_char x y c sx sy col fb) (x + i * sx + dx) (y + j * sy + dy) =
        if (font5x7.getD ((c - 32) * 5 + i) 0).testBit j then col
        else get_pixel fb (x + i * sx + dx) (y + j * sy + dy)) ∧
    (∀ j dx dy, j < 8 → dx < sx → dy < sy →
      x + 5 * sx + dx < 128 → y + j * sy + dy < 64 →
      get_pixel (ssd1306_draw_char x y c sx sy col fb) (x + 5 * sx + dx) (y + j * sy + dy) =
        false) ∧
    (∀ p q, p < 128 → q < 64 →
      ¬ ((x ≤ p ∧ p < x + 6 * sx) ∧ (y ≤ q ∧ q < y + 8 * sy)) →
      get_pixel (ssd1306_draw_char x y c sx sy col fb) p q = get_pixel fb p q) := by
  classical
  refine ⟨?_, ?_, ?_⟩
  · intro i j dx dy hi hj hdx hdy hp hq
    rw [get_pixel_draw_char fb hwf x y c sx sy col hc _ _ hp hq]
    have hns : ¬ spacing_at x y sx sy (x + i * sx + dx) (y + j * sy + dy) := by
      rintro ⟨j', hj', dx', hdx', dy', hdy', e1, e2⟩
      have h1 := block_offset_lt sx i 5 dx hi hdx
      rw [Nat.mod_eq_of_lt (by omega)] at e1
      omega
    rw [if_neg hns]
    by_cases hb : (font5x7.getD ((c - 32) * 5 + i) 0).testBit j = true
    · rw [if_pos hb, if_pos]
      exact ⟨i, hi, j, hj, hb, dx, hdx, dy, hdy,
        (Nat.mod_eq_of_lt (by omega)).symm, (Nat.mod_eq_of_lt (by omega)).symm⟩
    · rw [if_neg hb, if_neg]
      rintro ⟨i', hi', j', hj', hb', dx', hdx', dy', hdy', e1, e2⟩
      have h1 := block_offset_lt sx i' 5 dx' hi' hdx'
      have h2 := block_offset_lt sy j' 8 dy' hj' hdy'
      rw [Nat.mod_eq_of_lt (by omega)] at e1 e2
      have ei : i = i' := block_index_unique sx i i' dx dx' hdx hdx' (by omega)
      have ej : j = j' := block_index_unique sy j j' dy dy' hdy hdy' (by omega)
      subst ei ej
      exact hb hb'
  · intro j dx dy hj hdx hdy hp hq
    rw [get_pixel_draw_char fb hwf x y c sx sy col hc _ _ hp hq, if_pos]
    exact ⟨j, hj, dx, hdx, dy, hdy,
      (Nat.mod_eq_of_lt (by omega)).symm, (Nat.mod_eq_of_lt (by omega)).symm⟩
  · intro p q hp hq hout
    rw [get_pixel_draw_char fb hwf x y c sx sy col hc _ _ hp hq, if_neg, if_neg]
    · rintro ⟨i', hi', j', hj', -, dx', hdx', dy', hdy', e1, e2⟩
      have h1 := block_offset_lt sx i' 5 dx' hi' hdx'
      have h2 := block_offset_lt sy j' 8 dy' hj' hdy'
      rw [Nat.mod_eq_of_lt (by omega)] at e1 e2
      apply hout
      omega
    · rintro ⟨j', hj', dx', hdx', dy', hdy', e1, e2⟩
      have h2 := block_offset_lt sy j' 8 dy' hj' hdy'
      rw [Nat.mod_eq_of_lt (by omega)] at e1 e2
      apply hout
      omega

theorem draw_char_cell_pixels_witness :
    get_pixel (ssd1306_draw_char 10 4 65 2 3 true (ssd1306_clear []))
      (10 + 5 * 2 + 1) (4 + 2 * 3 + 1) = false :=
  (draw_char_cell_pixels (ssd1306_clear []) (wf_clear []) 10 4 65 2 3 true
    (by decide) (by decide) (by decide)).2.1 2 1 1 (by decide) (by decide) (by decide)
    (by decide) (by decide)

/-! ## Overwriting a character (section 4.5) -/

/-- C6: if a character `c` has been drawn ON at `(x, y)` with scale
`(sx, sy)` on a 1024-byte framebuffer, then
`ssd1306_overwrite_char(x, y, c, c, sx, sy, sx, sy)` leaves the framebuffer
exactly as it was before the call.  This holds for every code, position and
scale, in particular for the supported codes 32..126. -/
theorem overwrite_same_char_is_identity (fb : Framebuffer) (hwf : fb.WF) (x y c sx sy : Nat) :
    ssd1306_overwrite_char x y c c sx sy sx sy (ssd1306_draw_char x y c sx sy COLOR_WHITE fb) =
      ssd1306_draw_char x y c sx sy COLOR_WHITE fb := by
  classical
  unfold ssd1306_overwrite_char
  by_cases hc : 32 ≤ c ∧ c ≤ 126
  · have w1 := wf_draw_char fb hwf x y c sx sy COLOR_WHITE
    have w2 := wf_draw_char _ w1 x y c sx sy COLOR_BLACK
    have w3 := wf_draw_char _ w2 x y c sx sy COLOR_WHITE
    apply framebuffer_ext _ _ w3 w1
    intro p q hp hq
    rw [get_pixel_draw_char _ w2 x y c sx sy _ hc p q hp hq,
      get_pixel_draw_char _ w1 x y c sx sy _ hc p q hp hq,
      get_pixel_draw_char _ hwf x y c sx sy _ hc p q hp hq]
    by_cases hs : spacing_at x y sx sy p q
    · simp [hs]
    · by_cases hg : glyph_at x y c sx sy p q
      · simp [hs, hg]
      · simp [hs, hg]
  · have hno : c < 32 ∨ c > 126 := by omega
    unfold ssd1306_draw_char
    simp only [if_pos hno]

theorem overwrite_same_char_is_identity_witness :
    ssd1306_overwrite_char 0 0 65 65 1 1 1 1
        (ssd1306_draw_char 0 0 65 1 1 COLOR_WHITE (ssd1306_clear [])) =
      ssd1306_draw_char 0 0 65 1 1 COLOR_WHITE (ssd1306_clear []) :=
  overwrite_same_char_is_identity (ssd1306_clear []) (wf_clear []) 0 0 65 1 1

/-! ## String width (section 4.4) -/

/-- C5: `ssd1306_get_string_width` returns `strlen(str) * 6 * size_x` reduced to
a `uint8_t`, that is modulo 256: the two examples of the specification give 6
and 24, and a string of 43 characters at scale 1, whose width is 258 pixels,
gives 2. -/
theorem get_string_width_wraps_at_256 :
    (∀ (str : CString) (size_x : Nat),
      ssd1306_get_string_width str size_x = (str.length * 6 * size_x) % 256) ∧
    ssd1306_get_string_width [65] 1 = 6 ∧
    ssd1306_get_string_width [65, 66] 2 = 24 ∧
    (List.replicate 43 65).length * 6 * 1 = 258 ∧
    ssd1306_get_string_width (List.replicate 43 65) 1 = 2 := by
  refine ⟨fun _ _ => rfl, ?_, ?_, ?_, ?_⟩ <;> decide

/-! ## Filled circle (section 4.2) -/

theorem to_u8_cast (v : Int) (h0 : 0 ≤ v) (h1 : v < 256) : ((to_u8 v : Nat) : Int) = v := by
  unfold to_u8
  rw [Int.emod_eq_of_lt h0 h1, Int.toNat_of_nonneg h0]

theorem mem_int_range (lo hi i : Int) : i ∈ int_range lo hi ↔ lo ≤ i ∧ i ≤ hi := by
  unfold int_range
  simp only [List.mem_map, List.mem_range]
  constructor
  · rintro ⟨k, hk, hki⟩
    omega
  · rintro ⟨h1, h2⟩
    exact ⟨(i - lo).toNat, by omega, by omega⟩

theorem draw_chord_pair_eq_writes (x0 y0 : Nat) (a b : Int) (c : Bool) (fb : Framebuffer) :
    draw_chord_pair x0 y0 a b c fb = apply_writes (chord_pair_writes x0 y0 a b c) fb := by
  unfold draw_chord_pair chord_pair_writes
  rw [← foldl_apply_writes]
  rfl

theorem get_pixel_mono_on (ws : List Write) (hc : ∀ w ∈ ws, w.2.2 = true) (fb : Framebuffer)
    (h : fb.WF) (i j : Nat) (hi : i < 128) (hj : j < 64) (hon : get_pixel fb i j = true) :
    get_pixel (apply_writes ws fb) i j = true := by
  rw [get_pixel_apply_writes_uniform ws true hc fb h i j hi hj]
  split_ifs
  · rfl
  · exact hon

/-- Symmetric ON writes keep a symmetric framebuffer symmetric. -/
theorem circleSym_apply_writes (x0 y0 r : Nat) (hx : r ≤ x0) (hx' : x0 + r ≤ 127)
    (hy : r ≤ y0) (hy' : y0 + r ≤ 63) (ws : List Write) (hws : SymWrites x0 y0 r ws)
    (fb : Framebuffer) (hwf : fb.WF) (hsym : CircleSym x0 y0 r fb) :
    CircleSym x0 y0 r (apply_writes ws fb) := by
  have hc : ∀ w ∈ ws, w.2.2 = true := by
    rintro ⟨a, b, d⟩ hm
    exact (hws a b d hm).1
  intro p q hp hq hon
  rw [get_pixel_apply_writes_uniform ws true hc fb hwf p q hp hq] at hon
  by_cases hm : (p, q, true) ∈ ws
  · obtain ⟨-, hbox, hm1, hm2⟩ := hws p q true hm
    refine ⟨hbox, ?_, ?_⟩
    · rw [get_pixel_apply_writes_uniform ws true hc fb hwf _ _ (by omega) hq, if_pos hm1]
    · rw [get_pixel_apply_writes_uniform ws true hc fb hwf _ _ hp (by omega), if_pos hm2]
  · rw [if_neg hm] at hon
    obtain ⟨hbox, h1, h2⟩ := hsym p q hp hq hon
    exact ⟨hbox, get_pixel_mono_on ws hc fb hwf _ _ (by omega) hq h1,
      get_pixel_mono_on ws hc fb hwf _ _ hp (by omega) h2⟩

theorem symWrites_chord_pair (x0 y0 r : Nat) (hx : r ≤ x0) (hx' : x0 + r ≤ 127)
    (hy : r ≤ y0) (hy' : y0 + r ≤ 63) (a b : Int) (ha : 0 ≤ a) (ha' : a ≤ r)
    (hb' : b ≤ r) : SymWrites x0 y0 r (chord_pair_writes x0 y0 a b true) := by
  have e1 := to_u8_cast ((x0 : Int) + a) (by omega) (by omega)
  have e2 := to_u8_cast ((x0 : Int) - a) (by omega) (by omega)
  intro p q c hm
  unfold chord_pair_writes at hm ⊢
  simp only [List.mem_flatMap, mem_int_range, List.mem_cons, Prod.mk.injEq,
    List.mem_singleton, List.not_mem_nil, or_false] at hm ⊢
  obtain ⟨i, ⟨hi1, hi2⟩, hm⟩ := hm
  have e3 := to_u8_cast i (by omega) (by omega)
  have e4 := to_u8_cast (2 * (y0 : Int) - i) (by omega) (by omega)
  have hq : q = to_u8 i := by
    rcases hm with hm | hm
    · exact hm.2.1
    · exact hm.2.1
  have hcc : c = true := by
    rcases hm with hm | hm
    · exact hm.2.2
    · exact hm.2.2
  have hpp : p = to_u8 ((x0 : Int) + a) ∨ p = to_u8 ((x0 : Int) - a) := by
    rcases hm with hm | hm
    · exact Or.inl hm.1
    · exact Or.inr hm.1
  refine ⟨hcc, ?_, ?_, ?_⟩
  · rcases hpp with hpp | hpp <;> omega
  · refine ⟨i, ⟨hi1, hi2⟩, ?_⟩
    rcases hpp with hpp | hpp
    · right
      exact ⟨by omega, hq, trivial⟩
    · left
      exact ⟨by omega, hq, trivial⟩
  · refine ⟨2 * (y0 : Int) - i, ⟨by omega, by omega⟩, ?_⟩
    rcases hpp with hpp | hpp
    · left
      exact ⟨hpp, by omega, trivial⟩
    · right
      exact ⟨hpp, by omega, trivial⟩

theorem circle_advance_x (s : CircleState) : (circle_advance s).x = s.x + 1 := by
  unfold circle_advance
  split_ifs <;> rfl

theorem circle_advance_y (s : CircleState) :
    (circle_advance s).y = s.y ∨ (circle_advance s).y = s.y - 1 := by
  unfold circle_advance
  split_ifs
  · right; rfl
  · left; rfl

/-- The loop of the filled circle returns, and keeps the framebuffer symmetric. -/
theorem full_circle_loop_sym (x0 y0 r : Nat) (hx : r ≤ x0) (hx' : x0 + r ≤ 127)
    (hy : r ≤ y0) (hy' : y0 + r ≤ 63) (fuel : Nat) (s : CircleState) (fb : Framebuffer)
    (hwf : fb.WF) (hsym : CircleSym x0 y0 r fb)
    (h0x : 0 ≤ s.x) (hxr : s.x ≤ r) (h0y : 0 ≤ s.y) (hyr : s.y ≤ r)
    (hfuel : s.y - s.x < fuel) (hpos : 0 < fuel) :
    ∃ fb', full_circle_loop x0 y0 true fuel s fb = some fb' ∧ fb'.WF ∧
      CircleSym x0 y0 r fb' := by
  induction fuel generalizing s fb with
  | zero => omega
  | succ fuel ih =>
    unfold full_circle_loop
    by_cases hlt : s.x < s.y
    · rw [if_pos hlt]
      have hax := circle_advance_x s
      have hay := circle_advance_y s
      have b1 : 0 ≤ (circle_advance s).x := by omega
      have b2 : (circle_advance s).x ≤ r := by omega
      have b3 : 0 ≤ (circle_advance s).y := by omega
      have b4 : (circle_advance s).y ≤ r := by omega
      rw [draw_chord_pair_eq_writes, draw_chord_pair_eq_writes]
      apply ih
      · exact wf_apply_writes _ _ (wf_apply_writes _ _ hwf)
      · apply circleSym_apply_writes x0 y0 r hx hx' hy hy' _
          (symWrites_chord_pair x0 y0 r hx hx' hy hy' _ _ b3 b4 b2) _
          (wf_apply_writes _ _ hwf)
        exact circleSym_apply_writes x0 y0 r hx hx' hy hy' _
          (symWrites_chord_pair x0 y0 r hx hx' hy hy' _ _ b1 b2 b4) _ hwf hsym
      · exact b1
      · exact b2
      · exact b3
      · exact b4
      · omega
      · omega
    · rw [if_neg hlt]
      exact ⟨fb, rfl, hwf, hsym⟩

theorem symWrites_centre_line (x0 y0 r : Nat) (hx : r ≤ x0)
    (hy : r ≤ y0) (hy' : y0 + r ≤ 63) :
    SymWrites x0 y0 r
      ((int_range ((y0 : Int) - r) ((y0 : Int) + r)).map (fun i => (x0, to_u8 i, true))) := by
  intro p q c hm
  simp only [List.mem_map, mem_int_range, Prod.mk.injEq] at hm ⊢
  obtain ⟨i, ⟨hi1, hi2⟩, hp, hq, hc⟩ := hm
  have e3 := to_u8_cast i (by omega) (by omega)
  have e4 := to_u8_cast (2 * (y0 : Int) - i) (by omega) (by omega)
  refine ⟨hc.symm, by omega, ?_, ?_⟩
  · exact ⟨i, ⟨hi1, hi2⟩, by omega, hq, trivial⟩
  · exact ⟨2 * (y0 : Int) - i, ⟨by omega, by omega⟩, hp, by omega, trivial⟩

theorem circleSym_clear (x0 y0 r : Nat) (fb : Framebuffer) :
    CircleSym x0 y0 r (ssd1306_clear fb) := by
  intro p q _ _ hon
  rw [get_pixel_clear] at hon
  cases hon

/-- C7: for a centre `(x0, y0)` and radius `r` with `r <= x0`, `x0 + r <= 127`,
`r <= y0`, `y0 + r <= 63`, `ssd1306_draw_full_circle(x0, y0, r, ON)` on a
cleared framebuffer returns, and the set of painted (ON) pixels is
mirror-symmetric about both centre axes: if `(x0+a, y0+b)` is painted then so
are `(x0-a, y0+b)` and `(x0+a, y0-b)`, both on-screen. -/
theorem full_circle_mirror_symmetric (fb : Framebuffer) (x0 y0 r : Nat)
    (hx : r ≤ x0) (hx' : x0 + r ≤ 127) (hy : r ≤ y0) (hy' : y0 + r ≤ 63) :
    ∃ fb', ssd1306_draw_full_circle x0 y0 r true (ssd1306_clear fb) = some fb' ∧
      ∀ a b : Int, 0 ≤ x0 + a → x0 + a < 128 → 0 ≤ y0 + b → y0 + b < 64 →
        get_pixel fb' ((x0 : Int) + a).toNat ((y0 : Int) + b).toNat = true →
        (0 ≤ x0 - a ∧ x0 - a < 128 ∧
          get_pixel fb' ((x0 : Int) - a).toNat ((y0 : Int) + b).toNat = true) ∧
        (0 ≤ y0 - b ∧ y0 - b < 64 ∧
          get_pixel fb' ((x0 : Int) + a).toNat ((y0 : Int) - b).toNat = true) := by
  unfold ssd1306_draw_full_circle
  have h0 := foldl_draw_pixel (fun i => (x0, to_u8 i, true))
    (int_range ((y0 : Int) - r) ((y0 : Int) + r)) (ssd1306_clear fb)
  simp only at h0
  rw [h0]
  obtain ⟨fb', hres, -, hsym⟩ := full_circle_loop_sym x0 y0 r hx hx' hy hy' (r + 1)
    { x := 0, y := r, f := 1 - r, ddF_x := 1, ddF_y := -2 * r }
    _ (wf_apply_writes _ _ (wf_clear fb))
    (circleSym_apply_writes x0 y0 r hx hx' hy hy' _
      (symWrites_centre_line x0 y0 r hx hy hy') _ (wf_clear fb) (circleSym_clear x0 y0 r fb))
    (le_refl _) (by simp) (by simp) (le_refl _) (by simp) (by omega)
  refine ⟨fb', hres, ?_⟩
  intro a b ha1 ha2 hb1 hb2 hon
  obtain ⟨hbox, h1, h2⟩ := hsym _ _ (by omega) (by omega) hon
  have ep : 2 * x0 - ((x0 : Int) + a).toNat = ((x0 : Int) - a).toNat := by omega
  have eq : 2 * y0 - ((y0 : Int) + b).toNat = ((y0 : Int) - b).toNat := by omega
  rw [ep] at h1
  rw [eq] at h2
  exact ⟨⟨by omega, by omega, h1⟩, ⟨by omega, by omega, h2⟩⟩

theorem full_circle_mirror_symmetric_witness :
    ∃ fb', ssd1306_draw_full_circle 64 32 10 true (ssd1306_clear []) = some fb' ∧
      ∀ a b : Int, 0 ≤ 64 + a → 64 + a < 128 → 0 ≤ 32 + b → 32 + b < 64 →
        get_pixel fb' (((64 : Nat) : Int) + a).toNat (((32 : Nat) : Int) + b).toNat = true →
        (0 ≤ 64 - a ∧ 64 - a < 128 ∧
          get_pixel fb' (((64 : Nat) : Int) - a).toNat (((32 : Nat) : Int) + b).toNat = true) ∧
        (0 ≤ 32 - b ∧ 32 - b < 64 ∧
          get_pixel fb' (((64 : Nat) : Int) + a).toNat (((32 : Nat) : Int) - b).toNat = true) :=
  full_circle_mirror_symmetric [] 64 32 10 (by decide) (by decide) (by decide) (by decide)

/-! ## Wrapped strings (section 4.4) -/

theorem draw_string_wrapped_loop_eq_calls (start_x sx sy : Nat) (col : Bool) (str : CString) :
    ∀ (x y : Nat) (fb : Framebuffer),
      draw_string_wrapped_loop start_x sx sy col x y str fb =
        apply_char_calls (wrapped_calls start_x sx sy x y str) sx sy col fb := by
  induction str with
  | nil => intro x y fb; rfl
  | cons c rest ih =>
    intro x y fb
    unfold draw_string_wrapped_loop wrapped_calls
    by_cases hw : x + 6 * sx ≥ SCREEN_WIDTH
    · rw [if_pos hw, if_pos hw]
      by_cases hb : (y + 8 * sy) % 256 ≥ SCREEN_HEIGHT
      · rw [if_pos hb, if_pos hb]; rfl
      · rw [if_neg hb, if_neg hb, ih]; rfl
    · rw [if_neg hw, if_neg hw, ih]; rfl

/-- Scale 0: the cursor never moves. -/
theorem wrapped_calls_scale_zero (x y sy : Nat) (hx : x < 128) (str : CString) :
    ∀ j, j < str.length →
      (wrapped_calls x 0 sy x y str)[j]? = some (x, y, str.getD j 0) := by
  induction str with
  | nil => intro j hj; simp at hj
  | cons c rest ih =>
    intro j hj
    unfold wrapped_calls
    have hw : ¬ (x + 6 * 0 ≥ SCREEN_WIDTH) := by simp only [SCREEN_WIDTH]; omega
    rw [if_neg hw]
    have hx' : (x + 6 * 0) % 256 = x := by
      rw [Nat.mul_zero, Nat.add_zero]; exact Nat.mod_eq_of_lt (by omega)
    rw [hx']
    cases j with
    | zero => simp
    | succ j =>
      rw [List.getElem?_cons_succ, ih j (by simpa using hj)]
      simp

/-- The cursor positions of the wrapped loop, started in line `l` at cell `m`
(`m = n` meaning that the line is full), with `n >= 1` cells per line. -/
theorem wrapped_calls_positions (x y sx sy : Nat) (hsx : 0 < sx) (hx : x + 6 * sx < 128)
    (hsy : sy ≤ 24) (str : CString) :
    ∀ (l m : Nat), m ≤ (127 - x) / (6 * sx) → y + l * (8 * sy) < 64 →
      ∀ j, j < str.length →
        (wrapped_calls x sx sy (x + m * (6 * sx)) (y + l * (8 * sy)) str)[j]? =
          if y + (l + (m + j) / ((127 - x) / (6 * sx))) * (8 * sy) < 64 then
            some (x + ((m + j) % ((127 - x) / (6 * sx))) * (6 * sx),
              y + (l + (m + j) / ((127 - x) / (6 * sx))) * (8 * sy), str.getD j 0)
          else none := by
  have hcw : 0 < 6 * sx := by omega
  have hn1 : 1 ≤ (127 - x) / (6 * sx) := by
    rw [Nat.le_div_iff_mul_le hcw]; omega
  have hncw : (127 - x) / (6 * sx) * (6 * sx) ≤ 127 - x := Nat.div_mul_le_self _ _
  generalize hn : (127 - x) / (6 * sx) = n at hn1 hncw
  have hnlt : ∀ m, m + 1 ≤ n ↔ x + m * (6 * sx) + 6 * sx ≤ 127 := by
    intro m
    rw [← hn, Nat.le_div_iff_mul_le hcw, Nat.add_mul, Nat.one_mul]
    omega
  induction str with
  | nil => intro l m _ _ j hj; simp at hj
  | cons c rest ih =>
    intro l m hm hrow j hj
    unfold wrapped_calls
    simp only [SCREEN_WIDTH, SCREEN_HEIGHT]
    by_cases hfull : m = n
    · -- the line is full: wrap
      have hw : x + m * (6 * sx) + 6 * sx ≥ 128 := by
        have := (hnlt m).not
        omega
      rw [if_pos hw]
      have hy' : (y + l * (8 * sy) + 8 * sy) % 256 = y + (l + 1) * (8 * sy) := by
        rw [Nat.add_mul, Nat.one_mul, Nat.mod_eq_of_lt (by omega)]
        omega
      rw [hy']
      have hdiv : (m + j) / n = 1 + j / n := by
        rw [hfull, Nat.add_comm n j, Nat.add_div_right _ (by omega)]
        omega
      have hmod : (m + j) % n = j % n := by
        rw [hfull, Nat.add_mod_left]
      by_cases hb : y + (l + 1) * (8 * sy) ≥ 64
      · rw [if_pos hb, if_neg]
        · simp
        · have : (l + 1) * (8 * sy) ≤ (l + (m + j) / n) * (8 * sy) :=
            Nat.mul_le_mul_right _ (by
              rw [hdiv]; exact Nat.add_le_add_left (Nat.le_add_right 1 _) l)
          omega
      · rw [if_neg hb]
        have hx1 : (x + 6 * sx) % 256 = x + 1 * (6 * sx) := by
          rw [Nat.one_mul]; exact Nat.mod_eq_of_lt (by omega)
        rw [hx1]
        cases j with
        | zero =>
          have h0 : (m + 0) / n = 1 := by rw [hdiv]; simp
          have h1 : (m + 0) % n = 0 := by rw [hmod]; simp
          rw [h0, h1, if_pos (by omega)]
          simp
        | succ j =>
          rw [List.getElem?_cons_succ, ih (l + 1) 1 hn1 (by omega) j (by simpa using hj)]
          have e1 : (m + (j + 1)) / n = 1 + (1 + j) / n := by
            rw [hfull, show n + (j + 1) = (1 + j) + n by omega, Nat.add_div_right _ (by omega)]
            omega
          have e2 : (m + (j + 1)) % n = (1 + j) % n := by
            rw [hfull, show n + (j + 1) = (1 + j) + n by omega, Nat.add_mod_right]
          rw [e1, e2, show l + 1 + (1 + j) / n = l + (1 + (1 + j) / n) by omega]
          simp
    · -- room for one more cell
      have hmlt : m + 1 ≤ n := by omega
      have hw : ¬ (x + m * (6 * sx) + 6 * sx ≥ 128) := by
        have := (hnlt m).mp hmlt
        omega
      rw [if_neg hw]
      have hx1 : (x + m * (6 * sx) + 6 * sx) % 256 = x + (m + 1) * (6 * sx) := by
        rw [Nat.add_mul, Nat.one_mul, Nat.mod_eq_of_lt (by omega)]
        omega
      rw [hx1]
      cases j with
      | zero =>
        have h0 : (m + 0) / n = 0 := by rw [Nat.add_zero]; exact Nat.div_eq_of_lt (by omega)
        have h1 : (m + 0) % n = m := by rw [Nat.add_zero]; exact Nat.mod_eq_of_lt (by omega)
        rw [h0, h1]
        simp only [Nat.add_zero]
        rw [if_pos hrow]
        simp
      | succ j =>
        rw [List.getElem?_cons_succ, ih l (m + 1) hmlt hrow j (by simpa using hj)]
        rw [show m + 1 + j = m + (j + 1) by omega]
        simp

theorem wrapped_calls_length_le (start_x sx sy : Nat) (str : CString) :
    ∀ (x y : Nat), (wrapped_calls start_x sx sy x y str).length ≤ str.length := by
  induction str with
  | nil => intro x y; simp [wrapped_calls]
  | cons c rest ih =>
    intro x y
    unfold wrapped_calls
    split_ifs
    · simp
    · simp only [List.length_cons]
      exact Nat.succ_le_succ (ih _ _)
    · simp only [List.length_cons]
      exact Nat.succ_le_succ (ih _ _)

/-- The k-th call of the wrapped loop started at `(x, y)`, for every scale. -/
theorem wrapped_calls_getElem? (x y sx sy : Nat) (hy : y < 64) (hx : x + 6 * sx < 128)
    (hsy : sy ≤ 24) (str : CString) (k : Nat) (hk : k < str.length) :
    (wrapped_calls x sx sy x y str)[k]? =
      if y + k / ((127 - x) / (6 * sx)) * 8 * sy < 64 then
        some (x + k % ((127 - x) / (6 * sx)) * 6 * sx,
          y + k / ((127 - x) / (6 * sx)) * 8 * sy, str.getD k 0)
      else none := by
  rcases Nat.eq_zero_or_pos sx with h0 | hpos
  · subst h0
    rw [wrapped_calls_scale_zero x y sy (by omega) str k hk]
    simp [hy]
  · have h := wrapped_calls_positions x y sx sy hpos hx hsy str 0 0 (Nat.zero_le _)
      (by omega) k hk
    simp only [Nat.zero_mul, Nat.add_zero, Nat.zero_add] at h
    rw [h]
    simp only [Nat.mul_assoc]

/-- C8: for a start `(x, y)` with `y < 64`, a scale with `x + 6*size_x < 128`
and `size_y <= 24`, and any string, `ssd1306_draw_string_wrapped` performs
exactly the `ssd1306_draw_char` calls of its loop, and the k-th character
(0-based) is drawn at column `x + (k mod n)*6*size_x` and row
`y + (k div n)*8*size_y`, with `n = (127 - x) div (6*size_x)` cells per line, as
long as that row is `< 64`; from the first character whose row would be
`>= 64` nothing is drawn; every drawn cell ends before column 128. -/
theorem draw_string_wrapped_layout (fb : Framebuffer) (x y sx sy : Nat) (col : Bool)
    (str : CString) (hy : y < 64) (hx : x + 6 * sx < 128) (hsy : sy ≤ 24) :
    ssd1306_draw_string_wrapped x y str sx sy col fb =
      apply_char_calls (wrapped_calls x sx sy x y str) sx sy col fb ∧
    (∀ k, k < str.length →
      (wrapped_calls x sx sy x y str)[k]? =
        if y + k / ((127 - x) / (6 * sx)) * 8 * sy < 64 then
          some (x + k % ((127 - x) / (6 * sx)) * 6 * sx,
            y + k / ((127 - x) / (6 * sx)) * 8 * sy, str.getD k 0)
        else none) ∧
    (∀ cx cy c, (cx, cy, c) ∈ wrapped_calls x sx sy x y str →
      cx + 6 * sx < 128 ∧ cy < 64) := by
  refine ⟨draw_string_wrapped_loop_eq_calls x sx sy col str x y fb,
    fun k hk => wrapped_calls_getElem? x y sx sy hy hx hsy str k hk, ?_⟩
  intro cx cy c hm
  obtain ⟨k, hk, hget⟩ := List.getElem_of_mem hm
  have hk' : k < str.length := lt_of_lt_of_le hk (wrapped_calls_length_le x sx sy str x y)
  have h := wrapped_calls_getElem? x y sx sy hy hx hsy str k hk'
  rw [List.getElem?_eq_getElem hk, hget] at h
  split_ifs at h with hrow
  simp only [Option.some.injEq, Prod.mk.injEq] at h
  obtain ⟨e1, e2, -⟩ := h
  refine ⟨?_, by omega⟩
  rcases Nat.eq_zero_or_pos sx with h0 | hpos
  · subst h0
    omega
  · have hcw : 0 < 6 * sx := by omega
    have hn1 : 1 ≤ (127 - x) / (6 * sx) := by
      rw [Nat.le_div_iff_mul_le hcw]; omega
    have hncw : (127 - x) / (6 * sx) * (6 * sx) ≤ 127 - x := Nat.div_mul_le_self _ _
    have hmod : k % ((127 - x) / (6 * sx)) < (127 - x) / (6 * sx) := Nat.mod_lt _ (by omega)
    have hstep : (k % ((127 - x) / (6 * sx)) + 1) * (6 * sx) ≤
        (127 - x) / (6 * sx) * (6 * sx) := Nat.mul_le_mul_right _ hmod
    rw [Nat.add_mul, Nat.one_mul] at hstep
    rw [e1, Nat.mul_assoc]
    omega

theorem draw_string_wrapped_layout_witness :
    (wrapped_calls 0 1 1 0 0 (List.replicate 24 65))[20]? = some (120, 0, 65) ∧
    (wrapped_calls 0 1 1 0 0 (List.replicate 24 65))[21]? = some (0, 8, 65) :=
  ⟨(draw_string_wrapped_layout (ssd1306_clear []) 0 0 1 1 true (List.replicate 24 65)
      (by decide) (by decide) (by decide)).2.1 20 (by decide),
    (draw_string_wrapped_layout (ssd1306_clear []) 0 0 1 1 true (List.replicate 24 65)
      (by decide) (by decide) (by decide)).2.1 21 (by decide)⟩

/-! ## Lines and triangles (section 4.2) -/

theorem draw_line_loop_eq_writes (x1 y1 dx sx dy sy : Int) (c : Bool) (fuel : Nat) :
    ∀ (x0 y0 err : Int) (fb : Framebuffer),
      draw_line_loop x1 y1 dx sx dy sy c fuel x0 y0 err fb =
        (line_loop_writes x1 y1 dx sx dy sy c fuel x0 y0 err).map
          (fun ws => apply_writes ws fb) := by
  induction fuel with
  | zero => intro x0 y0 err fb; rfl
  | succ fuel ih =>
    intro x0 y0 err fb
    unfold draw_line_loop line_loop_writes
    by_cases hend : x0 = x1 ∧ y0 = y1
    · rw [if_pos hend, if_pos hend]; rfl
    · rw [if_neg hend, if_neg hend, ih, Option.map_map]
      rfl

theorem draw_line_eq_writes (x0 y0 x1 y1 : Int) (c : Bool) (fb : Framebuffer) :
    ssd1306_draw_line x0 y0 x1 y1 c fb =
      (line_writes x0 y0 x1 y1 c).map (fun ws => apply_writes ws fb) :=
  draw_line_loop_eq_writes _ _ _ _ _ _ _ _ _ _ _ _

theorem draw_horizontal_line_eq_writes (xs xe y : Int) (c : Bool) (fb : Framebuffer) :
    ssd1306_draw_horizontal_line xs xe y c fb =
      apply_writes (horizontal_line_writes xs xe y c) fb := by
  unfold ssd1306_draw_horizontal_line horizontal_line_writes
  by_cases hy : y < 0 ∨ y ≥ SCREEN_HEIGHT
  · rw [if_pos hy, if_pos hy]; rfl
  · rw [if_neg hy, if_neg hy]
    exact foldl_draw_pixel (fun x => (to_u8 x, to_u8 y, c)) _ fb

theorem draw_scanlines_eq_writes (c : Bool) (t : List Scanline) :
    ∀ (fb : Framebuffer),
      draw_scanlines c t fb =
        apply_writes (t.flatMap (fun s => horizontal_line_writes s.a s.b s.y c)) fb := by
  induction t with
  | nil => intro fb; rfl
  | cons s t ih =>
    intro fb
    unfold draw_scanlines at ih ⊢
    rw [List.foldl_cons, ih, draw_horizontal_line_eq_writes, List.flatMap_cons,
      apply_writes_append]

theorem draw_filled_triangle_eq_writes (x0 y0 x1 y1 x2 y2 : Int) (c : Bool)
    (fb : Framebuffer) :
    ssd1306_draw_filled_triangle x0 y0 x1 y1 x2 y2 c fb =
      (filled_triangle_scanlines x0 y0 x1 y1 x2 y2).map (fun t =>
        apply_writes (t.flatMap (fun s => horizontal_line_writes s.a s.b s.y c)) fb) := by
  unfold ssd1306_draw_filled_triangle fill_sorted_triangle filled_triangle_scanlines
  simp only [draw_scanlines_eq_writes]

/-- On a cleared framebuffer a sequence of ON writes turns on exactly the
on-screen pixels it addresses. -/
theorem get_pixel_on_writes_clear (ws : List Write) (hc : ∀ w ∈ ws, w.2.2 = true)
    (fb : Framebuffer) (i j : Nat) (hi : i < 128) (hj : j < 64) :
    get_pixel (apply_writes ws (ssd1306_clear fb)) i j = true ↔ (i, j, true) ∈ ws := by
  rw [get_pixel_apply_writes_uniform ws true hc _ (wf_clear fb) i j hi hj, get_pixel_clear]
  by_cases hm : (i, j, true) ∈ ws
  · simp [hm]
  · simp [hm]

/-- The number of ON pixels after a sequence of ON writes on a cleared
framebuffer is the number of distinct on-screen pixels addressed. -/
theorem count_on_writes_clear (ws : List Write) (hc : ∀ w ∈ ws, w.2.2 = true)
    (fb : Framebuffer) :
    count_on (apply_writes ws (ssd1306_clear fb)) = (written_pixels ws).length := by
  have hset : (Finset.range SCREEN_WIDTH ×ˢ Finset.range SCREEN_HEIGHT).filter
      (fun p => get_pixel (apply_writes ws (ssd1306_clear fb)) p.1 p.2 = true) =
      ((ws.map (fun w => (w.1, w.2.1))).filter (fun p => p.1 < 128 ∧ p.2 < 64)).toFinset := by
    ext ⟨i, j⟩
    simp only [Finset.mem_filter, Finset.mem_product, Finset.mem_range, SCREEN_WIDTH,
      SCREEN_HEIGHT, List.mem_toFinset, List.mem_filter, List.mem_map, decide_eq_true_eq]
    constructor
    · rintro ⟨⟨hi, hj⟩, hp⟩
      rw [get_pixel_on_writes_clear ws hc fb i j hi hj] at hp
      exact ⟨⟨(i, j, true), hp, rfl⟩, hi, hj⟩
    · rintro ⟨⟨w, hw, hwe⟩, hi, hj⟩
      refine ⟨⟨hi, hj⟩, ?_⟩
      rw [get_pixel_on_writes_clear ws hc fb i j hi hj]
      rcases w with ⟨a, b, d⟩
      have hd : d = true := hc _ hw
      simp only [Prod.mk.injEq] at hwe
      rw [← hwe.1, ← hwe.2, ← hd]
      exact hw
  unfold count_on written_pixels
  rw [hset, List.card_toFinset]

theorem line_writes_edge_a : line_writes 0 0 10 0 true = some edge_a := by decide

theorem line_writes_edge_b : line_writes 10 0 5 10 true = some edge_b := by decide

theorem line_writes_edge_c : line_writes 5 10 0 0 true = some edge_c := by decide

theorem filled_triangle_scanlines_example :
    (filled_triangle_scanlines 0 0 10 0 5 10).map (List.map (fun s => (s.a, s.b, s.y))) =
      some example_scanlines := by decide

theorem filled_triangle_example (fb : Framebuffer) :
    ssd1306_draw_filled_triangle 0 0 10 0 5 10 true fb =
      some (apply_writes (example_scanlines.flatMap
        (fun call => horizontal_line_writes call.1 call.2.1 call.2.2 true)) fb) := by
  have h := filled_triangle_scanlines_example
  rw [draw_filled_triangle_eq_writes]
  cases ht : filled_triangle_scanlines 0 0 10 0 5 10 with
  | none =>
    rw [ht] at h
    cases h
  | some t =>
    rw [ht] at h
    simp only [Option.map_some', Option.some.injEq] at h ⊢
    rw [← h, List.flatMap_map]

theorem edges_all_on : ∀ w ∈ edge_a ++ edge_b ++ edge_c, w.2.2 = true := by decide

theorem scanlines_all_on :
    ∀ w ∈ example_scanlines.flatMap
        (fun call => horizontal_line_writes call.1 call.2.1 call.2.2 true), w.2.2 = true := by
  decide

theorem written_pixels_edges : (written_pixels (edge_a ++ edge_b ++ edge_c)).length = 30 := by
  decide

set_option maxRecDepth 100000 in
theorem written_pixels_scanlines :
    (written_pixels (example_scanlines.flatMap
      (fun call => horizontal_line_writes call.1 call.2.1 call.2.2 true))).length = 71 := by
  decide

theorem empty_triangle_example (fb : Framebuffer) :
    ssd1306_draw_empty_triangle 0 0 10 0 5 10 true fb =
      some (apply_writes (edge_a ++ edge_b ++ edge_c) fb) := by
  unfold ssd1306_draw_empty_triangle
  simp only [draw_line_eq_writes, line_writes_edge_a, line_writes_edge_b, line_writes_edge_c,
    Option.map_some', Option.some_bind, apply_writes_append]

/-- C9: on a cleared framebuffer, `ssd1306_draw_empty_triangle(0,0, 10,0, 5,10, ON)`
returns and leaves 30 ON pixels, `ssd1306_draw_filled_triangle` on the same
vertices returns and leaves 71, strictly more; and a pixel is ON in the outline
iff it is ON after one of the three `ssd1306_draw_line` calls `(0,0)-(10,0)`,
`(10,0)-(5,10)`, `(5,10)-(0,0)` on a cleared framebuffer. -/
theorem empty_triangle_fewer_pixels_than_filled (fb : Framebuffer) :
    ∃ fe l1 l2 l3 ff,
      ssd1306_draw_empty_triangle 0 0 10 0 5 10 true (ssd1306_clear fb) = some fe ∧
      ssd1306_draw_line 0 0 10 0 true (ssd1306_clear fb) = some l1 ∧
      ssd1306_draw_line 10 0 5 10 true (ssd1306_clear fb) = some l2 ∧
      ssd1306_draw_line 5 10 0 0 true (ssd1306_clear fb) = some l3 ∧
      ssd1306_draw_filled_triangle 0 0 10 0 5 10 true (ssd1306_clear fb) = some ff ∧
      count_on fe = 30 ∧
      count_on ff = 71 ∧
      count_on fe < count_on ff ∧
      ∀ i j, i < 128 → j < 64 →
        (get_pixel fe i j = true ↔
          get_pixel l1 i j = true ∨ get_pixel l2 i j = true ∨ get_pixel l3 i j = true) := by
  have hall := edges_all_on
  have ha : ∀ w ∈ edge_a, w.2.2 = true := fun w hw =>
    hall w (List.mem_append_left _ (List.mem_append_left _ hw))
  have hb : ∀ w ∈ edge_b, w.2.2 = true := fun w hw =>
    hall w (List.mem_append_left _ (List.mem_append_right _ hw))
  have hc : ∀ w ∈ edge_c, w.2.2 = true := fun w hw => hall w (List.mem_append_right _ hw)
  have hfe : count_on (apply_writes (edge_a ++ edge_b ++ edge_c) (ssd1306_clear fb)) = 30 := by
    rw [count_on_writes_clear _ hall, written_pixels_edges]
  have hff : count_on (apply_writes (example_scanlines.flatMap
      (fun call => horizontal_line_writes call.1 call.2.1 call.2.2 true)) (ssd1306_clear fb))
      = 71 := by
    rw [count_on_writes_clear _ scanlines_all_on, written_pixels_scanlines]
  refine ⟨apply_writes (edge_a ++ edge_b ++ edge_c) (ssd1306_clear fb),
    apply_writes edge_a (ssd1306_clear fb), apply_writes edge_b (ssd1306_clear fb),
    apply_writes edge_c (ssd1306_clear fb),
    apply_writes (example_scanlines.flatMap
      (fun call => horizontal_line_writes call.1 call.2.1 call.2.2 true)) (ssd1306_clear fb),
    empty_triangle_example _, ?_, ?_, ?_, filled_triangle_example _, hfe, hff, ?_, ?_⟩
  · rw [draw_line_eq_writes, line_writes_edge_a]; rfl
  · rw [draw_line_eq_writes, line_writes_edge_b]; rfl
  · rw [draw_line_eq_writes, line_writes_edge_c]; rfl
  · rw [hfe, hff]; decide
  · intro i j hi hj
    rw [get_pixel_on_writes_clear _ hall fb i j hi hj, get_pixel_on_writes_clear _ ha fb i j hi hj,
      get_pixel_on_writes_clear _ hb fb i j hi hj, get_pixel_on_writes_clear _ hc fb i j hi hj,
      List.mem_append, List.mem_append, or_assoc]

/-! ## Unsupported characters (section 4.3) -/

/-- C11: for a character code `c` outside 32..126, `ssd1306_draw_char` returns
the framebuffer unchanged for every position, scale and colour, and makes no
`ssd1306_draw_pixel` call at all (neither glyph nor spacing column). -/
theorem draw_char_unsupported_noop (fb : Framebuffer) (x y c sx sy : Nat) (col : Bool)
    (hc : c < 32 ∨ c > 126) :
    ssd1306_draw_char x y c sx sy col fb = fb ∧ draw_char_writes x y c sx sy col = [] := by
  unfold ssd1306_draw_char draw_char_writes
  rw [if_pos hc, if_pos hc]
  exact ⟨rfl, rfl⟩

theorem draw_char_unsupported_noop_witness :
    ssd1306_draw_char 3 4 127 2 2 true [1, 2, 3] = [1, 2, 3] ∧
      draw_char_writes 3 4 127 2 2 true = [] :=
  draw_char_unsupported_noop [1, 2, 3] 3 4 127 2 2 true (by decide)

/-! ## Centred strings (section 4.4) -/

/-- C13: for a string and scale with `len(str) * 6 * size_x <= 128`,
`ssd1306_draw_string_centered(y, str, ...)` is
`ssd1306_draw_string((128 - len(str)*6*size_x) / 2, y, str, ...)`, and the left
margin equals the right margin: margin + width + margin = 128. -/
theorem draw_string_centered_eq_draw_string (fb : Framebuffer) (y : Nat) (str : CString)
    (sx sy : Nat) (col : Bool) (hw : str.length * 6 * sx ≤ 128) :
    ssd1306_draw_string_centered y str sx sy col fb =
      ssd1306_draw_string ((128 - str.length * 6 * sx) / 2) y str sx sy col fb ∧
    (128 - str.length * 6 * sx) / 2 + str.length * 6 * sx + (128 - str.length * 6 * sx) / 2
      = 128 := by
  have hwidth : ssd1306_get_string_width str sx = str.length * 6 * sx := by
    unfold ssd1306_get_string_width
    exact Nat.mod_eq_of_lt (by omega)
  have hx : to_u8 (Int.tdiv ((SCREEN_WIDTH : Int) - (ssd1306_get_string_width str sx : Int)) 2)
      = (128 - str.length * 6 * sx) / 2 := by
    rw [hwidth]
    unfold to_u8
    simp only [SCREEN_WIDTH]
    have h1 : ((128 : Nat) : Int) - ((str.length * 6 * sx : Nat) : Int) =
        ((128 - str.length * 6 * sx : Nat) : Int) := by omega
    rw [h1, Int.tdiv_eq_ediv (by omega) (by omega)]
    omega
  constructor
  · unfold ssd1306_draw_string_centered
    rw [hx]
  · have heven : (str.length * 6 * sx) % 2 = 0 := by
      rw [Nat.mul_assoc, Nat.mul_comm, Nat.mul_assoc]
      omega
    omega

theorem draw_string_centered_eq_draw_string_witness :
    ssd1306_draw_string_centered 0 [72, 105] 1 1 true (ssd1306_clear []) =
      ssd1306_draw_string ((128 - [72, 105].length * 6 * 1) / 2) 0 [72, 105] 1 1 true
        (ssd1306_clear []) :=
  (draw_string_centered_eq_draw_string (ssd1306_clear []) 0 [72, 105] 1 1 true (by decide)).1

/-! ## Horizontal line (section 4.2) -/

theorem to_u8_toNat (v : Int) (h0 : 0 ≤ v) (h1 : v < 256) : to_u8 v = v.toNat := by
  have := to_u8_cast v h0 h1
  omega

theorem mem_horizontal_line_writes (xs xe y : Int) (c : Bool) (p q : Nat) (c' : Bool)
    (hp : p < 128) (hq : q < 64) :
    (p, q, c') ∈ horizontal_line_writes xs xe y c ↔
      ((q : Int) = y ∧ min xs xe ≤ (p : Int) ∧ (p : Int) ≤ max xs xe) ∧ c' = c := by
  unfold horizontal_line_writes
  simp only [SCREEN_WIDTH, SCREEN_HEIGHT]
  by_cases hy : y < 0 ∨ y ≥ ((64 : Nat) : Int)
  · rw [if_pos hy]
    simp only [List.not_mem_nil, false_iff]
    rintro ⟨⟨h1, -, -⟩, -⟩
    omega
  · rw [if_neg hy]
    have ey := to_u8_cast y (by omega) (by omega)
    simp only [List.mem_map, mem_int_range, Prod.mk.injEq]
    constructor
    · rintro ⟨x', ⟨h1, h2⟩, e1, e2, e3⟩
      have hx0 : 0 ≤ x' := by
        split_ifs at h1 <;> omega
      have hx1 : x' < 128 := by
        split_ifs at h2 <;> omega
      have ex := to_u8_cast x' hx0 (by omega)
      refine ⟨⟨by omega, ?_, ?_⟩, e3.symm⟩
      · split_ifs at h1 <;> omega
      · split_ifs at h2 <;> omega
    · rintro ⟨⟨h1, h2, h3⟩, e3⟩
      have ex := to_u8_cast (p : Int) (by omega) (by omega)
      refine ⟨(p : Int), ⟨?_, ?_⟩, by omega, by omega, e3.symm⟩
      · split_ifs <;> omega
      · split_ifs <;> omega

theorem horizontal_line_writes_colour (xs xe y : Int) (c : Bool) :
    ∀ w ∈ horizontal_line_writes xs xe y c, w.2.2 = c := by
  intro w hw
  unfold horizontal_line_writes at hw
  by_cases hy : y < 0 ∨ y ≥ SCREEN_HEIGHT
  · rw [if_pos hy] at hw
    simp at hw
  · rw [if_neg hy, List.mem_map] at hw
    obtain ⟨x', -, rfl⟩ := hw
    rfl

/-- C14: on a 1024-byte framebuffer, for all integers `x_start`, `x_end`, `y`:
after `ssd1306_draw_horizontal_line` an on-screen pixel `(p, q)` has the colour
if `q = y` and `min(x_start, x_end) <= p <= max(x_start, x_end)` and is
unchanged otherwise (so nothing changes when `y < 0` or `y >= 64`, where the
framebuffer is returned as it is); swapping `x_start` and `x_end` gives the
same framebuffer. -/
theorem draw_horizontal_line_clipped_span (fb : Framebuffer) (hwf : fb.WF)
    (xs xe y : Int) (c : Bool) :
    (∀ p q, p < 128 → q < 64 →
      get_pixel (ssd1306_draw_horizontal_line xs xe y c fb) p q =
        if (q : Int) = y ∧ min xs xe ≤ (p : Int) ∧ (p : Int) ≤ max xs xe then c
        else get_pixel fb p q) ∧
    (y < 0 ∨ y ≥ 64 → ssd1306_draw_horizontal_line xs xe y c fb = fb) ∧
    ssd1306_draw_horizontal_line xs xe y c fb = ssd1306_draw_horizontal_line xe xs y c fb := by
  refine ⟨?_, ?_, ?_⟩
  · intro p q hp hq
    rw [draw_horizontal_line_eq_writes,
      get_pixel_apply_writes_uniform _ c (horizontal_line_writes_colour xs xe y c) fb hwf p q
        hp hq]
    by_cases hin : (q : Int) = y ∧ min xs xe ≤ (p : Int) ∧ (p : Int) ≤ max xs xe
    · rw [if_pos hin, if_pos]
      exact (mem_horizontal_line_writes xs xe y c p q c hp hq).mpr ⟨hin, rfl⟩
    · rw [if_neg hin, if_neg]
      intro hm
      exact hin ((mem_horizontal_line_writes xs xe y c p q c hp hq).mp hm).1
  · intro hy
    have hy' : y < 0 ∨ y ≥ ((SCREEN_HEIGHT : Nat) : Int) := by
      simp only [SCREEN_HEIGHT]; omega
    unfold ssd1306_draw_horizontal_line
    rw [if_pos hy']
  · unfold ssd1306_draw_horizontal_line
    have hlo : (if xs > xe then xe else xs) = (if xe > xs then xs else xe) := by
      split_ifs <;> omega
    have hhi : (if xs > xe then xs else xe) = (if xe > xs then xe else xs) := by
      split_ifs <;> omega
    rw [hlo, hhi]

theorem draw_horizontal_line_clipped_span_witness :
    ssd1306_draw_horizontal_line 9 (-4) 3 true (ssd1306_clear []) =
      ssd1306_draw_horizontal_line (-4) 9 3 true (ssd1306_clear []) :=
  (draw_horizontal_line_clipped_span (ssd1306_clear []) (wf_clear []) 9 (-4) 3 true).2.2

/-! ## Rectangle outline (section 4.2) -/

theorem draw_empty_rect_eq_writes (x y w h : Nat) (c : Bool) (fb : Framebuffer) :
    ssd1306_draw_empty_rect x y w h c fb = apply_writes (empty_rect_writes x y w h c) fb := by
  unfold ssd1306_draw_empty_rect empty_rect_writes
  rw [apply_writes_append, ← foldl_apply_writes, ← foldl_apply_writes]
  rfl

theorem mem_empty_rect_writes (x y w h : Nat) (c : Bool) (p q : Nat) (c' : Bool) :
    (p, q, c') ∈ empty_rect_writes x y w h c ↔
      (((x ≤ p ∧ p < x + w ∧ p < 128) ∧ (q = y ∨ q = to_u8 ((y : Int) + (h : Int) - 1))) ∨
        ((y ≤ q ∧ q < y + h ∧ q < 64) ∧ (p = x ∨ p = to_u8 ((x : Int) + (w : Int) - 1)))) ∧
      c' = c := by
  unfold empty_rect_writes
  simp only [List.mem_append, List.mem_flatMap, mem_range'_clip, SCREEN_WIDTH, SCREEN_HEIGHT,
    List.mem_cons, Prod.mk.injEq, List.mem_singleton, List.not_mem_nil, or_false]
  constructor
  · rintro (⟨i, hi, hm⟩ | ⟨j, hj, hm⟩)
    · rcases hm with ⟨e1, e2, e3⟩ | ⟨e1, e2, e3⟩
      · subst e1; exact ⟨Or.inl ⟨hi, Or.inl e2⟩, e3⟩
      · subst e1; exact ⟨Or.inl ⟨hi, Or.inr e2⟩, e3⟩
    · rcases hm with ⟨e1, e2, e3⟩ | ⟨e1, e2, e3⟩
      · subst e2; exact ⟨Or.inr ⟨hj, Or.inl e1⟩, e3⟩
      · subst e2; exact ⟨Or.inr ⟨hj, Or.inr e1⟩, e3⟩
  · rintro ⟨(⟨hi, hq⟩ | ⟨hj, hp⟩), e3⟩
    · left
      refine ⟨p, hi, ?_⟩
      rcases hq with hq | hq
      · exact Or.inl ⟨rfl, hq, e3⟩
      · exact Or.inr ⟨rfl, hq, e3⟩
    · right
      refine ⟨q, hj, ?_⟩
      rcases hp with hp | hp
      · exact Or.inl ⟨hp, rfl, e3⟩
      · exact Or.inr ⟨hp, rfl, e3⟩

/-- C16: for `w >= 1`, `h >= 1`, `x + w <= 128` and `y + h <= 64`, after
`ssd1306_draw_empty_rect(x, y, w, h, colour)` an on-screen pixel `(i, j)` has
the colour if it lies in the box `[x, x+w) x [y, y+h)` and on its boundary
(`i = x` or `i = x+w-1` or `j = y` or `j = y+h-1`), and is unchanged otherwise
(interior and exterior). -/
theorem draw_empty_rect_paints_boundary (fb : Framebuffer) (hwf : fb.WF) (x y w h : Nat)
    (c : Bool) (hw : 1 ≤ w) (hh : 1 ≤ h) (hx : x + w ≤ 128) (hy : y + h ≤ 64) :
    ∀ i j, i < 128 → j < 64 →
      get_pixel (ssd1306_draw_empty_rect x y w h c fb) i j =
        if ((x ≤ i ∧ i < x + w) ∧ (y ≤ j ∧ j < y + h)) ∧
            (i = x ∨ i = x + w - 1 ∨ j = y ∨ j = y + h - 1) then c
        else get_pixel fb i j := by
  intro i j hi hj
  have eb : to_u8 ((y : Int) + (h : Int) - 1) = y + h - 1 := by
    rw [to_u8_toNat _ (by omega) (by omega)]; omega
  have er : to_u8 ((x : Int) + (w : Int) - 1) = x + w - 1 := by
    rw [to_u8_toNat _ (by omega) (by omega)]; omega
  have hcol : ∀ wr ∈ empty_rect_writes x y w h c, wr.2.2 = c := by
    rintro ⟨a, b, d⟩ hm
    exact ((mem_empty_rect_writes x y w h c a b d).mp hm).2
  have hmem := mem_empty_rect_writes x y w h c i j c
  rw [eb, er] at hmem
  rw [draw_empty_rect_eq_writes, get_pixel_apply_writes_uniform _ c hcol fb hwf i j hi hj]
  by_cases hb : ((x ≤ i ∧ i < x + w) ∧ (y ≤ j ∧ j < y + h)) ∧
      (i = x ∨ i = x + w - 1 ∨ j = y ∨ j = y + h - 1)
  · rw [if_pos hb, if_pos]
    refine hmem.mpr ⟨?_, rfl⟩
    obtain ⟨⟨h1, h2⟩, h3⟩ := hb
    rcases h3 with h3 | h3 | h3 | h3
    · exact Or.inr ⟨⟨h2.1, h2.2, hj⟩, Or.inl h3⟩
    · exact Or.inr ⟨⟨h2.1, h2.2, hj⟩, Or.inr h3⟩
    · exact Or.inl ⟨⟨h1.1, h1.2, hi⟩, Or.inl h3⟩
    · exact Or.inl ⟨⟨h1.1, h1.2, hi⟩, Or.inr h3⟩
  · rw [if_neg hb, if_neg]
    intro hm
    obtain ⟨h1, -⟩ := hmem.mp hm
    apply hb
    rcases h1 with ⟨h1, h2⟩ | ⟨h1, h2⟩
    · rcases h2 with h2 | h2
      · exact ⟨⟨⟨h1.1, h1.2.1⟩, by omega⟩, Or.inr (Or.inr (Or.inl h2))⟩
      · exact ⟨⟨⟨h1.1, h1.2.1⟩, by omega⟩, Or.inr (Or.inr (Or.inr h2))⟩
    · rcases h2 with h2 | h2
      · exact ⟨⟨by omega, ⟨h1.1, h1.2.1⟩⟩, Or.inl h2⟩
      · exact ⟨⟨by omega, ⟨h1.1, h1.2.1⟩⟩, Or.inr (Or.inl h2)⟩

theorem draw_empty_rect_paints_boundary_witness :
    get_pixel (ssd1306_draw_empty_rect 2 3 4 5 true (ssd1306_clear [])) 3 4 =
      if ((2 ≤ 3 ∧ 3 < 2 + 4) ∧ (3 ≤ 4 ∧ 4 < 3 + 5)) ∧
          (3 = 2 ∨ 3 = 2 + 4 - 1 ∨ 4 = 3 ∨ 4 = 3 + 5 - 1) then true
      else get_pixel (ssd1306_clear []) 3 4 :=
  draw_empty_rect_paints_boundary (ssd1306_clear []) (wf_clear []) 2 3 4 5 true
    (by decide) (by decide) (by decide) (by decide) 3 4 (by decide) (by decide)

/-- C17: `ssd1306_draw_empty_rect` has no guard for `w = 0` or `h = 0`.  With
`h = 0` the bottom row `y + h - 1` is the row above the box:
`draw_empty_rect(10, 10, 5, 0, ON)` on a cleared framebuffer turns on pixel
`(10, 9)`; with `w = 0` the right column is the column left of the box:
`draw_empty_rect(10, 10, 0, 5, ON)` turns on pixel `(9, 10)`. -/
theorem draw_empty_rect_degenerate_underflows (fb : Framebuffer) :
    get_pixel (ssd1306_draw_empty_rect 10 10 5 0 true (ssd1306_clear fb)) 10 9 = true ∧
    get_pixel (ssd1306_draw_empty_rect 10 10 0 5 true (ssd1306_clear fb)) 9 10 = true ∧
    get_pixel (ssd1306_clear fb) 10 9 = false ∧ get_pixel (ssd1306_clear fb) 9 10 = false := by
  have h1 : ∀ wr ∈ empty_rect_writes 10 10 5 0 true, wr.2.2 = true := by decide
  have h2 : ∀ wr ∈ empty_rect_writes 10 10 0 5 true, wr.2.2 = true := by decide
  refine ⟨?_, ?_, get_pixel_clear _ _ _, get_pixel_clear _ _ _⟩
  · rw [draw_empty_rect_eq_writes,
      get_pixel_on_writes_clear _ h1 fb 10 9 (by decide) (by decide)]
    decide
  · rw [draw_empty_rect_eq_writes,
      get_pixel_on_writes_clear _ h2 fb 9 10 (by decide) (by decide)]
    decide

/-! ## Scanlines of the filled triangle (section 4.2) -/

theorem wrap_int_eq (v : Int) (h0 : -2147483648 ≤ v) (h1 : v ≤ 2147483647) :
    wrap_int v = v := by
  unfold wrap_int
  omega

theorem wrap_int_range (v : Int) : -2147483648 ≤ wrap_int v ∧ wrap_int v ≤ 2147483647 := by
  unfold wrap_int
  omega

theorem span_scanlines_rows (n : Nat) (xa xb da db dxa dxb : Int) (ys : List Int) :
    ∀ (sa sb : Int),
      (span_scanlines n xa xb da db dxa dxb sa sb ys).map (fun s => s.y) = ys := by
  induction ys with
  | nil => intro sa sb; rfl
  | cons y ys ih =>
    intro sa sb
    unfold span_scanlines
    rw [List.map_cons, ih]

theorem int_range_empty (lo hi : Int) (h : hi < lo) : int_range lo hi = [] := by
  unfold int_range
  have : (hi + 1 - lo).toNat = 0 := by omega
  rw [this]
  rfl

theorem int_range_single (lo : Int) : int_range lo lo = [lo] := by
  unfold int_range
  have : (lo + 1 - lo).toNat = 1 := by omega
  rw [this]
  show List.map (fun (k : Nat) => lo + (k : Int)) [0] = [lo]
  rw [List.map_cons, List.map_nil]
  congr 1
  omega

theorem int_range_append (lo mid hi : Int) (h1 : lo ≤ mid + 1) (h2 : mid ≤ hi) :
    int_range lo mid ++ int_range (mid + 1) hi = int_range lo hi := by
  unfold int_range
  have hn : (hi + 1 - lo).toNat = (mid + 1 - lo).toNat + (hi + 1 - (mid + 1)).toNat := by omega
  rw [hn, List.range_add, List.map_append, List.map_map]
  congr 1
  apply List.map_congr_left
  intro k _
  simp only [Function.comp]
  push_cast
  omega

theorem loop_rows_some (lo hi : Int) (h : hi ≠ 2147483647) :
    loop_rows lo hi = some (int_range lo hi) := by
  unfold loop_rows INT_MAX
  rw [if_neg h]

/-- The scanline calls for sorted vertices that are not on one row, when both
loops exit: the first span over the rows `y0 .. last`, then the second span
over the rows up to `y2`. -/
theorem sorted_triangle_scanlines_some (x0 y0 x1 y1 x2 y2 : Int) (h02 : y0 ≠ y2)
    (h12 : y1 ≤ y2) (hlo : -2147483648 < y1) (hhi : y2 < 2147483647) :
    sorted_triangle_scanlines x0 y0 x1 y1 x2 y2 =
      some
        (span_scanlines 1 x0 x0 (zero_guard (wrap_int (y1 - y0)))
            (zero_guard (wrap_int (y2 - y0))) (wrap_int (x1 - x0)) (wrap_int (x2 - x0))
            0 0 (int_range y0 (if y1 = y2 then y1 else y1 - 1)) ++
          span_scanlines 2 x1 x0 (zero_guard (wrap_int (y2 - y1)))
            (zero_guard (wrap_int (y2 - y0))) (wrap_int (x2 - x1)) (wrap_int (x2 - x0))
            (wrap_int (wrap_int (x2 - x1) *
              wrap_int ((if y0 ≤ (if y1 = y2 then y1 else y1 - 1)
                then (if y1 = y2 then y1 else y1 - 1) + 1 else y0) - y1)))
            (wrap_int (wrap_int (x2 - x0) *
              wrap_int ((if y0 ≤ (if y1 = y2 then y1 else y1 - 1)
                then (if y1 = y2 then y1 else y1 - 1) + 1 else y0) - y0)))
            (int_range (if y0 ≤ (if y1 = y2 then y1 else y1 - 1)
                then (if y1 = y2 then y1 else y1 - 1) + 1 else y0) y2)) := by
  unfold sorted_triangle_scanlines
  rw [if_neg h02, wrap_int_eq (y1 - 1) (by omega) (by omega)]
  have hl : (if y1 = y2 then y1 else y1 - 1) ≠ 2147483647 := by
    split_ifs <;> omega
  simp only []
  rw [loop_rows_some _ _ hl, loop_rows_some _ _ (by omega)]
  rfl

/-- The rows of the scanline calls for sorted vertices: `y0 .. y2`, each once. -/
theorem sorted_triangle_scanlines_rows (x0 y0 x1 y1 x2 y2 : Int) (h01 : y0 ≤ y1)
    (h12 : y1 ≤ y2) (hlo : -2147483648 < y1) (hhi : y2 < 2147483647) :
    ∃ t, sorted_triangle_scanlines x0 y0 x1 y1 x2 y2 = some t ∧
      t.map (fun s => s.y) = int_range y0 y2 := by
  by_cases h : y0 = y2
  · refine ⟨_, by unfold sorted_triangle_scanlines; rw [if_pos h], ?_⟩
    rw [← h, int_range_single]
    rfl
  · refine ⟨_, sorted_triangle_scanlines_some x0 y0 x1 y1 x2 y2 h h12 hlo hhi, ?_⟩
    simp only [List.map_append, span_scanlines_rows]
    by_cases e12 : y1 = y2
    · rw [if_pos e12, if_pos h01, int_range_empty (y1 + 1) y2 (by omega), List.append_nil, e12]
    · rw [if_neg e12]
      by_cases hfirst : y0 ≤ y1 - 1
      · rw [if_pos hfirst]
        exact int_range_append y0 (y1 - 1) y2 (by omega) (by omega)
      · rw [if_neg hfirst, int_range_empty y0 (y1 - 1) (by omega), List.nil_append]

theorem triangle_sort_rows (x0 y0 x1 y1 x2 y2 : Int) :
    (triangle_sort x0 y0 x1 y1 x2 y2).1.2 = min y0 (min y1 y2) ∧
    (triangle_sort x0 y0 x1 y1 x2 y2).2.2.2 = max y0 (max y1 y2) ∧
    (triangle_sort x0 y0 x1 y1 x2 y2).1.2 ≤ (triangle_sort x0 y0 x1 y1 x2 y2).2.1.2 ∧
    (triangle_sort x0 y0 x1 y1 x2 y2).2.1.2 ≤ (triangle_sort x0 y0 x1 y1 x2 y2).2.2.2 := by
  unfold triangle_sort
  simp only [apply_ite Prod.fst, apply_ite Prod.snd, min_def, max_def]
  refine ⟨?_, ?_, ?_, ?_⟩ <;> split_ifs <;> omega

/-- Bounds that hold for the three `y` hold for the sorted `y`. -/
theorem triangle_sort_bounds (x0 y0 x1 y1 x2 y2 lo hi : Int)
    (h0 : lo < y0 ∧ y0 < hi) (h1 : lo < y1 ∧ y1 < hi) (h2 : lo < y2 ∧ y2 < hi) :
    (lo < (triangle_sort x0 y0 x1 y1 x2 y2).1.2 ∧ (triangle_sort x0 y0 x1 y1 x2 y2).1.2 < hi) ∧
    (lo < (triangle_sort x0 y0 x1 y1 x2 y2).2.1.2 ∧
      (triangle_sort x0 y0 x1 y1 x2 y2).2.1.2 < hi) ∧
    (lo < (triangle_sort x0 y0 x1 y1 x2 y2).2.2.2 ∧
      (triangle_sort x0 y0 x1 y1 x2 y2).2.2.2 < hi) := by
  unfold triangle_sort
  simp only [apply_ite Prod.fst, apply_ite Prod.snd]
  refine ⟨⟨?_, ?_⟩, ⟨?_, ?_⟩, ⟨?_, ?_⟩⟩ <;> split_ifs <;> omega

-- The accumulator `sa` of the first scanline loop wraps at 32 bits: for the
-- vertices `(0, 0)`, `(100000000, 30)`, `(0, 60)` it is `22 * 100000000` in row
-- 22, which wraps to `-2094967296`, and the call of that row starts at
-- `-2094967296 / 30 = -69832243`.
set_option maxRecDepth 100000 in
theorem filled_triangle_scanlines_wrap :
    (filled_triangle_scanlines 0 0 100000000 30 0 60).map
        (fun t => ((t.map (fun s => (s.a, s.b, s.y))).drop 21).take 3) =
      some [(70000000, 0, 21), (-69832243, 0, 22), (-66498909, 0, 23)] := by
  decide

theorem int_max_scanlines : filled_triangle_scanlines 0 0 0 1 0 2147483647 = none := by
  decide

/-- Claim C18 fails for a vertex on row `INT_MAX`.  For the vertices `(0, 0)`,
`(0, 1)`, `(0, 2147483647)` the second scanline loop is
`for (; y <= 2147483647; y++)` with a 32-bit `y`: its test never fails, the
call draws its rows over and over and does not return. -/
theorem filled_triangle_no_exit_at_int_max :
    triangle_sort 0 0 0 1 0 2147483647 = ((0, 0), (0, 1), (0, 2147483647)) ∧
    loop_rows 1 2147483647 = none ∧
    filled_triangle_scanlines 0 0 0 1 0 2147483647 = none ∧
    ∀ (c : Bool) (fb : Framebuffer),
      ssd1306_draw_filled_triangle 0 0 0 1 0 2147483647 c fb = none := by
  refine ⟨by decide, by decide, int_max_scanlines, ?_⟩
  intro c fb
  rw [draw_filled_triangle_eq_writes, int_max_scanlines]
  rfl

/-- C18, for 32-bit vertices whose `y` coordinates lie strictly between
`INT_MIN` and `INT_MAX`: `ssd1306_draw_filled_triangle` returns, the framebuffer
it leaves is the result of its `ssd1306_draw_horizontal_line` calls in order,
and the rows `y` of these calls, in order, are
`min(y0,y1,y2), ..., max(y0,y1,y2)`: each scanline once, no other row.  When the
three `y` are equal there is the single call from the minimum to the maximum
`x` at that row. -/
theorem filled_triangle_one_fill_per_scanline (x0 y0 x1 y1 x2 y2 : Int) (c : Bool)
    (fb : Framebuffer) (hy0 : INT_MIN < y0 ∧ y0 < INT_MAX) (hy1 : INT_MIN < y1 ∧ y1 < INT_MAX)
    (hy2 : INT_MIN < y2 ∧ y2 < INT_MAX) :
    ∃ t, filled_triangle_scanlines x0 y0 x1 y1 x2 y2 = some t ∧
      ssd1306_draw_filled_triangle x0 y0 x1 y1 x2 y2 c fb =
        some (t.foldl (fun b s => ssd1306_draw_horizontal_line s.a s.b s.y c b) fb) ∧
      t.map (fun s => s.y) = int_range (min y0 (min y1 y2)) (max y0 (max y1 y2)) ∧
      (y0 = y1 ∧ y1 = y2 →
        t.map (fun s => (s.a, s.b, s.y)) = [(min x0 (min x1 x2), max x0 (max x1 x2), y0)]) := by
  obtain ⟨hmin, hmax, h01, h12⟩ := triangle_sort_rows x0 y0 x1 y1 x2 y2
  obtain ⟨-, b1, b2⟩ := triangle_sort_bounds x0 y0 x1 y1 x2 y2 INT_MIN INT_MAX hy0 hy1 hy2
  simp only [INT_MIN, INT_MAX] at b1 b2
  obtain ⟨t, ht, hrows⟩ := sorted_triangle_scanlines_rows
    (triangle_sort x0 y0 x1 y1 x2 y2).1.1 (triangle_sort x0 y0 x1 y1 x2 y2).1.2
    (triangle_sort x0 y0 x1 y1 x2 y2).2.1.1 (triangle_sort x0 y0 x1 y1 x2 y2).2.1.2
    (triangle_sort x0 y0 x1 y1 x2 y2).2.2.1 (triangle_sort x0 y0 x1 y1 x2 y2).2.2.2
    h01 h12 b1.1 b2.2
  refine ⟨t, ht, ?_, ?_, ?_⟩
  · unfold ssd1306_draw_filled_triangle fill_sorted_triangle
    rw [ht]
    rfl
  · rw [hrows, hmin, hmax]
  · rintro ⟨e1, e2⟩
    subst e1 e2
    unfold sorted_triangle_scanlines triangle_sort at ht
    simp only [gt_iff_lt, lt_self_iff_false, if_false, if_true, Option.some.injEq] at ht
    rw [← ht]
    simp only [List.map_cons, List.map_nil, List.cons.injEq, Prod.mk.injEq, and_true]
    constructor
    · simp only [min_def]; split_ifs <;> omega
    · simp only [max_def]; split_ifs <;> omega

theorem filled_triangle_one_fill_per_scanline_witness :
    ∃ t, filled_triangle_scanlines 0 0 10 0 5 10 = some t ∧
      ssd1306_draw_filled_triangle 0 0 10 0 5 10 true (ssd1306_clear []) =
        some (t.foldl (fun b s => ssd1306_draw_horizontal_line s.a s.b s.y true b)
          (ssd1306_clear [])) ∧
      t.map (fun s => s.y) = int_range (min 0 (min 0 10)) (max 0 (max 0 10)) ∧
      ((0 : Int) = 0 ∧ (0 : Int) = 10 →
        t.map (fun s => (s.a, s.b, s.y)) = [(min 0 (min 10 5), max 0 (max 10 5), 0)]) :=
  filled_triangle_one_fill_per_scanline 0 0 10 0 5 10 true (ssd1306_clear [])
    (by decide) (by decide) (by decide)

/-! ## Replacing a character (section 4.5) -/

/-- Erasing a character drawn ON on a cleared framebuffer gives a cleared
framebuffer. -/
theorem draw_char_erase_on_clear (fb : Framebuffer) (x y c sx sy : Nat) :
    ssd1306_draw_char x y c sx sy COLOR_BLACK
        (ssd1306_draw_char x y c sx sy COLOR_WHITE (ssd1306_clear fb)) = ssd1306_clear fb := by
  classical
  by_cases hc : 32 ≤ c ∧ c ≤ 126
  · have w1 := wf_draw_char _ (wf_clear fb) x y c sx sy COLOR_WHITE
    have w2 := wf_draw_char _ w1 x y c sx sy COLOR_BLACK
    apply framebuffer_ext _ _ w2 (wf_clear fb)
    intro p q hp hq
    rw [get_pixel_draw_char _ w1 x y c sx sy _ hc p q hp hq,
      get_pixel_draw_char _ (wf_clear fb) x y c sx sy _ hc p q hp hq, get_pixel_clear]
    by_cases hs : spacing_at x y sx sy p q
    · simp [hs]
    · by_cases hg : glyph_at x y c sx sy p q
      · simp [hs, hg, COLOR_BLACK]
      · simp [hs, hg]
  · have hno : c < 32 ∨ c > 126 := by omega
    unfold ssd1306_draw_char
    simp only [if_pos hno]

/-- C20: starting from a cleared framebuffer on which `old` was drawn ON at
`(x, y)` at the old scale, `ssd1306_overwrite_char(x, y, old, new, old scale,
new scale)` gives exactly the framebuffer obtained by drawing `new` ON at
`(x, y)` at the new scale on a cleared framebuffer.  This holds for all codes,
positions and scales, in particular for supported characters whose cells are
on-screen. -/
theorem overwrite_char_replaces_old (fb : Framebuffer) (x y old new osx osy nsx nsy : Nat) :
    ssd1306_overwrite_char x y old new osx osy nsx nsy
        (ssd1306_draw_char x y old osx osy COLOR_WHITE (ssd1306_clear fb)) =
      ssd1306_draw_char x y new nsx nsy COLOR_WHITE (ssd1306_clear fb) := by
  unfold ssd1306_overwrite_char
  rw [draw_char_erase_on_clear]

/-! ## Pixel maps of characters and strings -/

theorem last_write_cons (w : Write) (ws : List Write) (p q : Nat) :
    last_write (w :: ws) p q =
      match last_write ws p q with
      | some c => some c
      | none => if w.1 = p ∧ w.2.1 = q then some w.2.2 else none := rfl

theorem last_write_append (ws1 ws2 : List Write) (p q : Nat) :
    last_write (ws1 ++ ws2) p q =
      match last_write ws2 p q with
      | some c => some c
      | none => last_write ws1 p q := by
  induction ws1 with
  | nil =>
    rw [List.nil_append]
    cases last_write ws2 p q <;> rfl
  | cons w ws1 ih =>
    rw [List.cons_append, last_write_cons, ih, last_write_cons]
    cases last_write ws2 p q <;> rfl

theorem write_map_append (ws1 ws2 : List Write) (p q : Nat) (v : Bool) :
    write_map (ws1 ++ ws2) p q v = write_map ws2 p q (write_map ws1 p q v) := by
  unfold write_map
  rw [last_write_append]
  cases last_write ws2 p q <;> rfl

theorem last_write_uniform (ws : List Write) (c : Bool) (hc : ∀ w ∈ ws, w.2.2 = c)
    (p q : Nat) [Decidable ((p, q, c) ∈ ws)] :
    last_write ws p q = if (p, q, c) ∈ ws then some c else none := by
  cases hl : last_write ws p q with
  | none =>
    have hn := (last_write_eq_none ws p q).mp hl
    rw [if_neg]
    exact fun hm => hn _ hm ⟨rfl, rfl⟩
  | some c' =>
    have hm := last_write_eq_some ws p q c' hl
    have : c' = c := hc _ hm
    subst this
    rw [if_pos hm]

/-- The pixel map of `ssd1306_draw_char` in closed form: untouched for an
unsupported code; else OFF in the spacing column, the colour on the glyph
blocks of set bits, untouched elsewhere. -/
theorem char_map_eq (x y c sx sy : Nat) (col : Bool) (p q : Nat) (v : Bool)
    [Decidable (spacing_at x y sx sy p q)] [Decidable (glyph_at x y c sx sy p q)] :
    char_map x y c sx sy col p q v =
      if c < 32 ∨ c > 126 then v
      else if spacing_at x y sx sy p q then false
      else if glyph_at x y c sx sy p q then col
      else v := by
  classical
  unfold char_map draw_char_writes
  by_cases hc : c < 32 ∨ c > 126
  · rw [if_pos hc, if_pos hc]; rfl
  · rw [if_neg hc, if_neg hc, write_map_append]
    unfold write_map
    rw [last_write_uniform (spacing_writes x y sx sy) false
        (fun w hw => by
          rcases w with ⟨a, b, d⟩
          exact ((mem_spacing_writes _ _ _ _ _ _ _).mp hw).2),
      last_write_uniform (glyph_writes x y c sx sy col) col
        (fun w hw => by
          rcases w with ⟨a, b, d⟩
          exact ((mem_glyph_writes _ _ _ _ _ _ _ _ _).mp hw).2)]
    by_cases hs : spacing_at x y sx sy p q
    · rw [if_pos hs, if_pos ((mem_spacing_writes _ _ _ _ _ _ _).mpr ⟨hs, rfl⟩)]
      rfl
    · rw [if_neg hs, if_neg (fun hm => hs ((mem_spacing_writes _ _ _ _ _ _ _).mp hm).1)]
      by_cases hg : glyph_at x y c sx sy p q
      · rw [if_pos hg, if_pos ((mem_glyph_writes _ _ _ _ _ _ _ _ _).mpr ⟨hg, rfl⟩)]
        rfl
      · rw [if_neg hg, if_neg (fun hm => hg ((mem_glyph_writes _ _ _ _ _ _ _ _ _).mp hm).1)]
        rfl

theorem get_pixel_draw_char_map (fb : Framebuffer) (hwf : fb.WF) (x y c sx sy : Nat)
    (col : Bool) (p q : Nat) (hp : p < 128) (hq : q < 64) :
    get_pixel (ssd1306_draw_char x y c sx sy col fb) p q =
      char_map x y c sx sy col p q (get_pixel fb p q) := by
  rw [draw_char_eq_writes, get_pixel_apply_writes _ fb hwf p q hp hq]
  rfl

theorem glyph_at_column (x y c sx sy p q : Nat) (hx : x + 6 * sx ≤ 256)
    (h : glyph_at x y c sx sy p q) : x ≤ p ∧ p < x + 5 * sx := by
  obtain ⟨i, hi, j, -, -, dx, hdx, dy, -, e1, -⟩ := h
  have h1 := block_offset_lt sx i 5 dx hi hdx
  rw [Nat.mod_eq_of_lt (by omega)] at e1
  omega

theorem spacing_at_column (x y sx sy p q : Nat) (hx : x + 6 * sx ≤ 256)
    (h : spacing_at x y sx sy p q) : x + 5 * sx ≤ p ∧ p < x + 6 * sx := by
  obtain ⟨j, -, dx, hdx, dy, -, e1, -⟩ := h
  rw [Nat.mod_eq_of_lt (by omega)] at e1
  omega

/-- A character whose cell does not wrap leaves every pixel outside the columns
of its cell untouched. -/
theorem char_map_outside (x y c sx sy : Nat) (col : Bool) (p q : Nat) (v : Bool)
    (hx : x + 6 * sx ≤ 256) (hp : p < x ∨ x + 6 * sx ≤ p) :
    char_map x y c sx sy col p q v = v := by
  classical
  rw [char_map_eq]
  by_cases hc : c < 32 ∨ c > 126
  · rw [if_pos hc]
  · rw [if_neg hc, if_neg, if_neg]
    · intro hg
      have := glyph_at_column x y c sx sy p q hx hg
      omega
    · intro hs
      have := spacing_at_column x y sx sy p q hx hs
      omega

/-- Drawing a character OFF over the same character drawn ON on an OFF pixel
leaves the pixel OFF. -/
theorem char_map_erase (x y c sx sy p q : Nat) :
    char_map x y c sx sy COLOR_BLACK p q (char_map x y c sx sy COLOR_WHITE p q false) = false := by
  classical
  rw [char_map_eq, char_map_eq]
  by_cases hc : c < 32 ∨ c > 126
  · simp [hc]
  · by_cases hs : spacing_at x y sx sy p q
    · simp [hc, hs]
    · by_cases hg : glyph_at x y c sx sy p q
      · simp [hc, hs, hg, COLOR_BLACK]
      · simp [hc, hs, hg]

theorem wf_draw_string (str : CString) :
    ∀ (x y sx sy : Nat) (col : Bool) (fb : Framebuffer), fb.WF →
      (ssd1306_draw_string x y str sx sy col fb).WF := by
  induction str with
  | nil => intro x y sx sy col fb h; unfold ssd1306_draw_string; exact h
  | cons c rest ih =>
    intro x y sx sy col fb h
    unfold ssd1306_draw_string
    exact ih _ _ _ _ _ _ (wf_draw_char fb h x y c sx sy col)

theorem get_pixel_draw_string (str : CString) :
    ∀ (x y sx sy : Nat) (col : Bool) (fb : Framebuffer), fb.WF →
      ∀ p q, p < 128 → q < 64 →
        get_pixel (ssd1306_draw_string x y str sx sy col fb) p q =
          string_map x y str sx sy col p q (get_pixel fb p q) := by
  induction str with
  | nil => intro x y sx sy col fb _ p q _ _; unfold ssd1306_draw_string string_map; rfl
  | cons c rest ih =>
    intro x y sx sy col fb h p q hp hq
    unfold ssd1306_draw_string string_map
    rw [ih _ _ _ _ _ _ (wf_draw_char fb h x y c sx sy col) p q hp hq,
      get_pixel_draw_char_map fb h x y c sx sy col p q hp hq]

/-- A string whose cells do not wrap leaves every pixel left of its first cell
untouched. -/
theorem string_map_left (str : CString) :
    ∀ (x y sx sy : Nat) (col : Bool) (p q : Nat) (v : Bool),
      x < 256 → x + str.length * (6 * sx) ≤ 256 → p < x →
        string_map x y str sx sy col p q v = v := by
  induction str with
  | nil => intro x y sx sy col p q v _ _ _; unfold string_map; rfl
  | cons c rest ih =>
    intro x y sx sy col p q v hx8 hx hp
    simp only [List.length_cons, Nat.add_mul, Nat.one_mul] at hx
    unfold string_map
    rw [char_map_outside x y c sx sy col p q v (by omega) (Or.inl hp)]
    cases rest with
    | nil => unfold string_map; rfl
    | cons c2 rest2 =>
      simp only [List.length_cons, Nat.add_mul, Nat.one_mul] at hx
      have hlt : x + 6 * sx < 256 := by omega
      rw [Nat.mod_eq_of_lt hlt]
      exact ih _ _ _ _ _ _ _ _ hlt
        (by simp only [List.length_cons, Nat.add_mul, Nat.one_mul]; omega) (by omega)

/-! ## Overwriting a string (section 4.5) -/

theorem display_buffer (dev : Device) : (ssd1306_display dev).buffer = dev.buffer := rfl

theorem task_delay_buffer (t d : Nat) (dev : Device) : (task_delay t d dev).buffer = dev.buffer :=
  rfl

/-- On a pixel that is OFF wherever the cell of the character can reach,
erasing the old character and drawing the new one gives what drawing the new
one alone gives. -/
theorem char_map_overwrite (x y o n sx sy p q : Nat) (v : Bool) (hx : x + 6 * sx ≤ 256)
    (hv : x ≤ p → v = false) :
    char_map x y n sx sy COLOR_WHITE p q
        (char_map x y o sx sy COLOR_BLACK p q (char_map x y o sx sy COLOR_WHITE p q v)) =
      char_map x y n sx sy COLOR_WHITE p q v := by
  by_cases hp : x ≤ p
  · rw [hv hp, char_map_erase]
  · rw [char_map_outside x y o sx sy COLOR_WHITE p q v hx (Or.inl (by omega)),
      char_map_outside x y o sx sy COLOR_BLACK p q v hx (Or.inl (by omega))]

theorem string_map_congr_left (str : CString) (x y sx sy : Nat) (col : Bool) (p q : Nat)
    (v : Bool) (hx : x + str.length * (6 * sx) < 256) (hp : p < x) :
    string_map x y str sx sy col p q v = v :=
  string_map_left str x y sx sy col p q v (by omega) (by omega) hp

/-- The pixels after `ssd1306_overwrite_string_char_by_char`, when the buffer
holds the old string drawn ON over a background that is OFF from column `x` on:
they are those of the new string drawn ON over the same background. -/
theorem overwrite_string_pixels (T y sx sy d : Nat) (old : CString) :
    ∀ (new : CString) (x : Nat) (dev : Device) (base : Nat → Nat → Bool),
      dev.buffer.WF → x + max old.length new.length * (6 * sx) < 256 →
      (∀ p q, x ≤ p → base p q = false) →
      (∀ p q, p < 128 → q < 64 →
        get_pixel dev.buffer p q = string_map x y old sx sy COLOR_WHITE p q (base p q)) →
      (ssd1306_overwrite_string_char_by_char T x y old new sx sy d dev).buffer.WF ∧
      ∀ p q, p < 128 → q < 64 →
        get_pixel (ssd1306_overwrite_string_char_by_char T x y old new sx sy d dev).buffer p q =
          string_map x y new sx sy COLOR_WHITE p q (base p q) := by
  induction old with
  | nil =>
    intro new
    induction new with
    | nil =>
      intro x dev base hwf _ _ hpix
      rw [ssd1306_overwrite_string_char_by_char]
      exact ⟨hwf, hpix⟩
    | cons n ns ih =>
      intro x dev base hwf hx hbase hpix
      simp only [List.length_nil, List.length_cons, Nat.zero_max, Nat.add_mul,
        Nat.one_mul] at hx
      rw [ssd1306_overwrite_string_char_by_char]
      have hX : (x + 6 * sx) % 256 = x + 6 * sx := Nat.mod_eq_of_lt (by omega)
      rw [hX]
      have hwf1 := wf_draw_char dev.buffer hwf x y n sx sy COLOR_WHITE
      have key := ih (x + 6 * sx)
        (task_delay T d (ssd1306_display
          { dev with buffer := ssd1306_draw_char x y n sx sy COLOR_WHITE dev.buffer }))
        (fun p q => char_map x y n sx sy COLOR_WHITE p q (base p q)) hwf1
        (by simp only [List.length_nil, Nat.zero_max]; omega)
        (by
          intro p q hp
          show char_map x y n sx sy COLOR_WHITE p q (base p q) = false
          rw [char_map_outside x y n sx sy COLOR_WHITE p q _ (by omega) (Or.inr hp)]
          exact hbase p q (by omega))
        (by
          intro p q hp hq
          rw [task_delay_buffer, display_buffer]
          simp only
          rw [get_pixel_draw_char_map _ hwf x y n sx sy _ p q hp hq, hpix p q hp hq]
          unfold string_map
          rfl)
      refine ⟨key.1, ?_⟩
      intro p q hp hq
      rw [key.2 p q hp hq]
      conv_rhs => unfold string_map
      rw [hX]
  | cons o os ih =>
    intro new
    cases new with
    | nil =>
      intro x dev base hwf hx hbase hpix
      simp only [List.length_nil, List.length_cons, Nat.max_zero, Nat.add_mul,
        Nat.one_mul] at hx
      rw [ssd1306_overwrite_string_char_by_char]
      have hX : (x + 6 * sx) % 256 = x + 6 * sx := Nat.mod_eq_of_lt (by omega)
      rw [hX]
      have hwf1 := wf_draw_char dev.buffer hwf x y o sx sy COLOR_BLACK
      have key := ih [] (x + 6 * sx)
        (task_delay T d (ssd1306_display
          { dev with buffer := ssd1306_draw_char x y o sx sy COLOR_BLACK dev.buffer }))
        base hwf1
        (by simp only [List.length_nil, Nat.max_zero]; omega)
        (fun p q hp => hbase p q (by omega))
        (by
          intro p q hp hq
          rw [task_delay_buffer, display_buffer]
          simp only
          rw [get_pixel_draw_char_map _ hwf x y o sx sy _ p q hp hq, hpix p q hp hq]
          conv_lhs => unfold string_map
          rw [hX]
          by_cases hlt : p < x + 6 * sx
          · rw [string_map_congr_left os _ y sx sy _ p q _ (by omega) hlt,
              string_map_congr_left os _ y sx sy _ p q _ (by omega) hlt]
            by_cases hpx : x ≤ p
            · rw [hbase p q hpx, char_map_erase]
            · rw [char_map_outside x y o sx sy COLOR_WHITE p q _ (by omega) (Or.inl (by omega)),
                char_map_outside x y o sx sy COLOR_BLACK p q _ (by omega) (Or.inl (by omega))]
          · rw [char_map_outside x y o sx sy COLOR_WHITE p q _ (by omega) (Or.inr (by omega)),
              char_map_outside x y o sx sy COLOR_BLACK p q _ (by omega) (Or.inr (by omega))])
      refine ⟨key.1, ?_⟩
      intro p q hp hq
      rw [key.2 p q hp hq]
      rfl
    | cons n ns =>
      intro x dev base hwf hx hbase hpix
      have hmax : max (o :: os).length (n :: ns).length = max os.length ns.length + 1 := by
        simp only [List.length_cons]
        omega
      rw [hmax, Nat.add_mul, Nat.one_mul] at hx
      rw [ssd1306_overwrite_string_char_by_char]
      have hX : (x + 6 * sx) % 256 = x + 6 * sx := Nat.mod_eq_of_lt (by omega)
      rw [hX]
      have hwf1 : (ssd1306_overwrite_char x y o n sx sy sx sy dev.buffer).WF :=
        wf_draw_char _ (wf_draw_char dev.buffer hwf x y o sx sy COLOR_BLACK) x y n sx sy
          COLOR_WHITE
      have hos : os.length * (6 * sx) ≤ max os.length ns.length * (6 * sx) :=
        Nat.mul_le_mul_right _ (Nat.le_max_left _ _)
      have key := ih (n :: ns).tail (x + 6 * sx)
        (task_delay T d (ssd1306_display
          { dev with buffer := ssd1306_overwrite_char x y o n sx sy sx sy dev.buffer }))
        (fun p q => char_map x y n sx sy COLOR_WHITE p q (base p q)) hwf1
        (by simp only [List.tail_cons]; omega)
        (by
          intro p q hp
          show char_map x y n sx sy COLOR_WHITE p q (base p q) = false
          rw [char_map_outside x y n sx sy COLOR_WHITE p q _ (by omega) (Or.inr hp)]
          exact hbase p q (by omega))
        (by
          intro p q hp hq
          rw [task_delay_buffer, display_buffer]
          simp only
          unfold ssd1306_overwrite_char
          rw [get_pixel_draw_char_map _ (wf_draw_char dev.buffer hwf x y o sx sy COLOR_BLACK)
              x y n sx sy _ p q hp hq,
            get_pixel_draw_char_map _ hwf x y o sx sy _ p q hp hq, hpix p q hp hq]
          conv_lhs => unfold string_map
          rw [hX]
          by_cases hlt : p < x + 6 * sx
          · rw [string_map_congr_left os _ y sx sy _ p q _ (by omega) hlt,
              string_map_congr_left os _ y sx sy _ p q _ (by omega) hlt]
            exact char_map_overwrite x y o n sx sy p q _ (by omega) (hbase p q)
          · rw [char_map_outside x y o sx sy COLOR_WHITE p q _ (by omega) (Or.inr (by omega)),
              char_map_outside x y o sx sy COLOR_BLACK p q _ (by omega) (Or.inr (by omega)),
              char_map_outside x y n sx sy COLOR_WHITE p q _ (by omega) (Or.inr (by omega)),
              char_map_outside x y n sx sy COLOR_WHITE p q _ (by omega) (Or.inr (by omega))])
      simp only [List.tail_cons] at key
      refine ⟨key.1, ?_⟩
      intro p q hp hq
      rw [key.2 p q hp hq]
      conv_rhs => unfold string_map
      rw [hX]

/-- C19: for strings `old` and `new`, a start `(x, y)` and a scale with
`x + 6*size_x*max(len(old), len(new)) <= 128` (and any `y`, so in particular
with `y + 8*size_y <= 64`): if the framebuffer is a cleared framebuffer on
which `old` was drawn ON by `ssd1306_draw_string`, then after
`ssd1306_overwrite_string_char_by_char` the framebuffer equals a cleared
framebuffer on which `new` was drawn ON by `ssd1306_draw_string`, for every
delay and tick period. -/
theorem overwrite_string_yields_new_string (T d : Nat) (fb : Framebuffer) (log : List Event)
    (x y sx sy : Nat) (old new : CString)
    (hx : x + 6 * sx * max old.length new.length ≤ 128) :
    (ssd1306_overwrite_string_char_by_char T x y old new sx sy d
        { buffer := ssd1306_draw_string x y old sx sy COLOR_WHITE (ssd1306_clear fb),
          log := log }).buffer =
      ssd1306_draw_string x y new sx sy COLOR_WHITE (ssd1306_clear fb) := by
  have hwf0 := wf_draw_string old x y sx sy COLOR_WHITE _ (wf_clear fb)
  have hx' : x + max old.length new.length * (6 * sx) < 256 := by
    rw [Nat.mul_comm]; omega
  obtain ⟨hwf, hpix⟩ := overwrite_string_pixels T y sx sy d old new x
    { buffer := ssd1306_draw_string x y old sx sy COLOR_WHITE (ssd1306_clear fb), log := log }
    (fun _ _ => false) hwf0 hx' (fun _ _ _ => rfl)
    (by
      intro p q hp hq
      simp only
      rw [get_pixel_draw_string old x y sx sy _ _ (wf_clear fb) p q hp hq, get_pixel_clear])
  apply framebuffer_ext _ _ hwf (wf_draw_string new x y sx sy COLOR_WHITE _ (wf_clear fb))
  intro p q hp hq
  rw [hpix p q hp hq, get_pixel_draw_string new x y sx sy _ _ (wf_clear fb) p q hp hq,
    get_pixel_clear]

theorem overwrite_string_yields_new_string_witness :
    (ssd1306_overwrite_string_char_by_char 10 0 0 [72, 105] [79, 75, 33] 1 1 50
        { buffer := ssd1306_draw_string 0 0 [72, 105] 1 1 COLOR_WHITE (ssd1306_clear []),
          log := [] }).buffer =
      ssd1306_draw_string 0 0 [79, 75, 33] 1 1 COLOR_WHITE (ssd1306_clear []) :=
  overwrite_string_yields_new_string 10 50 [] [] 0 0 1 1 [72, 105] [79, 75, 33] (by decide)

/-! ## Plain strings (section 4.4) -/

theorem draw_string_eq_calls (str : CString) :
    ∀ (x y sx sy : Nat) (col : Bool) (fb : Framebuffer),
      ssd1306_draw_string x y str sx sy col fb =
        apply_char_calls (string_calls x y str sx) sx sy col fb := by
  induction str with
  | nil => intro x y sx sy col fb; unfold ssd1306_draw_string string_calls; rfl
  | cons c rest ih =>
    intro x y sx sy col fb
    unfold ssd1306_draw_string string_calls
    rw [ih]
    rfl

/-- The k-th `ssd1306_draw_char` call of `ssd1306_draw_string`: the cursor is a
`uint8_t`, so the left edge is `x + k*6*size_x` reduced modulo 256. -/
theorem string_calls_getElem? (str : CString) :
    ∀ (x y sx k : Nat), x < 256 → k < str.length →
      (string_calls x y str sx)[k]? = some ((x + k * 6 * sx) % 256, y, str.getD k 0) := by
  induction str with
  | nil => intro x y sx k _ hk; simp at hk
  | cons c rest ih =>
    intro x y sx k hx hk
    unfold string_calls
    cases k with
    | zero =>
      simp only [List.getElem?_cons_zero, Nat.zero_mul, Nat.add_zero]
      rw [Nat.mod_eq_of_lt hx]
      rfl
    | succ k =>
      rw [List.getElem?_cons_succ, ih _ _ _ _ (Nat.mod_lt _ (by norm_num)) (by simpa using hk)]
      have e : ((x + 6 * sx) % 256 + k * 6 * sx) % 256 = (x + (k + 1) * 6 * sx) % 256 := by
        rw [Nat.add_mod, Nat.mod_mod, ← Nat.add_mod]
        congr 1
        rw [Nat.add_mul, Nat.add_mul, Nat.one_mul]
        omega
      rw [e]
      rfl

/-- A character whose cell lies in the columns 128..255 changes nothing. -/
theorem draw_char_off_screen (fb : Framebuffer) (hwf : fb.WF) (x y c sx sy : Nat) (col : Bool)
    (h1 : 128 ≤ x) (h2 : x + 6 * sx ≤ 256) : ssd1306_draw_char x y c sx sy col fb = fb := by
  apply framebuffer_ext _ _ (wf_draw_char fb hwf x y c sx sy col) hwf
  intro p q hp hq
  rw [get_pixel_draw_char_map fb hwf x y c sx sy col p q hp hq,
    char_map_outside x y c sx sy col p q _ h2 (Or.inl (by omega))]

/-- A string whose cells do not wrap changes no pixel in a column left of `x`. -/
theorem draw_string_left_unchanged (fb : Framebuffer) (hwf : fb.WF) (x y sx sy : Nat)
    (col : Bool) (str : CString) (hx8 : x < 256) (hx : x + str.length * 6 * sx ≤ 256)
    (p q : Nat) (hp : p < 128) (hq : q < 64) (hpx : p < x) :
    get_pixel (ssd1306_draw_string x y str sx sy col fb) p q = get_pixel fb p q := by
  rw [get_pixel_draw_string str x y sx sy col fb hwf p q hp hq]
  exact string_map_left str x y sx sy col p q _ hx8 (by rw [← Nat.mul_assoc]; exact hx) hpx

/-- C12: the k-th character of `ssd1306_draw_string` is drawn with its left
edge at `(x + k*6*size_x) mod 256`, because the cursor is a `uint8_t`.
`draw_string(4, 0, 43 x 'A', 1, 1, ON)` on a cleared framebuffer draws its last
character (k = 42, left edge 4 + 42*6 = 256) at column 0 and turns on pixel
`(0, 1)`, in a column left of `x = 4`; `draw_string(252, 0, "A", 1, 1, ON)`
turns on the same pixel through the 8-bit wrap inside `ssd1306_draw_char`. -/
theorem draw_string_cursor_wraps_at_256 (fb : Framebuffer) :
    (∀ (str : CString) (x y sx sy : Nat) (col : Bool) (b : Framebuffer),
      ssd1306_draw_string x y str sx sy col b =
        apply_char_calls (string_calls x y str sx) sx sy col b) ∧
    (∀ (str : CString) (x y sx k : Nat), x < 256 → k < str.length →
      (string_calls x y str sx)[k]? = some ((x + k * 6 * sx) % 256, y, str.getD k 0)) ∧
    (string_calls 4 0 (List.replicate 43 65) 1)[42]? = some (0, 0, 65) ∧
    4 + 42 * 6 * 1 = 256 ∧
    get_pixel (ssd1306_clear fb) 0 1 = false ∧
    get_pixel (ssd1306_draw_string 4 0 (List.replicate 43 65) 1 1 true (ssd1306_clear fb)) 0 1
      = true ∧
    get_pixel (ssd1306_draw_string 252 0 [65] 1 1 true (ssd1306_clear fb)) 0 1 = true := by
  refine ⟨fun str x y sx sy col b => draw_string_eq_calls str x y sx sy col b,
    fun str x y sx k hx hk => string_calls_getElem? str x y sx k hx hk, by decide, by decide,
    get_pixel_clear _ _ _, ?_, ?_⟩
  · rw [get_pixel_draw_string _ 4 0 1 1 true _ (wf_clear fb) 0 1 (by decide) (by decide),
      get_pixel_clear]
    decide
  · rw [get_pixel_draw_string _ 252 0 1 1 true _ (wf_clear fb) 0 1 (by decide) (by decide),
      get_pixel_clear]
    decide

/-! ## Bresenham line (section 4.2) -/

/-- Exchanging the roles of the two axes negates the error term. -/
theorem bres_loop_swap (a b : Int) (fuel : Nat) :
    ∀ (i j : Nat) (e : Int),
      bres_loop a b fuel i j e =
        (bres_loop b a fuel j i (-e)).map (List.map Prod.swap) := by
  induction fuel with
  | zero => intro i j e; rfl
  | succ fuel ih =>
    intro i j e
    unfold bres_loop
    by_cases hf : (i : Int) = a ∧ (j : Int) = b
    · rw [if_pos hf, if_pos ⟨hf.2, hf.1⟩]
      rfl
    · rw [if_neg hf, if_neg (show ¬ ((j : Int) = b ∧ (i : Int) = a) from fun h => hf ⟨h.2, h.1⟩)]
      have c1 : (2 * -e ≥ -a) ↔ (2 * e ≤ a) := by constructor <;> intro h <;> omega
      have c2 : (2 * -e ≤ b) ↔ (2 * e ≥ -b) := by constructor <;> intro h <;> omega
      simp only [c1, c2]
      have he : (if 2 * e ≥ -b then (if 2 * e ≤ a then -e + -a else -e) + b
            else (if 2 * e ≤ a then -e + -a else -e)) =
          -(if 2 * e ≤ a then (if 2 * e ≥ -b then e + -b else e) + a
            else (if 2 * e ≥ -b then e + -b else e)) := by
        split_ifs <;> omega
      rw [he, ih, Option.map_map, Option.map_map]
      rfl

/-- When `b <= a` the counter loop takes one x step per round and ends after
`a - i` further rounds exactly at `(a, b)`, never passing `b`. -/
theorem bres_loop_dominant (a b : Nat) (hab : b ≤ a) (fuel : Nat) :
    ∀ (i j : Nat) (e : Int),
      e = (a : Int) - b - b * i + a * j → i ≤ a → j ≤ b → -(b : Int) ≤ 2 * e →
      a - i + 1 ≤ fuel →
      ∃ pts, bres_loop a b fuel i j e = some pts ∧ pts.length = a - i + 1 ∧
        pts.head? = some (i, j) ∧ pts.getLast? = some (a, b) ∧
        ∀ k, k < pts.length → ∃ j', pts[k]? = some (i + k, j') ∧ j ≤ j' ∧ j' ≤ b := by
  induction fuel with
  | zero => intro i j e _ _ _ _ hfuel; omega
  | succ fuel ih =>
    intro i j e he hi hj hlow hfuel
    unfold bres_loop
    by_cases hf : (i : Int) = a ∧ (j : Int) = b
    · rw [if_pos hf]
      have ei : i = a := by omega
      have ej : j = b := by omega
      refine ⟨[(i, j)], rfl, by simp; omega, rfl, by simp [ei, ej], ?_⟩
      intro k hk
      have : k = 0 := by simpa using hk
      subst this
      exact ⟨j, rfl, le_refl _, hj⟩
    · rw [if_neg hf]
      have hia : i < a := by
        by_contra hcon
        have ei : i = a := by omega
        apply hf
        refine ⟨by omega, ?_⟩
        by_contra hjb
        have hlt : j + 1 ≤ b := by omega
        have hprod : (a : Int) * ((j : Int) + 1) ≤ (a : Int) * (b : Int) :=
          mul_le_mul_of_nonneg_left (by exact_mod_cast hlt) (by positivity)
        have eiz : (i : Int) = a := by omega
        rw [eiz] at he
        nlinarith
      have h1 : 2 * e ≥ -(b : Int) := hlow
      have hstep : (if 2 * e ≥ -(b : Int) then i + 1 else i) = i + 1 := if_pos h1
      rw [hstep]
      by_cases h2 : 2 * e ≤ (a : Int)
      · have hjb : j < b := by
          by_contra hcon
          have ej : (j : Int) = b := by omega
          have hprod : (b : Int) * ((i : Int) + 1) ≤ (b : Int) * (a : Int) :=
            mul_le_mul_of_nonneg_left (by exact_mod_cast hia) (by positivity)
          rw [ej] at he
          have hiz : (i : Int) + 1 ≤ a := by exact_mod_cast hia
          nlinarith
        simp only [h1, h2, if_true]
        obtain ⟨pts, hp, hlen, hhead, hlast, hk⟩ := ih (i + 1) (j + 1) (e + -(b : Int) + a)
          (by rw [he]; push_cast; ring) (by omega) (by omega)
          (by have : (b : Int) ≤ a := by exact_mod_cast hab
              omega) (by omega)
        rw [hp]
        refine ⟨(i, j) :: pts, rfl, by simp [hlen]; omega, rfl, ?_, ?_⟩
        · cases pts with
          | nil => simp at hlen
          | cons h t => rw [List.getLast?_cons_cons]; exact hlast
        · intro k hkl
          cases k with
          | zero => exact ⟨j, by simp, le_refl _, hj⟩
          | succ k =>
            obtain ⟨j', hj', hlo, hhi⟩ := hk k (by simpa using hkl)
            refine ⟨j', ?_, by omega, hhi⟩
            rw [List.getElem?_cons_succ, hj']
            congr 2
            omega
      · simp only [h1, h2, if_true, if_false]
        obtain ⟨pts, hp, hlen, hhead, hlast, hk⟩ := ih (i + 1) j (e + -(b : Int))
          (by rw [he]; push_cast; ring) (by omega) hj
          (by have : (b : Int) ≤ a := by exact_mod_cast hab
              omega) (by omega)
        rw [hp]
        refine ⟨(i, j) :: pts, rfl, by simp [hlen]; omega, rfl, ?_, ?_⟩
        · cases pts with
          | nil => simp at hlen
          | cons h t => rw [List.getLast?_cons_cons]; exact hlast
        · intro k hkl
          cases k with
          | zero => exact ⟨j, by simp, le_refl _, hj⟩
          | succ k =>
            obtain ⟨j', hj', hlo, hhi⟩ := hk k (by simpa using hkl)
            refine ⟨j', ?_, hlo, hhi⟩
            rw [List.getElem?_cons_succ, hj']
            congr 2
            omega

/-- The counter loop started at `(0, 0)` with the fuel of `ssd1306_draw_line`:
it returns `max a b + 1` points from `(0, 0)` to `(a, b)`, the k-th of them at
step `k` of the dominant axis. -/
theorem bres_loop_result (a b : Nat) :
    ∃ pts, bres_loop a b (a + b + 1) 0 0 ((a : Int) - b) = some pts ∧
      pts.length = max a b + 1 ∧ pts.head? = some (0, 0) ∧ pts.getLast? = some (a, b) ∧
      (b ≤ a → ∀ k, k < pts.length → ∃ j', pts[k]? = some (k, j') ∧ j' ≤ b) ∧
      (a < b → ∀ k, k < pts.length → ∃ i', pts[k]? = some (i', k) ∧ i' ≤ a) := by
  rcases Nat.lt_or_ge a b with hlt | hge
  · obtain ⟨pts, hp, hlen, hhead, hlast, hk⟩ := bres_loop_dominant b a (Nat.le_of_lt hlt)
      (a + b + 1) 0 0 (-((a : Int) - b)) (by push_cast; ring) (Nat.zero_le _) (Nat.zero_le _)
      (by omega) (by omega)
    refine ⟨pts.map Prod.swap, ?_, ?_, ?_, ?_, ?_, ?_⟩
    · rw [bres_loop_swap, hp]; rfl
    · rw [List.length_map, hlen]; omega
    · rw [List.head?_map, hhead]; rfl
    · rw [List.getLast?_map, hlast]; rfl
    · intro h; omega
    · intro _ k hkl
      rw [List.length_map] at hkl
      obtain ⟨i', hi', -, hhi⟩ := hk k hkl
      refine ⟨i', ?_, hhi⟩
      rw [List.getElem?_map, hi', Nat.zero_add]
      rfl
  · obtain ⟨pts, hp, hlen, hhead, hlast, hk⟩ := bres_loop_dominant a b hge
      (a + b + 1) 0 0 ((a : Int) - b) (by push_cast; ring) (Nat.zero_le _) (Nat.zero_le _)
      (by omega) (by omega)
    refine ⟨pts, hp, by rw [hlen]; omega, hhead, hlast, ?_, ?_⟩
    · intro _ k hkl
      obtain ⟨j', hj', -, hhi⟩ := hk k hkl
      refine ⟨j', ?_, hhi⟩
      rw [hj', Nat.zero_add]
    · intro h; omega

/-- The counters of the counter loop never exceed the two distances. -/
theorem bres_points_le (a b : Nat) (pts : List (Nat × Nat))
    (h : bres_loop a b (a + b + 1) 0 0 ((a : Int) - b) = some pts) :
    ∀ ij ∈ pts, ij.1 ≤ a ∧ ij.2 ≤ b := by
  obtain ⟨pts', hp, hlen, -, -, hdx, hdy⟩ := bres_loop_result a b
  rw [h] at hp
  cases Option.some.inj hp
  intro ij hij
  obtain ⟨k, hk⟩ := List.mem_iff_getElem?.mp hij
  have hkl : k < pts.length := by
    by_contra hge
    rw [List.getElem?_eq_none (Nat.le_of_not_lt hge)] at hk
    cases hk
  rcases Nat.lt_or_ge a b with hlt | hge
  · obtain ⟨i', hi', hle⟩ := hdy hlt k hkl
    rw [hk] at hi'
    cases Option.some.inj hi'
    exact ⟨hle, by simp only []; omega⟩
  · obtain ⟨j', hj', hle⟩ := hdx hge k hkl
    rw [hk] at hj'
    cases Option.some.inj hj'
    exact ⟨by simp only []; omega, hle⟩

/-- A run of the counter loop starts with its current counters. -/
theorem bres_loop_head (a b : Int) (fuel i j : Nat) (e : Int) (pts : List (Nat × Nat))
    (h : bres_loop a b fuel i j e = some pts) : (i, j) ∈ pts := by
  cases fuel with
  | zero => cases h
  | succ fuel =>
    unfold bres_loop at h
    by_cases hf : (i : Int) = a ∧ (j : Int) = b
    · rw [if_pos hf] at h
      cases Option.some.inj h
      exact List.mem_singleton.mpr rfl
    · rw [if_neg hf] at h
      obtain ⟨pts', -, rfl⟩ := Option.map_eq_some'.mp h
      exact List.mem_cons_self _ _

theorem line_loop_writes_eq_points (x1 y1 dx sx dy sy : Int) (c : Bool) (fuel : Nat) :
    ∀ (x0 y0 err : Int),
      line_loop_writes x1 y1 dx sx dy sy c fuel x0 y0 err =
        (line_loop_points x1 y1 dx sx dy sy fuel x0 y0 err).map
          (List.map (fun p => (to_u8 p.1, to_u8 p.2, c))) := by
  induction fuel with
  | zero => intro x0 y0 err; rfl
  | succ fuel ih =>
    intro x0 y0 err
    unfold line_loop_writes line_loop_points
    by_cases hend : x0 = x1 ∧ y0 = y1
    · rw [if_pos hend, if_pos hend]; rfl
    · rw [if_neg hend, if_neg hend, ih, Option.map_map, Option.map_map]
      rfl

/-- The writes of `ssd1306_draw_line` are its loop states, each coordinate
converted to `uint8_t`. -/
theorem line_writes_eq_points (x0 y0 x1 y1 : Int) (c : Bool) :
    line_writes x0 y0 x1 y1 c =
      (line_points x0 y0 x1 y1).map (List.map (fun p => (to_u8 p.1, to_u8 p.2, c))) :=
  line_loop_writes_eq_points _ _ _ _ _ _ _ _ _ _ _

/-- As long as the two distances are at most `2^29` and the end points are
32-bit values, no `int` of the line loop overflows: started at `(X, Y)` the loop
visits the points of the counter loop. -/
theorem line_loop_points_eq_bres (X Y sx sy : Int) (hsx : sx = 1 ∨ sx = -1)
    (hsy : sy = 1 ∨ sy = -1) (a b : Nat) (ha : a ≤ 536870912) (hb : b ≤ 536870912)
    (hX : -2147483648 ≤ X ∧ X ≤ 2147483647)
    (hX1 : -2147483648 ≤ X + sx * a ∧ X + sx * a ≤ 2147483647)
    (hY : -2147483648 ≤ Y ∧ Y ≤ 2147483647)
    (hY1 : -2147483648 ≤ Y + sy * b ∧ Y + sy * b ≤ 2147483647) (fuel : Nat) :
    ∀ (i j : Nat) (e : Int) (pts : List (Nat × Nat)),
      bres_loop a b fuel i j e = some pts → (∀ ij ∈ pts, ij.1 ≤ a ∧ ij.2 ≤ b) →
      -3 * (b : Int) ≤ 2 * e → 2 * e ≤ 3 * (a : Int) →
      line_loop_points (X + sx * a) (Y + sy * b) a sx (-(b : Int)) sy fuel
          (X + sx * i) (Y + sy * j) e =
        some (pts.map (fun ij => (X + sx * (ij.1 : Int), Y + sy * (ij.2 : Int)))) := by
  induction fuel with
  | zero => intro i j e pts h; cases h
  | succ fuel ih =>
    intro i j e pts h hle hlo hhi
    unfold bres_loop at h
    unfold line_loop_points
    have hfin : (X + sx * i = X + sx * a ∧ Y + sy * j = Y + sy * b) ↔
        ((i : Int) = a ∧ (j : Int) = b) := by
      rcases hsx with rfl | rfl <;> rcases hsy with rfl | rfl <;> constructor <;>
        rintro ⟨h1, h2⟩ <;> constructor <;> omega
    by_cases hf : (i : Int) = a ∧ (j : Int) = b
    · rw [if_pos hf] at h
      rw [if_pos (hfin.mpr hf)]
      cases Option.some.inj h
      rfl
    · rw [if_neg hf] at h
      rw [if_neg (fun hc => hf (hfin.mp hc))]
      obtain ⟨pts', hp', rfl⟩ := Option.map_eq_some'.mp h
      have hhead := bres_loop_head _ _ _ _ _ _ _ hp'
      obtain ⟨hi', hj'⟩ := hle _ (List.mem_cons_of_mem _ hhead)
      simp only [] at hi' hj'
      have hw2 : wrap_int (2 * e) = 2 * e := wrap_int_eq _ (by omega) (by omega)
      have hx : (line_step a sx (-(b : Int)) sy (X + sx * i) (Y + sy * j) e).1 =
          X + sx * ((if 2 * e ≥ -(b : Int) then i + 1 else i : Nat) : Int) := by
        unfold line_step
        simp only [hw2]
        split_ifs with hc
        · rw [if_pos hc] at hi'
          rw [wrap_int_eq _ (by rcases hsx with rfl | rfl <;> omega)
            (by rcases hsx with rfl | rfl <;> omega)]
          push_cast
          ring
        · rfl
      have hy : (line_step a sx (-(b : Int)) sy (X + sx * i) (Y + sy * j) e).2.1 =
          Y + sy * ((if 2 * e ≤ (a : Int) then j + 1 else j : Nat) : Int) := by
        unfold line_step
        simp only [hw2]
        split_ifs with hc
        · rw [if_pos hc] at hj'
          rw [wrap_int_eq _ (by rcases hsy with rfl | rfl <;> omega)
            (by rcases hsy with rfl | rfl <;> omega)]
          push_cast
          ring
        · rfl
      have he : (line_step a sx (-(b : Int)) sy (X + sx * i) (Y + sy * j) e).2.2 =
          (if 2 * e ≤ (a : Int) then (if 2 * e ≥ -(b : Int) then e + -(b : Int) else e) + a
            else (if 2 * e ≥ -(b : Int) then e + -(b : Int) else e)) := by
        unfold line_step
        simp only [hw2]
        split_ifs <;>
          simp only [wrap_int_eq (e + -(b : Int)) (by omega) (by omega),
            wrap_int_eq (e + -(b : Int) + a) (by omega) (by omega),
            wrap_int_eq (e + (a : Int)) (by omega) (by omega)]
      rw [hx, hy, he, ih _ _ _ pts' hp' (fun ij hij => hle ij (List.mem_cons_of_mem _ hij))
        (by split_ifs <;> omega) (by split_ifs <;> omega)]
      rfl

theorem line_dx_eq (x0 x1 : Int) (h : (x1 - x0).natAbs ≤ 536870912) :
    line_dx x0 x1 = ((x1 - x0).natAbs : Int) := by
  unfold line_dx c_abs
  rw [wrap_int_eq (x1 - x0) (by omega) (by omega)]
  split_ifs
  · rw [wrap_int_eq _ (by omega) (by omega)]
    omega
  · omega

theorem line_dy_eq (y0 y1 : Int) (h : (y1 - y0).natAbs ≤ 536870912) :
    line_dy y0 y1 = -((y1 - y0).natAbs : Int) := by
  unfold line_dy c_abs
  rw [wrap_int_eq (y1 - y0) (by omega) (by omega)]
  split_ifs
  · rw [wrap_int_eq (-(y1 - y0)) (by omega) (by omega), wrap_int_eq _ (by omega) (by omega)]
    omega
  · rw [wrap_int_eq _ (by omega) (by omega)]
    omega

/-- For 32-bit end points at most `2^29` apart along each axis, the loop states
of `ssd1306_draw_line` are the points of the counter loop, moved to the start
point. -/
theorem line_points_eq_bres (x0 y0 x1 y1 : Int)
    (hx0 : -2147483648 ≤ x0 ∧ x0 ≤ 2147483647) (hy0 : -2147483648 ≤ y0 ∧ y0 ≤ 2147483647)
    (hx1 : -2147483648 ≤ x1 ∧ x1 ≤ 2147483647) (hy1 : -2147483648 ≤ y1 ∧ y1 ≤ 2147483647)
    (hdx : (x1 - x0).natAbs ≤ 536870912) (hdy : (y1 - y0).natAbs ≤ 536870912) :
    line_points x0 y0 x1 y1 =
      (bres_loop (x1 - x0).natAbs (y1 - y0).natAbs
          ((x1 - x0).natAbs + (y1 - y0).natAbs + 1) 0 0
          (((x1 - x0).natAbs : Int) - (y1 - y0).natAbs)).map
        (List.map (fun ij =>
          (x0 + (if x0 < x1 then 1 else -1) * (ij.1 : Int),
            y0 + (if y0 < y1 then 1 else -1) * (ij.2 : Int)))) := by
  have hsx : (if x0 < x1 then (1 : Int) else -1) = 1 ∨ (if x0 < x1 then (1 : Int) else -1) = -1 := by
    split_ifs
    · exact Or.inl rfl
    · exact Or.inr rfl
  have hsy : (if y0 < y1 then (1 : Int) else -1) = 1 ∨ (if y0 < y1 then (1 : Int) else -1) = -1 := by
    split_ifs
    · exact Or.inl rfl
    · exact Or.inr rfl
  have hax : |x1 - x0| = ((x1 - x0).natAbs : Int) := (Int.natCast_natAbs _).symm
  have hay : |y1 - y0| = ((y1 - y0).natAbs : Int) := (Int.natCast_natAbs _).symm
  have hx1' : x1 = x0 + (if x0 < x1 then 1 else -1) * ((x1 - x0).natAbs : Int) := by
    split_ifs <;> omega
  have hy1' : y1 = y0 + (if y0 < y1 then 1 else -1) * ((y1 - y0).natAbs : Int) := by
    split_ifs <;> omega
  obtain ⟨pts, hp, -⟩ := bres_loop_result (x1 - x0).natAbs (y1 - y0).natAbs
  have hle := bres_points_le _ _ pts hp
  have key := line_loop_points_eq_bres x0 y0 _ _ hsx hsy (x1 - x0).natAbs (y1 - y0).natAbs
    hdx hdy hx0 (by rw [← hx1']; exact hx1) hy0 (by rw [← hy1']; exact hy1)
    ((x1 - x0).natAbs + (y1 - y0).natAbs + 1) 0 0 (((x1 - x0).natAbs : Int) - (y1 - y0).natAbs)
    pts hp hle (by omega) (by omega)
  rw [← hx1', ← hy1'] at key
  simp only [Nat.cast_zero, mul_zero, add_zero] at key
  unfold line_points
  rw [line_dx_eq x0 x1 hdx, line_dy_eq y0 y1 hdy, hax, hay,
    wrap_int_eq _ (by omega) (by omega)]
  have hfuel : (((x1 - x0).natAbs : Int) + ((y1 - y0).natAbs : Int)).toNat + 1 =
      (x1 - x0).natAbs + (y1 - y0).natAbs + 1 := by omega
  have herr : ((x1 - x0).natAbs : Int) + -((y1 - y0).natAbs : Int) =
      ((x1 - x0).natAbs : Int) - (y1 - y0).natAbs := by ring
  rw [hfuel, herr, hp]
  exact key

/-- For 32-bit end points at most `2^29` apart along each axis, the writes of
`ssd1306_draw_line` are the points of the counter loop, moved to the start
point and converted to `uint8_t` coordinates. -/
theorem line_writes_eq_bres (x0 y0 x1 y1 : Int) (c : Bool)
    (hx0 : -2147483648 ≤ x0 ∧ x0 ≤ 2147483647) (hy0 : -2147483648 ≤ y0 ∧ y0 ≤ 2147483647)
    (hx1 : -2147483648 ≤ x1 ∧ x1 ≤ 2147483647) (hy1 : -2147483648 ≤ y1 ∧ y1 ≤ 2147483647)
    (hdx : (x1 - x0).natAbs ≤ 536870912) (hdy : (y1 - y0).natAbs ≤ 536870912) :
    line_writes x0 y0 x1 y1 c =
      (bres_loop (x1 - x0).natAbs (y1 - y0).natAbs
          ((x1 - x0).natAbs + (y1 - y0).natAbs + 1) 0 0
          (((x1 - x0).natAbs : Int) - (y1 - y0).natAbs)).map
        (List.map (fun ij =>
          (to_u8 (x0 + (if x0 < x1 then 1 else -1) * (ij.1 : Int)),
            to_u8 (y0 + (if y0 < y1 then 1 else -1) * (ij.2 : Int)), c))) := by
  rw [line_writes_eq_points, line_points_eq_bres x0 y0 x1 y1 hx0 hy0 hx1 hy1 hdx hdy,
    Option.map_map]
  congr 1
  funext pts
  simp only [Function.comp, List.map_map]
  rfl

theorem step_sign_cases (x0 x1 : Int) :
    ((if x0 < x1 then (1 : Int) else -1) = 1 ∧ x1 = x0 + ((x1 - x0).natAbs : Int)) ∨
    ((if x0 < x1 then (1 : Int) else -1) = -1 ∧ x1 = x0 - ((x1 - x0).natAbs : Int)) := by
  split_ifs
  · left; exact ⟨rfl, by omega⟩
  · right; exact ⟨rfl, by omega⟩

theorem on_segment (lim x0 x1 s : Int) (a i : Nat) (h0 : 0 ≤ x0) (h0' : x0 < lim)
    (h1 : 0 ≤ x1) (h1' : x1 < lim)
    (hs : (s = 1 ∧ x1 = x0 + (a : Int)) ∨ (s = -1 ∧ x1 = x0 - (a : Int))) (hi : i ≤ a) :
    0 ≤ x0 + s * (i : Int) ∧ x0 + s * (i : Int) < lim := by
  rcases hs with ⟨rfl, h⟩ | ⟨rfl, h⟩ <;> constructor <;> omega

/-- The writes of `ssd1306_draw_line` between two on-screen end points. -/
theorem line_writes_on_screen (x0 y0 x1 y1 : Int) (c : Bool)
    (hx0 : 0 ≤ x0 ∧ x0 < 128) (hy0 : 0 ≤ y0 ∧ y0 < 64)
    (hx1 : 0 ≤ x1 ∧ x1 < 128) (hy1 : 0 ≤ y1 ∧ y1 < 64) :
    ∃ ws, line_writes x0 y0 x1 y1 c = some ws ∧
      ws.length = max (x1 - x0).natAbs (y1 - y0).natAbs + 1 ∧
      ws.head? = some (x0.toNat, y0.toNat, c) ∧
      ws.getLast? = some (x1.toNat, y1.toNat, c) ∧
      ∀ k, k < ws.length → ∃ p q, ws[k]? = some (p, q, c) ∧ p < 128 ∧ q < 64 ∧
        ((y1 - y0).natAbs ≤ (x1 - x0).natAbs →
          (p : Int) = x0 + (if x0 < x1 then 1 else -1) * (k : Int)) ∧
        ((x1 - x0).natAbs < (y1 - y0).natAbs →
          (q : Int) = y0 + (if y0 < y1 then 1 else -1) * (k : Int)) := by
  obtain ⟨pts, hp, hlen, hhead, hlast, hkx, hky⟩ :=
    bres_loop_result (x1 - x0).natAbs (y1 - y0).natAbs
  have hsx := step_sign_cases x0 x1
  have hsy := step_sign_cases y0 y1
  rw [line_writes_eq_bres x0 y0 x1 y1 c (by omega) (by omega) (by omega) (by omega)
    (by omega) (by omega), hp]
  generalize (if x0 < x1 then (1 : Int) else -1) = sx at hsx ⊢
  generalize (if y0 < y1 then (1 : Int) else -1) = sy at hsy ⊢
  generalize (x1 - x0).natAbs = a at *
  generalize (y1 - y0).natAbs = b at *
  have hpt : ∀ i j : Nat, i ≤ a → j ≤ b →
      ((to_u8 (x0 + sx * (i : Int)) : Nat) : Int) = x0 + sx * (i : Int) ∧
      ((to_u8 (y0 + sy * (j : Int)) : Nat) : Int) = y0 + sy * (j : Int) ∧
      to_u8 (x0 + sx * (i : Int)) < 128 ∧ to_u8 (y0 + sy * (j : Int)) < 64 := by
    intro i j hi hj
    have bx := on_segment 128 x0 x1 sx a i hx0.1 hx0.2 hx1.1 hx1.2 hsx hi
    have by' := on_segment 64 y0 y1 sy b j hy0.1 hy0.2 hy1.1 hy1.2 hsy hj
    have ex := to_u8_cast _ bx.1 (by omega)
    have ey := to_u8_cast _ by'.1 (by omega)
    exact ⟨ex, ey, by omega, by omega⟩
  refine ⟨_, rfl, ?_, ?_, ?_, ?_⟩
  · rw [List.length_map, hlen]
  · rw [List.head?_map, hhead]
    simp only [Option.map_some', Nat.cast_zero, mul_zero, add_zero]
    rw [to_u8_toNat x0 hx0.1 (by omega), to_u8_toNat y0 hy0.1 (by omega)]
  · rw [List.getLast?_map, hlast]
    simp only [Option.map_some']
    have h := hpt a b (le_refl _) (le_refl _)
    have e1 : to_u8 (x0 + sx * (a : Int)) = x1.toNat := by
      rcases hsx with ⟨rfl, h'⟩ | ⟨rfl, h'⟩ <;> omega
    have e2 : to_u8 (y0 + sy * (b : Int)) = y1.toNat := by
      rcases hsy with ⟨rfl, h'⟩ | ⟨rfl, h'⟩ <;> omega
    rw [e1, e2]
  · intro k hk
    rw [List.length_map, hlen] at hk
    rcases Nat.lt_or_ge a b with hlt | hge
    · obtain ⟨i', hi', hia⟩ := hky hlt k (by rw [hlen]; exact hk)
      have h := hpt i' k hia (by omega)
      refine ⟨_, _, by rw [List.getElem?_map, hi']; rfl, h.2.2.1, h.2.2.2, ?_, ?_⟩
      · intro hcon; omega
      · intro _; exact h.2.1
    · obtain ⟨j', hj', hjb⟩ := hkx hge k (by rw [hlen]; exact hk)
      have h := hpt k j' (by omega) hjb
      refine ⟨_, _, by rw [List.getElem?_map, hj']; rfl, h.2.2.1, h.2.2.2, ?_, ?_⟩
      · intro _; exact h.1
      · intro hcon; omega

/-- C15: for end points inside the 128x64 display, `ssd1306_draw_line` returns
and its `ssd1306_draw_pixel` calls address `max(|x1-x0|, |y1-y0|) + 1` pairwise
distinct on-screen pixels, the k-th of them `k` unit steps from the start along
the dominant axis, the first being `(x0, y0)` and the last `(x1, y1)`; these
pixels get the colour and all other pixels are unchanged; when the end points
coincide the single pixel `(x0, y0)` is written. -/
theorem draw_line_plots_dominant_axis_steps (fb : Framebuffer) (hwf : fb.WF)
    (x0 y0 x1 y1 : Int) (c : Bool)
    (hx0 : 0 ≤ x0 ∧ x0 < 128) (hy0 : 0 ≤ y0 ∧ y0 < 64)
    (hx1 : 0 ≤ x1 ∧ x1 < 128) (hy1 : 0 ≤ y1 ∧ y1 < 64) :
    ∃ ws fb', line_writes x0 y0 x1 y1 c = some ws ∧
      ssd1306_draw_line x0 y0 x1 y1 c fb = some fb' ∧
      ws.length = max (x1 - x0).natAbs (y1 - y0).natAbs + 1 ∧
      (ws.map (fun w => (w.1, w.2.1))).Nodup ∧
      (∀ w ∈ ws, w.1 < 128 ∧ w.2.1 < 64 ∧ w.2.2 = c) ∧
      ws.head? = some (x0.toNat, y0.toNat, c) ∧
      ws.getLast? = some (x1.toNat, y1.toNat, c) ∧
      (∀ k, k < ws.length → ∃ p q, ws[k]? = some (p, q, c) ∧
        ((y1 - y0).natAbs ≤ (x1 - x0).natAbs →
          (p : Int) = x0 + (if x0 < x1 then 1 else -1) * (k : Int)) ∧
        ((x1 - x0).natAbs < (y1 - y0).natAbs →
          (q : Int) = y0 + (if y0 < y1 then 1 else -1) * (k : Int))) ∧
      (∀ p q, p < 128 → q < 64 →
        get_pixel fb' p q = if (p, q, c) ∈ ws then c else get_pixel fb p q) ∧
      (x0 = x1 → y0 = y1 → ws = [(x0.toNat, y0.toNat, c)]) := by
  obtain ⟨ws, hws, hlen, hhead, hlast, hk⟩ :=
    line_writes_on_screen x0 y0 x1 y1 c hx0 hy0 hx1 hy1
  have hmem : ∀ w ∈ ws, w.1 < 128 ∧ w.2.1 < 64 ∧ w.2.2 = c := by
    intro w hw
    obtain ⟨k, hkl, hget⟩ := List.getElem_of_mem hw
    obtain ⟨p, q, hpq, hp, hq, -, -⟩ := hk k hkl
    rw [List.getElem?_eq_getElem hkl, hget, Option.some.injEq] at hpq
    rw [hpq]
    exact ⟨hp, hq, rfl⟩
  refine ⟨ws, apply_writes ws fb, hws, ?_, hlen, ?_, hmem, hhead, hlast, ?_, ?_, ?_⟩
  · rw [draw_line_eq_writes, hws]; rfl
  · rw [List.nodup_iff_getElem?_ne_getElem?]
    intro i j hij hj
    rw [List.length_map] at hj
    obtain ⟨p1, q1, e1, -, -, hx1', hy1'⟩ := hk i (by omega)
    obtain ⟨p2, q2, e2, -, -, hx2', hy2'⟩ := hk j hj
    rw [List.getElem?_map, List.getElem?_map, e1, e2]
    simp only [Option.map_some', ne_eq, Option.some.injEq, Prod.mk.injEq, not_and]
    intro hp hq
    rcases Nat.lt_or_ge (x1 - x0).natAbs (y1 - y0).natAbs with hlt | hge
    · have h1 := hy1' hlt
      have h2 := hy2' hlt
      split_ifs at h1 h2 <;> omega
    · have h1 := hx1' hge
      have h2 := hx2' hge
      split_ifs at h1 h2 <;> omega
  · intro k hkl
    obtain ⟨p, q, hpq, -, -, h1, h2⟩ := hk k hkl
    exact ⟨p, q, hpq, h1, h2⟩
  · intro p q hp hq
    exact get_pixel_apply_writes_uniform ws c (fun w hw => (hmem w hw).2.2) fb hwf p q hp hq
  · intro ex ey
    subst ex ey
    have hl1 : ws.length = 1 := by rw [hlen]; simp
    cases ws with
    | nil => simp at hl1
    | cons w t =>
      cases t with
      | nil =>
        simp only [List.head?_cons, Option.some.injEq] at hhead
        rw [hhead]
      | cons w2 t2 => simp at hl1

theorem draw_line_plots_dominant_axis_steps_witness :
    ∃ ws fb', line_writes 2 3 9 5 true = some ws ∧
      ssd1306_draw_line 2 3 9 5 true (ssd1306_clear []) = some fb' ∧
      ws.length = max ((9 : Int) - 2).natAbs ((5 : Int) - 3).natAbs + 1 ∧
      (ws.map (fun w => (w.1, w.2.1))).Nodup ∧
      (∀ w ∈ ws, w.1 < 128 ∧ w.2.1 < 64 ∧ w.2.2 = true) ∧
      ws.head? = some ((2 : Int).toNat, (3 : Int).toNat, true) ∧
      ws.getLast? = some ((9 : Int).toNat, (5 : Int).toNat, true) ∧
      (∀ k, k < ws.length → ∃ p q, ws[k]? = some (p, q, true) ∧
        (((5 : Int) - 3).natAbs ≤ ((9 : Int) - 2).natAbs →
          (p : Int) = 2 + (if (2 : Int) < 9 then 1 else -1) * (k : Int)) ∧
        (((9 : Int) - 2).natAbs < ((5 : Int) - 3).natAbs →
          (q : Int) = 3 + (if (3 : Int) < 5 then 1 else -1) * (k : Int))) ∧
      (∀ p q, p < 128 → q < 64 →
        get_pixel fb' p q = if (p, q, true) ∈ ws then true
          else get_pixel (ssd1306_clear []) p q) ∧
      ((2 : Int) = 9 → (3 : Int) = 5 → ws = [((2 : Int).toNat, (3 : Int).toNat, true)]) :=
  draw_line_plots_dominant_axis_steps (ssd1306_clear []) (wf_clear []) 2 3 9 5 true
    (by decide) (by decide) (by decide) (by decide)

/-! ## Termination and frame of the line loop (section 4.2) -/

/-- For 32-bit end points at most `2^29` apart along each axis the loop of
`ssd1306_draw_line` reaches its `break`: its states run from the start point to
the end point, inside the bounding box of the two, in
`max(|x1 - x0|, |y1 - y0|) + 1` rounds. -/
theorem line_points_spec (x0 y0 x1 y1 : Int)
    (hx0 : -2147483648 ≤ x0 ∧ x0 ≤ 2147483647) (hy0 : -2147483648 ≤ y0 ∧ y0 ≤ 2147483647)
    (hx1 : -2147483648 ≤ x1 ∧ x1 ≤ 2147483647) (hy1 : -2147483648 ≤ y1 ∧ y1 ≤ 2147483647)
    (hdx : (x1 - x0).natAbs ≤ 536870912) (hdy : (y1 - y0).natAbs ≤ 536870912) :
    ∃ pts, line_points x0 y0 x1 y1 = some pts ∧
      pts.length = max (x1 - x0).natAbs (y1 - y0).natAbs + 1 ∧
      pts.head? = some (x0, y0) ∧ pts.getLast? = some (x1, y1) ∧
      ∀ p ∈ pts, min x0 x1 ≤ p.1 ∧ p.1 ≤ max x0 x1 ∧ min y0 y1 ≤ p.2 ∧ p.2 ≤ max y0 y1 := by
  obtain ⟨bpts, hb, hlen, hhead, hlast, -, -⟩ :=
    bres_loop_result (x1 - x0).natAbs (y1 - y0).natAbs
  have hle := bres_points_le _ _ bpts hb
  have hp := line_points_eq_bres x0 y0 x1 y1 hx0 hy0 hx1 hy1 hdx hdy
  rw [hb] at hp
  refine ⟨_, hp, ?_, ?_, ?_, ?_⟩
  · rw [List.length_map, hlen]
  · rw [List.head?_map, hhead]
    simp
  · rw [List.getLast?_map, hlast]
    simp only [Option.map_some']
    congr 1
    ext
    · simp only []; split_ifs <;> omega
    · simp only []; split_ifs <;> omega
  · intro p hpm
    obtain ⟨ij, hij, rfl⟩ := List.mem_map.mp hpm
    obtain ⟨h1, h2⟩ := hle ij hij
    simp only [min_def, max_def]
    refine ⟨?_, ?_, ?_, ?_⟩ <;> split_ifs <;> omega

/-- A run of the line loop that returns starts with the states of its first
`n` rounds, for every `n`. -/
theorem line_loop_points_take (x1 y1 dx sx dy sy : Int) (fuel : Nat) :
    ∀ (x0 y0 err : Int) (pts : List (Int × Int)),
      line_loop_points x1 y1 dx sx dy sy fuel x0 y0 err = some pts →
      ∀ n, line_loop_prefix x1 y1 dx sx dy sy n x0 y0 err = pts.take n := by
  induction fuel with
  | zero => intro x0 y0 err pts h; cases h
  | succ fuel ih =>
    intro x0 y0 err pts h n
    unfold line_loop_points at h
    cases n with
    | zero => rfl
    | succ n =>
      unfold line_loop_prefix
      by_cases hend : x0 = x1 ∧ y0 = y1
      · rw [if_pos hend] at h
        rw [if_pos hend]
        cases Option.some.inj h
        rw [List.take_succ_cons, List.take_nil]
      · rw [if_neg hend] at h
        rw [if_neg hend]
        obtain ⟨pts', hp', rfl⟩ := Option.map_eq_some'.mp h
        rw [List.take_succ_cons, ih _ _ _ pts' hp' n]

theorem line_prefix_overflow :
    line_prefix 4 0 0 2000000000 0 = [(0, 0), (0, -1), (0, -2), (0, -3)] := by
  decide

/-- Claim C25 fails for distant end points.  In
`ssd1306_draw_line(0, 0, 2000000000, 0, color)` the error term starts at
`err = 2000000000`, so `e2 = 2 * err` overflows the 32-bit `int` to
`-294967296`: `x0` does not move, `y0` steps to `-1`, below both end points, and
the following rounds move further away (`-2`, `-3`); the loop of the routine
goes on from the state `x0 = 0`, `y0 = -1`, `err = -294967296`.  Whenever the
call does return, its loop has passed through these states. -/
theorem draw_line_steps_past_end_point_on_overflow :
    line_step (line_dx 0 2000000000) 1 (line_dy 0 0) (-1) 0 0
        (wrap_int (line_dx 0 2000000000 + line_dy 0 0)) = (0, -1, -294967296) ∧
    line_prefix 4 0 0 2000000000 0 = [(0, 0), (0, -1), (0, -2), (0, -3)] ∧
    ¬ (min (0 : Int) 0 ≤ -1) ∧
    (∀ (fuel : Nat) (c : Bool) (fb : Framebuffer),
      draw_line_loop 2000000000 0 (line_dx 0 2000000000) 1 (line_dy 0 0) (-1) c (fuel + 1) 0 0
          (wrap_int (line_dx 0 2000000000 + line_dy 0 0)) fb =
        draw_line_loop 2000000000 0 (line_dx 0 2000000000) 1 (line_dy 0 0) (-1) c fuel 0 (-1)
          (-294967296) (ssd1306_draw_pixel (to_u8 0) (to_u8 0) c fb)) ∧
    (∀ pts, line_points 0 0 2000000000 0 = some pts →
      pts.take 4 = [(0, 0), (0, -1), (0, -2), (0, -3)]) := by
  have hstep : line_step (line_dx 0 2000000000) 1 (line_dy 0 0) (-1) 0 0
      (wrap_int (line_dx 0 2000000000 + line_dy 0 0)) = (0, -1, -294967296) := by decide
  refine ⟨hstep, line_prefix_overflow, by decide, ?_, ?_⟩
  · intro fuel c fb
    rw [draw_line_loop, if_neg (by decide), hstep]
  · intro pts hp
    rw [← line_loop_points_take _ _ _ _ _ _ _ _ _ _ pts hp 4]
    exact line_prefix_overflow

/-- C25, for 32-bit end points at most `2^29 = 536870912` apart along each
axis (all 8 octants and the zero-length case): the loop of `ssd1306_draw_line`
terminates.  With the fuel of the model the routine returns a framebuffer, the
successive loop states `(x0, y0)` start at the first end point, end at
`(x1, y1)` (the state in which the loop breaks) after
`max(|x1 - x0|, |y1 - y0|) + 1` rounds, and no state leaves the bounding box
of the two end points, so the loop never steps past the end point. -/
theorem draw_line_terminates_at_end_point (x0 y0 x1 y1 : Int) (c : Bool) (fb : Framebuffer)
    (hx0 : INT_MIN ≤ x0 ∧ x0 ≤ INT_MAX) (hy0 : INT_MIN ≤ y0 ∧ y0 ≤ INT_MAX)
    (hx1 : INT_MIN ≤ x1 ∧ x1 ≤ INT_MAX) (hy1 : INT_MIN ≤ y1 ∧ y1 ≤ INT_MAX)
    (hdx : |x1 - x0| ≤ 536870912) (hdy : |y1 - y0| ≤ 536870912) :
    ∃ pts, line_points x0 y0 x1 y1 = some pts ∧
      ssd1306_draw_line x0 y0 x1 y1 c fb =
        some (apply_writes (pts.map (fun p => (to_u8 p.1, to_u8 p.2, c))) fb) ∧
      pts.length = max (x1 - x0).natAbs (y1 - y0).natAbs + 1 ∧
      pts.head? = some (x0, y0) ∧ pts.getLast? = some (x1, y1) ∧
      ∀ p ∈ pts, min x0 x1 ≤ p.1 ∧ p.1 ≤ max x0 x1 ∧ min y0 y1 ≤ p.2 ∧ p.2 ≤ max y0 y1 := by
  simp only [INT_MIN, INT_MAX] at hx0 hy0 hx1 hy1
  rw [← Int.natCast_natAbs] at hdx hdy
  obtain ⟨pts, hp, hlen, hhead, hlast, hbox⟩ := line_points_spec x0 y0 x1 y1 hx0 hy0 hx1 hy1
    (by omega) (by omega)
  refine ⟨pts, hp, ?_, hlen, hhead, hlast, hbox⟩
  rw [draw_line_eq_writes, line_writes_eq_points, hp]
  rfl

theorem draw_line_terminates_at_end_point_witness :
    ∃ pts, line_points (-3) 70 200 (-5) = some pts ∧
      ssd1306_draw_line (-3) 70 200 (-5) true (ssd1306_clear []) =
        some (apply_writes (pts.map (fun p => (to_u8 p.1, to_u8 p.2, true))) (ssd1306_clear [])) ∧
      pts.length = max ((200 : Int) - (-3)).natAbs ((-5 : Int) - 70).natAbs + 1 ∧
      pts.head? = some (-3, 70) ∧ pts.getLast? = some (200, -5) ∧
      ∀ p ∈ pts, min (-3) 200 ≤ p.1 ∧ p.1 ≤ max (-3) 200 ∧ min 70 (-5) ≤ p.2 ∧
        p.2 ≤ max 70 (-5) :=
  draw_line_terminates_at_end_point (-3) 70 200 (-5) true (ssd1306_clear [])
    (by decide) (by decide) (by decide) (by decide) (by decide) (by decide)

/-- A coordinate in `-128 .. 255` that the conversion to `uint8_t` maps to a
column or row below 128 is that column or row. -/
theorem to_u8_on_screen (v : Int) (p : Nat) (h0 : -128 ≤ v) (h1 : v < 256) (hp : p < 128)
    (h : to_u8 v = p) : v = p := by
  unfold to_u8 at h
  omega

/-- With all four end-point coordinates in `-128 .. 255`, `ssd1306_draw_line`
changes only pixels inside the bounding box of the end points. -/
theorem draw_line_changes_in_box (x0 y0 x1 y1 : Int) (c : Bool) (fb : Framebuffer)
    (hwf : fb.WF) (hx0 : -128 ≤ x0 ∧ x0 < 256) (hy0 : -128 ≤ y0 ∧ y0 < 256)
    (hx1 : -128 ≤ x1 ∧ x1 < 256) (hy1 : -128 ≤ y1 ∧ y1 < 256) :
    ∃ fb', ssd1306_draw_line x0 y0 x1 y1 c fb = some fb' ∧
      ∀ p q : Nat, p < 128 → q < 64 → get_pixel fb' p q ≠ get_pixel fb p q →
        min x0 x1 ≤ (p : Int) ∧ (p : Int) ≤ max x0 x1 ∧
        min y0 y1 ≤ (q : Int) ∧ (q : Int) ≤ max y0 y1 := by
  obtain ⟨pts, hp, -, -, -, hbox⟩ := line_points_spec x0 y0 x1 y1 (by omega) (by omega)
    (by omega) (by omega) (by omega) (by omega)
  refine ⟨apply_writes (pts.map (fun p => (to_u8 p.1, to_u8 p.2, c))) fb, ?_, ?_⟩
  · rw [draw_line_eq_writes, line_writes_eq_points, hp]
    rfl
  · intro p q hpl hql hne
    rw [get_pixel_apply_writes _ fb hwf p q hpl hql] at hne
    cases hlw : last_write (pts.map (fun p => (to_u8 p.1, to_u8 p.2, c))) p q with
    | none =>
      rw [hlw] at hne
      exact absurd rfl hne
    | some v =>
      have hmem := last_write_eq_some _ p q v hlw
      obtain ⟨pt, hpt, heq⟩ := List.mem_map.mp hmem
      obtain ⟨b1, b2, b3, b4⟩ := hbox pt hpt
      have e1 : to_u8 pt.1 = p := congrArg Prod.fst heq
      have e2 : to_u8 pt.2 = q := congrArg (fun w => w.2.1) heq
      have hX : pt.1 = (p : Int) :=
        to_u8_on_screen pt.1 p (le_trans (le_min hx0.1 hx1.1) b1)
          (lt_of_le_of_lt b2 (max_lt hx0.2 hx1.2)) hpl e1
      have hY : pt.2 = (q : Int) :=
        to_u8_on_screen pt.2 q (le_trans (le_min hy0.1 hy1.1) b3)
          (lt_of_le_of_lt b4 (max_lt hy0.2 hy1.2)) (by omega) e2
      rw [← hX, ← hY]
      exact ⟨b1, b2, b3, b4⟩

theorem line_writes_far_point : line_writes 300 5 300 5 true = some [(44, 5, true)] := by
  decide

theorem line_writes_past_column_255 :
    line_writes 250 10 260 10 true =
      some [(250, 10, true), (251, 10, true), (252, 10, true), (253, 10, true),
        (254, 10, true), (255, 10, true), (0, 10, true), (1, 10, true), (2, 10, true),
        (3, 10, true), (4, 10, true)] := by
  decide

/-- Claim C24 fails on the code.  The parameters of `ssd1306_draw_pixel` are
`uint8_t`, so `ssd1306_draw_line` hands over every path coordinate modulo 256
and the bounds guard sees the converted value.  `ssd1306_draw_line(300, 5, 300,
5, ON)` on a cleared framebuffer is the single call `ssd1306_draw_pixel(44, 5,
ON)`: pixel `(44, 5)` changes although `44 < min(300, 300)`; along
`ssd1306_draw_line(250, 10, 260, 10, ON)` the path points with `x = 256 .. 260`
turn on the pixels `(0, 10) .. (4, 10)`, left of `min(250, 260)`.  With all
end-point coordinates in `-128 .. 255` every changed pixel does lie in the
bounding box of the end points. -/
theorem draw_line_wraps_far_coordinates (fb : Framebuffer) :
    ssd1306_draw_line 300 5 300 5 true (ssd1306_clear fb) =
      some (ssd1306_draw_pixel 44 5 true (ssd1306_clear fb)) ∧
    get_pixel (ssd1306_clear fb) 44 5 = false ∧
    get_pixel (ssd1306_draw_pixel 44 5 true (ssd1306_clear fb)) 44 5 = true ∧
    ¬ (min (300 : Int) 300 ≤ ((44 : Nat) : Int)) ∧
    (∃ fb', ssd1306_draw_line 250 10 260 10 true (ssd1306_clear fb) = some fb' ∧
      get_pixel (ssd1306_clear fb) 2 10 = false ∧ get_pixel fb' 2 10 = true ∧
      ¬ (min (250 : Int) 260 ≤ ((2 : Nat) : Int))) ∧
    (∀ (x0 y0 x1 y1 : Int) (c : Bool) (b : Framebuffer), b.WF →
      (-128 ≤ x0 ∧ x0 < 256) → (-128 ≤ y0 ∧ y0 < 256) →
      (-128 ≤ x1 ∧ x1 < 256) → (-128 ≤ y1 ∧ y1 < 256) →
      ∃ fb', ssd1306_draw_line x0 y0 x1 y1 c b = some fb' ∧
        ∀ p q : Nat, p < 128 → q < 64 → get_pixel fb' p q ≠ get_pixel b p q →
          min x0 x1 ≤ (p : Int) ∧ (p : Int) ≤ max x0 x1 ∧
          min y0 y1 ≤ (q : Int) ∧ (q : Int) ≤ max y0 y1) := by
  refine ⟨?_, get_pixel_clear _ _ _, ?_, by decide, ?_, ?_⟩
  · rw [draw_line_eq_writes, line_writes_far_point]
    rfl
  · rw [get_pixel_draw_pixel _ (wf_clear fb) 44 5 true 44 5 (by decide) (by decide)]
    simp
  · refine ⟨apply_writes [(250, 10, true), (251, 10, true), (252, 10, true), (253, 10, true),
        (254, 10, true), (255, 10, true), (0, 10, true), (1, 10, true), (2, 10, true),
        (3, 10, true), (4, 10, true)] (ssd1306_clear fb), ?_, get_pixel_clear _ _ _, ?_,
      by decide⟩
    · rw [draw_line_eq_writes, line_writes_past_column_255]
      rfl
    · rw [get_pixel_on_writes_clear _ (by decide) fb 2 10 (by decide) (by decide)]
      decide
  · intro x0 y0 x1 y1 c b hwf hx0 hy0 hx1 hy1
    exact draw_line_changes_in_box x0 y0 x1 y1 c b hwf hx0 hy0 hx1 hy1

/-! ## Animated strings (sections 4.4 and 4.5) -/

theorem draw_string_char_by_char_eq_calls (T sx sy d : Nat) (col : Bool) (str : CString) :
    ∀ (x y : Nat) (dev : Device),
      ssd1306_draw_string_char_by_char T x y str sx sy d col dev =
        animate_char_calls T (string_calls x y str sx) sx sy d col dev := by
  induction str with
  | nil => intro x y dev; rfl
  | cons c rest ih =>
    intro x y dev
    unfold ssd1306_draw_string_char_by_char string_calls
    rw [ih]
    rfl

theorem draw_string_wrapped_char_by_char_eq_calls (T start_x sx sy d : Nat) (col : Bool)
    (str : CString) :
    ∀ (x y : Nat) (dev : Device),
      draw_string_wrapped_char_by_char_loop T start_x sx sy d col x y str dev =
        animate_char_calls T (wrapped_calls start_x sx sy x y str) sx sy d col dev := by
  induction str with
  | nil => intro x y dev; rfl
  | cons c rest ih =>
    intro x y dev
    unfold draw_string_wrapped_char_by_char_loop wrapped_calls
    by_cases h1 : x + 6 * sx ≥ SCREEN_WIDTH
    · rw [if_pos h1, if_pos h1]
      by_cases h2 : (y + 8 * sy) % 256 ≥ SCREEN_HEIGHT
      · rw [if_pos h2, if_pos h2]; rfl
      · rw [if_neg h2, if_neg h2, ih]; rfl
    · rw [if_neg h1, if_neg h1, ih]; rfl

theorem display_log (dev : Device) :
    (ssd1306_display dev).log = dev.log ++ display_events dev.buffer := rfl

/-- The events of an animated sequence of character calls: for each call, in
order, the delay and only then the flush of the framebuffer that holds the
characters drawn so far. -/
theorem animate_char_calls_spec (T sx sy d : Nat) (col : Bool) (calls : List CharCall) :
    ∀ (dev : Device),
      (animate_char_calls T calls sx sy d col dev).buffer =
        apply_char_calls calls sx sy col dev.buffer ∧
      (animate_char_calls T calls sx sy d col dev).log =
        dev.log ++ (List.range calls.length).flatMap (fun k =>
          Event.delay (d / T) ::
            display_events (apply_char_calls (calls.take (k + 1)) sx sy col dev.buffer)) := by
  induction calls with
  | nil =>
    intro dev
    exact ⟨rfl, by simp [animate_char_calls]⟩
  | cons p rest ih =>
    intro dev
    obtain ⟨hb, hl⟩ := ih (ssd1306_display (task_delay T d
      { dev with buffer := ssd1306_draw_char p.1 p.2.1 p.2.2 sx sy col dev.buffer }))
    constructor
    · unfold animate_char_calls at hb ⊢
      rw [List.foldl_cons, hb]
      rfl
    · unfold animate_char_calls at hl ⊢
      rw [List.foldl_cons, hl, List.length_cons, List.range_succ_eq_map, List.flatMap_cons,
        List.flatMap_map, display_log]
      simp only [task_delay, display_buffer, List.append_assoc, List.singleton_append,
        List.cons_append, List.take_succ_cons, List.take_zero]
      rfl

theorem string_calls_ab : string_calls 0 0 [65, 66] 1 = [(0, 0, 65), (6, 0, 66)] := by
  decide

theorem wrapped_calls_ab : wrapped_calls 0 1 1 0 0 [65, 66] = [(0, 0, 65), (6, 0, 66)] := by
  decide

/-- Claim C22 fails on the code.  In both routines the loop body ends with
`vTaskDelay(...)` followed by `ssd1306_display()`: the delay comes first and the
flush second.  For the string "AB" at `(0, 0)` the events are: delay, flush of
the framebuffer with `A`, delay, flush of the framebuffer with `AB`; the first
event is a delay, no flush precedes it, and no delay follows the last flush.
In general the events are, per drawn character, the delay and then the flush
of the framebuffer holding the characters drawn so far.  (The overwrite
routines flush first and delay afterwards.) -/
theorem draw_string_char_by_char_delays_before_flush (T d : Nat) (fb : Framebuffer) :
    (ssd1306_draw_string_char_by_char T 0 0 [65, 66] 1 1 d true
        { buffer := ssd1306_clear fb, log := [] }).log =
      Event.delay (d / T) ::
        (display_events (ssd1306_draw_char 0 0 65 1 1 true (ssd1306_clear fb)) ++
          Event.delay (d / T) ::
            display_events (ssd1306_draw_char 6 0 66 1 1 true
              (ssd1306_draw_char 0 0 65 1 1 true (ssd1306_clear fb)))) ∧
    (ssd1306_draw_string_wrapped_char_by_char T 0 0 [65, 66] 1 1 d true
        { buffer := ssd1306_clear fb, log := [] }).log =
      Event.delay (d / T) ::
        (display_events (ssd1306_draw_char 0 0 65 1 1 true (ssd1306_clear fb)) ++
          Event.delay (d / T) ::
            display_events (ssd1306_draw_char 6 0 66 1 1 true
              (ssd1306_draw_char 0 0 65 1 1 true (ssd1306_clear fb)))) ∧
    (∀ (x y : Nat) (str : CString) (sx sy : Nat) (col : Bool) (dev : Device),
      (ssd1306_draw_string_char_by_char T x y str sx sy d col dev).log =
        dev.log ++ (List.range (string_calls x y str sx).length).flatMap (fun k =>
          Event.delay (d / T) ::
            display_events
              (apply_char_calls ((string_calls x y str sx).take (k + 1)) sx sy col
                dev.buffer))) ∧
    (∀ (x y : Nat) (str : CString) (sx sy : Nat) (col : Bool) (dev : Device),
      (ssd1306_draw_string_wrapped_char_by_char T x y str sx sy d col dev).log =
        dev.log ++ (List.range (wrapped_calls x sx sy x y str).length).flatMap (fun k =>
          Event.delay (d / T) ::
            display_events
              (apply_char_calls ((wrapped_calls x sx sy x y str).take (k + 1)) sx sy col
                dev.buffer))) := by
  refine ⟨?_, ?_, ?_, ?_⟩
  · rw [draw_string_char_by_char_eq_calls, string_calls_ab]
    simp only [animate_char_calls, List.foldl_cons, List.foldl_nil, ssd1306_display, task_delay,
      display_events, List.nil_append, List.cons_append]
  · unfold ssd1306_draw_string_wrapped_char_by_char
    rw [draw_string_wrapped_char_by_char_eq_calls, wrapped_calls_ab]
    simp only [animate_char_calls, List.foldl_cons, List.foldl_nil, ssd1306_display, task_delay,
      display_events, List.nil_append, List.cons_append]
  · intro x y str sx sy col dev
    rw [draw_string_char_by_char_eq_calls]
    exact (animate_char_calls_spec T sx sy d col _ dev).2
  · intro x y str sx sy col dev
    unfold ssd1306_draw_string_wrapped_char_by_char
    rw [draw_string_wrapped_char_by_char_eq_calls]
    exact (animate_char_calls_spec T sx sy d col _ dev).2

theorem wrapped_calls_at_edge : wrapped_calls 122 1 1 122 0 [65] = [(122, 8, 65)] := by
  decide

theorem overwrite_wrap_cursor_at_edge : overwrite_wrap_cursor 122 1 1 122 0 = some (122, 0) := by
  decide

/-- Claim C21 fails on the code.  `ssd1306_overwrite_string_wrapped_char_by_char`
wraps when `x + 6 * size_x > SCREEN_WIDTH`, `ssd1306_draw_string_wrapped` when
`x + 6 * size_x >= SCREEN_WIDTH`.  At `x = 122`, `size_x = 1` the sum is 128:
with an empty old string and the new string "A" on a cleared framebuffer the
overwrite routine draws `A` at `(122, 0)`, `ssd1306_draw_string_wrapped` draws
it at `(122, 8)`, and the two framebuffers differ at pixel `(122, 1)`. -/
theorem overwrite_wrapped_trigger_differs (T d : Nat) (fb : Framebuffer) :
    (ssd1306_overwrite_string_wrapped_char_by_char T 122 0 [] [65] 1 1 d
        { buffer := ssd1306_clear fb, log := [] }).buffer =
      ssd1306_draw_char 122 0 65 1 1 COLOR_WHITE (ssd1306_clear fb) ∧
    ssd1306_draw_string_wrapped 122 0 [65] 1 1 COLOR_WHITE (ssd1306_clear fb) =
      ssd1306_draw_char 122 8 65 1 1 COLOR_WHITE (ssd1306_clear fb) ∧
    get_pixel (ssd1306_overwrite_string_wrapped_char_by_char T 122 0 [] [65] 1 1 d
        { buffer := ssd1306_clear fb, log := [] }).buffer 122 1 = true ∧
    get_pixel (ssd1306_draw_string_wrapped 122 0 [65] 1 1 COLOR_WHITE (ssd1306_clear fb))
      122 1 = false := by
  have h1 : (ssd1306_overwrite_string_wrapped_char_by_char T 122 0 [] [65] 1 1 d
        { buffer := ssd1306_clear fb, log := [] }).buffer =
      ssd1306_draw_char 122 0 65 1 1 COLOR_WHITE (ssd1306_clear fb) := by
    unfold ssd1306_overwrite_string_wrapped_char_by_char
    rw [overwrite_string_wrapped_loop, overwrite_wrap_cursor_at_edge]
    simp only []
    rw [overwrite_string_wrapped_loop, task_delay_buffer, display_buffer]
  have h2 : ssd1306_draw_string_wrapped 122 0 [65] 1 1 COLOR_WHITE (ssd1306_clear fb) =
      ssd1306_draw_char 122 8 65 1 1 COLOR_WHITE (ssd1306_clear fb) := by
    rw [ssd1306_draw_string_wrapped, draw_string_wrapped_loop_eq_calls, wrapped_calls_at_edge]
    simp only [apply_char_calls, List.foldl_cons, List.foldl_nil]
  refine ⟨h1, h2, ?_, ?_⟩
  · rw [h1, get_pixel_draw_char_map _ (wf_clear fb) 122 0 65 1 1 COLOR_WHITE 122 1 (by decide)
      (by decide), get_pixel_clear]
    decide
  · rw [h2, get_pixel_draw_char_map _ (wf_clear fb) 122 8 65 1 1 COLOR_WHITE 122 1 (by decide)
      (by decide), get_pixel_clear]
    decide

/-! ## Divisors of the filled triangle (section 4.2) -/

/-- The function `ssd1306_draw_horizontal_line` does not depend on the order
of its two ends. -/
theorem draw_horizontal_line_swap (xs xe y : Int) (c : Bool) (fb : Framebuffer) :
    ssd1306_draw_horizontal_line xe xs y c fb = ssd1306_draw_horizontal_line xs xe y c fb := by
  have hlo : (if xe > xs then xs else xe) = (if xs > xe then xe else xs) := by
    split_ifs <;> omega
  have hhi : (if xe > xs then xe else xs) = (if xs > xe then xs else xe) := by
    split_ifs <;> omega
  unfold ssd1306_draw_horizontal_line
  rw [hlo, hhi]

theorem draw_scanlines_append (c : Bool) (t1 t2 : List Scanline) (fb : Framebuffer) :
    draw_scanlines c (t1 ++ t2) fb = draw_scanlines c t2 (draw_scanlines c t1 fb) := by
  unfold draw_scanlines
  rw [List.foldl_append]

/-- Exchanging the two edges of a scanline loop does not change what it draws. -/
theorem draw_span_swap (n m : Nat) (xa xb da db dxa dxb : Int) (c : Bool) (ys : List Int) :
    ∀ (sa sb : Int) (fb : Framebuffer),
      draw_scanlines c (span_scanlines n xb xa db da dxb dxa sb sa ys) fb =
        draw_scanlines c (span_scanlines m xa xb da db dxa dxb sa sb ys) fb := by
  induction ys with
  | nil => intro sa sb fb; rfl
  | cons y ys ih =>
    intro sa sb fb
    unfold span_scanlines draw_scanlines
    rw [List.foldl_cons, List.foldl_cons]
    simp only []
    rw [draw_horizontal_line_swap]
    exact ih _ _ _

theorem loop_rows_int_max (lo : Int) : loop_rows lo 2147483647 = none := by
  unfold loop_rows INT_MAX
  rw [if_pos rfl]

/-- Two sorted vertices on the top row may be exchanged. -/
theorem fill_sorted_swap01 (x0 y0 x1 y1 x2 y2 : Int) (c : Bool) (fb : Framebuffer)
    (e : y0 = y1) (hr0 : -2147483648 ≤ y0) (hr1 : y0 ≤ 2147483647) :
    fill_sorted_triangle x1 y1 x0 y0 x2 y2 c fb =
      fill_sorted_triangle x0 y0 x1 y1 x2 y2 c fb := by
  subst e
  unfold fill_sorted_triangle sorted_triangle_scanlines
  by_cases h02 : y0 = y2
  · rw [if_pos h02, if_pos h02]
    have ha : (if x1 < x0 then (if x1 < x2 then x1 else x2) else (if x0 < x2 then x0 else x2)) =
        (if x0 < x1 then (if x0 < x2 then x0 else x2) else (if x1 < x2 then x1 else x2)) := by
      split_ifs <;> omega
    have hb : (if x1 > x0 then (if x1 > x2 then x1 else x2) else (if x0 > x2 then x0 else x2)) =
        (if x0 > x1 then (if x0 > x2 then x0 else x2) else (if x1 > x2 then x1 else x2)) := by
      split_ifs <;> omega
    rw [ha, hb]
  · rw [if_neg h02, if_neg h02]
    simp only [if_neg h02]
    by_cases hmin : y0 = -2147483648
    · have hw : wrap_int (y0 - 1) = 2147483647 := by
        subst hmin
        decide
      rw [hw, loop_rows_int_max]
      rfl
    · have hw : wrap_int (y0 - 1) = y0 - 1 := wrap_int_eq _ (by omega) (by omega)
      have hl : ¬ (y0 ≤ y0 - 1) := by omega
      rw [hw, loop_rows_some _ _ (by omega), int_range_empty y0 (y0 - 1) (by omega)]
      simp only [if_neg hl, Option.some_bind]
      by_cases hmax : y2 = 2147483647
      · rw [hmax, loop_rows_int_max]
        rfl
      · rw [loop_rows_some _ _ hmax]
        simp only [Option.some_bind, Option.map_some', span_scanlines, List.nil_append]
        rw [draw_span_swap 2 2]

/-- Two sorted vertices on the bottom row may be exchanged. -/
theorem fill_sorted_swap12 (x0 y0 x1 y1 x2 y2 : Int) (c : Bool) (fb : Framebuffer)
    (e : y1 = y2) (h : y0 ≤ y1) :
    fill_sorted_triangle x0 y0 x2 y2 x1 y1 c fb =
      fill_sorted_triangle x0 y0 x1 y1 x2 y2 c fb := by
  subst e
  unfold fill_sorted_triangle sorted_triangle_scanlines
  by_cases h02 : y0 = y1
  · rw [if_pos h02, if_pos h02]
    have ha : (if x0 < x2 then (if x0 < x1 then x0 else x1) else (if x2 < x1 then x2 else x1)) =
        (if x0 < x1 then (if x0 < x2 then x0 else x2) else (if x1 < x2 then x1 else x2)) := by
      split_ifs <;> omega
    have hb : (if x0 > x2 then (if x0 > x1 then x0 else x1) else (if x2 > x1 then x2 else x1)) =
        (if x0 > x1 then (if x0 > x2 then x0 else x2) else (if x1 > x2 then x1 else x2)) := by
      split_ifs <;> omega
    rw [ha, hb]
  · rw [if_neg h02, if_neg h02]
    simp only [if_true, if_pos h]
    by_cases hmax : y1 = 2147483647
    · rw [hmax, loop_rows_int_max]
      rfl
    · rw [loop_rows_some _ _ hmax, loop_rows_some _ _ hmax,
        int_range_empty (y1 + 1) y1 (by omega)]
      simp only [Option.some_bind, Option.map_some', span_scanlines, List.append_nil]
      rw [draw_span_swap 1 1]

/-- Exchanging the first two vertices does not change the filled triangle. -/
theorem draw_filled_triangle_swap01 (x0 y0 x1 y1 x2 y2 : Int) (c : Bool) (fb : Framebuffer)
    (hy0 : -2147483648 ≤ y0 ∧ y0 ≤ 2147483647) :
    ssd1306_draw_filled_triangle x1 y1 x0 y0 x2 y2 c fb =
      ssd1306_draw_filled_triangle x0 y0 x1 y1 x2 y2 c fb := by
  unfold ssd1306_draw_filled_triangle triangle_sort
  simp only [apply_ite Prod.fst, apply_ite Prod.snd]
  split_ifs <;>
    first
    | rfl
    | (exfalso; omega)
    | (apply fill_sorted_swap01 <;> omega)
    | (apply fill_sorted_swap12 <;> omega)

/-- Exchanging the last two vertices does not change the filled triangle. -/
theorem draw_filled_triangle_swap12 (x0 y0 x1 y1 x2 y2 : Int) (c : Bool) (fb : Framebuffer)
    (hy2 : -2147483648 ≤ y2 ∧ y2 ≤ 2147483647) :
    ssd1306_draw_filled_triangle x0 y0 x2 y2 x1 y1 c fb =
      ssd1306_draw_filled_triangle x0 y0 x1 y1 x2 y2 c fb := by
  unfold ssd1306_draw_filled_triangle triangle_sort
  simp only [apply_ite Prod.fst, apply_ite Prod.snd]
  split_ifs <;>
    first
    | rfl
    | (exfalso; omega)
    | (apply fill_sorted_swap01 <;> omega)
    | (apply fill_sorted_swap12 <;> omega)

/-- Claim C27.  For every triple of 32-bit integer vertices, every colour and
every framebuffer, `ssd1306_draw_filled_triangle` behaves the same for all six
orders of the three vertices: the calls return the same framebuffer, or none
of them returns; the vertices may share `y` coordinates.  The calls do return
when the three `y` lie strictly between `INT_MIN` and `INT_MAX`. -/
theorem filled_triangle_vertex_order_independent (x0 y0 x1 y1 x2 y2 : Int) (c : Bool)
    (fb : Framebuffer) (hy0 : INT_MIN ≤ y0 ∧ y0 ≤ INT_MAX) (hy1 : INT_MIN ≤ y1 ∧ y1 ≤ INT_MAX)
    (hy2 : INT_MIN ≤ y2 ∧ y2 ≤ INT_MAX) :
    ssd1306_draw_filled_triangle x0 y0 x2 y2 x1 y1 c fb =
      ssd1306_draw_filled_triangle x0 y0 x1 y1 x2 y2 c fb ∧
    ssd1306_draw_filled_triangle x1 y1 x0 y0 x2 y2 c fb =
      ssd1306_draw_filled_triangle x0 y0 x1 y1 x2 y2 c fb ∧
    ssd1306_draw_filled_triangle x1 y1 x2 y2 x0 y0 c fb =
      ssd1306_draw_filled_triangle x0 y0 x1 y1 x2 y2 c fb ∧
    ssd1306_draw_filled_triangle x2 y2 x0 y0 x1 y1 c fb =
      ssd1306_draw_filled_triangle x0 y0 x1 y1 x2 y2 c fb ∧
    ssd1306_draw_filled_triangle x2 y2 x1 y1 x0 y0 c fb =
      ssd1306_draw_filled_triangle x0 y0 x1 y1 x2 y2 c fb ∧
    ((INT_MIN < y0 ∧ y0 < INT_MAX) → (INT_MIN < y1 ∧ y1 < INT_MAX) →
      (INT_MIN < y2 ∧ y2 < INT_MAX) →
      ∃ fb', ssd1306_draw_filled_triangle x0 y0 x1 y1 x2 y2 c fb = some fb') := by
  simp only [INT_MIN, INT_MAX] at hy0 hy1 hy2
  have h120 : ssd1306_draw_filled_triangle x1 y1 x2 y2 x0 y0 c fb =
      ssd1306_draw_filled_triangle x0 y0 x1 y1 x2 y2 c fb := by
    rw [draw_filled_triangle_swap12 x1 y1 x0 y0 x2 y2 c fb hy2,
      draw_filled_triangle_swap01 x0 y0 x1 y1 x2 y2 c fb hy0]
  refine ⟨draw_filled_triangle_swap12 _ _ _ _ _ _ _ _ hy2,
    draw_filled_triangle_swap01 _ _ _ _ _ _ _ _ hy0, h120, ?_, ?_, ?_⟩
  · rw [draw_filled_triangle_swap01 x0 y0 x2 y2 x1 y1 c fb hy0,
      draw_filled_triangle_swap12 x0 y0 x1 y1 x2 y2 c fb hy2]
  · rw [draw_filled_triangle_swap01 x1 y1 x2 y2 x0 y0 c fb hy1, h120]
  · intro s0 s1 s2
    obtain ⟨-, -, h01, h12⟩ := triangle_sort_rows x0 y0 x1 y1 x2 y2
    obtain ⟨-, b1, b2⟩ := triangle_sort_bounds x0 y0 x1 y1 x2 y2 INT_MIN INT_MAX s0 s1 s2
    simp only [INT_MIN, INT_MAX] at b1 b2
    obtain ⟨t, ht, -⟩ := sorted_triangle_scanlines_rows
      (triangle_sort x0 y0 x1 y1 x2 y2).1.1 (triangle_sort x0 y0 x1 y1 x2 y2).1.2
      (triangle_sort x0 y0 x1 y1 x2 y2).2.1.1 (triangle_sort x0 y0 x1 y1 x2 y2).2.1.2
      (triangle_sort x0 y0 x1 y1 x2 y2).2.2.1 (triangle_sort x0 y0 x1 y1 x2 y2).2.2.2
      h01 h12 b1.1 b2.2
    refine ⟨draw_scanlines c t fb, ?_⟩
    unfold ssd1306_draw_filled_triangle fill_sorted_triangle
    rw [ht]
    rfl

theorem filled_triangle_vertex_order_independent_witness :
    ssd1306_draw_filled_triangle 0 0 5 10 10 0 true (ssd1306_clear []) =
      ssd1306_draw_filled_triangle 0 0 10 0 5 10 true (ssd1306_clear []) ∧
    ssd1306_draw_filled_triangle 10 0 0 0 5 10 true (ssd1306_clear []) =
      ssd1306_draw_filled_triangle 0 0 10 0 5 10 true (ssd1306_clear []) ∧
    ssd1306_draw_filled_triangle 10 0 5 10 0 0 true (ssd1306_clear []) =
      ssd1306_draw_filled_triangle 0 0 10 0 5 10 true (ssd1306_clear []) ∧
    ssd1306_draw_filled_triangle 5 10 0 0 10 0 true (ssd1306_clear []) =
      ssd1306_draw_filled_triangle 0 0 10 0 5 10 true (ssd1306_clear []) ∧
    ssd1306_draw_filled_triangle 5 10 10 0 0 0 true (ssd1306_clear []) =
      ssd1306_draw_filled_triangle 0 0 10 0 5 10 true (ssd1306_clear []) ∧
    ((INT_MIN < (0 : Int) ∧ (0 : Int) < INT_MAX) → (INT_MIN < (0 : Int) ∧ (0 : Int) < INT_MAX) →
      (INT_MIN < (10 : Int) ∧ (10 : Int) < INT_MAX) →
      ∃ fb', ssd1306_draw_filled_triangle 0 0 10 0 5 10 true (ssd1306_clear []) = some fb') :=
  filled_triangle_vertex_order_independent 0 0 10 0 5 10 true (ssd1306_clear [])
    (by decide) (by decide) (by decide)

/-! ## The filled circle is solid (section 4.2) -/

theorem get_pixel_on_of_mem (ws : List Write) (hc : ∀ w ∈ ws, w.2.2 = true) (fb : Framebuffer)
    (h : fb.WF) (i j : Nat) (hi : i < 128) (hj : j < 64) (hm : (i, j, true) ∈ ws) :
    get_pixel (apply_writes ws fb) i j = true := by
  rw [get_pixel_apply_writes_uniform ws true hc fb h i j hi hj, if_pos hm]

/-- ON writes that fill the rows `y0 - b .. y0 + b` of some columns keep every
column blank or a centred run. -/
theorem centredRuns_apply_writes (y0 r b : Nat) (hy : r ≤ y0) (hb : b ≤ r)
    (P : Nat → Prop) (ws : List Write)
    (hws : ∀ p q c, (p, q, c) ∈ ws ↔ (c = true ∧ P p ∧ y0 - b ≤ q ∧ q ≤ y0 + b))
    (fb : Framebuffer) (hwf : fb.WF) (hruns : CentredRuns y0 r fb) :
    CentredRuns y0 r (apply_writes ws fb) := by
  have hc : ∀ w ∈ ws, w.2.2 = true := by
    rintro ⟨p, q, c⟩ hm
    exact ((hws p q c).mp hm).1
  intro p hp
  have hget : ∀ q, q < 64 → get_pixel (apply_writes ws fb) p q =
      if (p, q, true) ∈ ws then true else get_pixel fb p q :=
    fun q hq => get_pixel_apply_writes_uniform ws true hc fb hwf p q hp hq
  by_cases hP : P p
  · have hmem : ∀ q, (p, q, true) ∈ ws ↔ (y0 - b ≤ q ∧ q ≤ y0 + b) := by
      intro q
      rw [hws]
      exact ⟨fun h => h.2.2, fun h => ⟨rfl, hP, h⟩⟩
    rcases hruns p hp with hblank | ⟨h, hh, hrun⟩
    · right
      refine ⟨b, hb, ?_⟩
      intro q hq
      rw [hget q hq]
      by_cases hm : (p, q, true) ∈ ws
      · rw [if_pos hm]
        exact ⟨fun _ => (hmem q).mp hm, fun _ => rfl⟩
      · rw [if_neg hm, hblank q hq]
        exact ⟨fun h => absurd h (by decide), fun h => absurd ((hmem q).mpr h) hm⟩
    · right
      refine ⟨max h b, max_le hh hb, ?_⟩
      intro q hq
      rw [hget q hq]
      by_cases hm : (p, q, true) ∈ ws
      · rw [if_pos hm]
        have := (hmem q).mp hm
        have h1 : b ≤ max h b := le_max_right _ _
        exact ⟨fun _ => ⟨by omega, by omega⟩, fun _ => rfl⟩
      · rw [if_neg hm, hrun q hq]
        have hnot : ¬ (y0 - b ≤ q ∧ q ≤ y0 + b) := fun h => hm ((hmem q).mpr h)
        rcases le_total h b with hle | hle
        · rw [max_eq_right hle]
          constructor
          · intro hq'; exact absurd ⟨by omega, by omega⟩ hnot
          · intro hq'; exact absurd hq' hnot
        · rw [max_eq_left hle]
  · have hmem : ∀ q, (p, q, true) ∉ ws := by
      intro q hm
      exact hP ((hws p q true).mp hm).2.1
    rcases hruns p hp with hblank | ⟨h, hh, hrun⟩
    · left
      intro q hq
      rw [hget q hq, if_neg (hmem q)]
      exact hblank q hq
    · right
      refine ⟨h, hh, ?_⟩
      intro q hq
      rw [hget q hq, if_neg (hmem q)]
      exact hrun q hq

/-- The writes of one chord loop: the rows `y0 - b .. y0 + b` of the columns
`x0 + a` and `x0 - a`. -/
theorem mem_chord_pair_writes (x0 y0 r : Nat) (hx : r ≤ x0) (hx' : x0 + r ≤ 127)
    (hy : r ≤ y0) (hy' : y0 + r ≤ 63) (a b : Int) (ha : 0 ≤ a) (ha' : a ≤ r)
    (hb : 0 ≤ b) (hb' : b ≤ r) (p q : Nat) (c : Bool) :
    (p, q, c) ∈ chord_pair_writes x0 y0 a b true ↔
      (c = true ∧ (p = x0 + a.toNat ∨ p = x0 - a.toNat) ∧
        y0 - b.toNat ≤ q ∧ q ≤ y0 + b.toNat) := by
  have e1 := to_u8_cast ((x0 : Int) + a) (by omega) (by omega)
  have e2 := to_u8_cast ((x0 : Int) - a) (by omega) (by omega)
  unfold chord_pair_writes
  simp only [List.mem_flatMap, mem_int_range, List.mem_cons, Prod.mk.injEq,
    List.mem_singleton, List.not_mem_nil, or_false]
  constructor
  · rintro ⟨i, ⟨hi1, hi2⟩, hm⟩
    have e3 := to_u8_cast i (by omega) (by omega)
    rcases hm with ⟨hp, hq, hc⟩ | ⟨hp, hq, hc⟩
    · exact ⟨hc, Or.inl (by omega), by omega, by omega⟩
    · exact ⟨hc, Or.inr (by omega), by omega, by omega⟩
  · rintro ⟨hc, hp, hq1, hq2⟩
    have e3 := to_u8_cast (q : Int) (by omega) (by omega)
    refine ⟨(q : Int), ⟨by omega, by omega⟩, ?_⟩
    rcases hp with hp | hp
    · left
      exact ⟨by omega, by omega, hc⟩
    · right
      exact ⟨by omega, by omega, hc⟩

/-- The writes of the centre line: the rows `y0 - r .. y0 + r` of column `x0`. -/
theorem mem_centre_line_writes (x0 y0 r : Nat) (hy : r ≤ y0) (hy' : y0 + r ≤ 63)
    (p q : Nat) (c : Bool) :
    (p, q, c) ∈ (int_range ((y0 : Int) - r) ((y0 : Int) + r)).map
        (fun i => (x0, to_u8 i, true)) ↔
      (c = true ∧ p = x0 ∧ y0 - r ≤ q ∧ q ≤ y0 + r) := by
  simp only [List.mem_map, mem_int_range, Prod.mk.injEq]
  constructor
  · rintro ⟨i, ⟨hi1, hi2⟩, hp, hq, hc⟩
    have e3 := to_u8_cast i (by omega) (by omega)
    exact ⟨hc.symm, hp.symm, by omega, by omega⟩
  · rintro ⟨hc, hp, hq1, hq2⟩
    have e3 := to_u8_cast (q : Int) (by omega) (by omega)
    exact ⟨(q : Int), ⟨by omega, by omega⟩, hp.symm, by omega, hc.symm⟩

theorem circle_advance_y_eq (s : CircleState) :
    (circle_advance s).y = if s.f ≥ 0 then s.y - 1 else s.y := by
  unfold circle_advance
  split_ifs <;> rfl

/-- The loop of the filled circle returns; it keeps every column blank or a
centred run, keeps the centre column, and on exit every column of the disk
holds its centre row. -/
theorem full_circle_loop_solid (x0 y0 r : Nat) (hx : r ≤ x0) (hx' : x0 + r ≤ 127)
    (hy : r ≤ y0) (hy' : y0 + r ≤ 63) (fuel : Nat) (s : CircleState) (fb : Framebuffer)
    (hwf : fb.WF) (hruns : CentredRuns y0 r fb)
    (hcov : ∀ d : Nat, d ≤ r → ((d : Int) ≤ s.x ∨ s.y < d ∨ ((d : Int) = s.y ∧ s.x ≠ 0)) →
      get_pixel fb (x0 + d) y0 = true ∧ get_pixel fb (x0 - d) y0 = true)
    (hcentre : ∀ q, y0 - r ≤ q → q ≤ y0 + r → get_pixel fb x0 q = true)
    (h0x : 0 ≤ s.x) (hxr : s.x ≤ r) (h0y : 0 ≤ s.y) (hyr : s.y ≤ r)
    (hinit : s.x = 0 → s.y = r ∧ s.f = 1 - r)
    (hfuel : s.y - s.x < fuel) (hpos : 0 < fuel) :
    ∃ fb', full_circle_loop x0 y0 true fuel s fb = some fb' ∧ fb'.WF ∧
      CentredRuns y0 r fb' ∧
      (∀ d : Nat, d ≤ r → get_pixel fb' (x0 + d) y0 = true ∧ get_pixel fb' (x0 - d) y0 = true) ∧
      (∀ q, y0 - r ≤ q → q ≤ y0 + r → get_pixel fb' x0 q = true) := by
  induction fuel generalizing s fb with
  | zero => omega
  | succ fuel ih =>
    unfold full_circle_loop
    by_cases hlt : s.x < s.y
    · rw [if_pos hlt]
      have hax := circle_advance_x s
      have hay := circle_advance_y_eq s
      have b1 : 0 ≤ (circle_advance s).x := by omega
      have b2 : (circle_advance s).x ≤ r := by omega
      have b3 : 0 ≤ (circle_advance s).y := by split_ifs at hay <;> omega
      have b4 : (circle_advance s).y ≤ r := by split_ifs at hay <;> omega
      rw [draw_chord_pair_eq_writes, draw_chord_pair_eq_writes]
      have m1 := mem_chord_pair_writes x0 y0 r hx hx' hy hy' (circle_advance s).x
        (circle_advance s).y b1 b2 b3 b4
      have m2 := mem_chord_pair_writes x0 y0 r hx hx' hy hy' (circle_advance s).y
        (circle_advance s).x b3 b4 b1 b2
      have c1 : ∀ w ∈ chord_pair_writes x0 y0 (circle_advance s).x (circle_advance s).y true,
          w.2.2 = true := by
        rintro ⟨p, q, c⟩ hm
        exact ((m1 p q c).mp hm).1
      have c2 : ∀ w ∈ chord_pair_writes x0 y0 (circle_advance s).y (circle_advance s).x true,
          w.2.2 = true := by
        rintro ⟨p, q, c⟩ hm
        exact ((m2 p q c).mp hm).1
      have hwf1 := wf_apply_writes
        (chord_pair_writes x0 y0 (circle_advance s).x (circle_advance s).y true) fb hwf
      apply ih
      · exact wf_apply_writes _ _ hwf1
      · apply centredRuns_apply_writes y0 r (circle_advance s).x.toNat hy (by omega)
          (fun p => p = x0 + (circle_advance s).y.toNat ∨ p = x0 - (circle_advance s).y.toNat)
          _ m2 _ hwf1
        exact centredRuns_apply_writes y0 r (circle_advance s).y.toNat hy (by omega)
          (fun p => p = x0 + (circle_advance s).x.toNat ∨ p = x0 - (circle_advance s).x.toNat)
          _ m1 _ hwf hruns
      · intro d hd hcond
        have hcase : (d : Int) = (circle_advance s).x ∨ (d : Int) = (circle_advance s).y ∨
            ((d : Int) ≤ s.x ∨ s.y < d ∨ ((d : Int) = s.y ∧ s.x ≠ 0)) := by
          by_cases hx0 : s.x = 0
          · obtain ⟨hi1, hi2⟩ := hinit hx0
            split_ifs at hay <;> omega
          · split_ifs at hay <;> omega
        rcases hcase with hc | hc | hc
        · constructor
          · apply get_pixel_mono_on _ c2 _ hwf1 _ _ (by omega) (by omega)
            apply get_pixel_on_of_mem _ c1 _ hwf _ _ (by omega) (by omega)
            exact (m1 _ _ _).mpr ⟨rfl, Or.inl (by omega), by omega, by omega⟩
          · apply get_pixel_mono_on _ c2 _ hwf1 _ _ (by omega) (by omega)
            apply get_pixel_on_of_mem _ c1 _ hwf _ _ (by omega) (by omega)
            exact (m1 _ _ _).mpr ⟨rfl, Or.inr (by omega), by omega, by omega⟩
        · constructor
          · apply get_pixel_on_of_mem _ c2 _ hwf1 _ _ (by omega) (by omega)
            exact (m2 _ _ _).mpr ⟨rfl, Or.inl (by omega), by omega, by omega⟩
          · apply get_pixel_on_of_mem _ c2 _ hwf1 _ _ (by omega) (by omega)
            exact (m2 _ _ _).mpr ⟨rfl, Or.inr (by omega), by omega, by omega⟩
        · obtain ⟨o1, o2⟩ := hcov d hd hc
          exact ⟨get_pixel_mono_on _ c2 _ hwf1 _ _ (by omega) (by omega)
              (get_pixel_mono_on _ c1 _ hwf _ _ (by omega) (by omega) o1),
            get_pixel_mono_on _ c2 _ hwf1 _ _ (by omega) (by omega)
              (get_pixel_mono_on _ c1 _ hwf _ _ (by omega) (by omega) o2)⟩
      · intro q hq1 hq2
        exact get_pixel_mono_on _ c2 _ hwf1 _ _ (by omega) (by omega)
          (get_pixel_mono_on _ c1 _ hwf _ _ (by omega) (by omega) (hcentre q hq1 hq2))
      · exact b1
      · exact b2
      · exact b3
      · exact b4
      · intro h0
        omega
      · split_ifs at hay <;> omega
      · omega
    · rw [if_neg hlt]
      refine ⟨fb, rfl, hwf, hruns, ?_, hcentre⟩
      intro d hd
      apply hcov d hd
      by_cases h1 : (d : Int) ≤ s.x
      · exact Or.inl h1
      · exact Or.inr (Or.inl (by omega))

theorem centredRuns_clear (y0 r : Nat) (fb : Framebuffer) :
    CentredRuns y0 r (ssd1306_clear fb) := by
  intro p _
  left
  intro q _
  exact get_pixel_clear fb p q

/-- Claim C23.  For a centre `(x0, y0)` and radius `r` with `r <= x0`,
`x0 + r <= 127`, `r <= y0`, `y0 + r <= 63`, `ssd1306_draw_full_circle(x0, y0,
r, ON)` on a cleared framebuffer returns, and the painted pixels form a solid
disk: in every column `c` of `x0 - r .. x0 + r` the ON rows are exactly one run
`y0 - h .. y0 + h` (never empty: it holds row `y0`) with `h <= r`, in the
centre column the run is the full diameter `y0 - r .. y0 + r`, and no pixel
outside the square `x0 - r .. x0 + r` by `y0 - r .. y0 + r` is ON. -/
theorem full_circle_paints_solid_disk (fb : Framebuffer) (x0 y0 r : Nat)
    (hx : r ≤ x0) (hx' : x0 + r ≤ 127) (hy : r ≤ y0) (hy' : y0 + r ≤ 63) :
    ∃ fb', ssd1306_draw_full_circle x0 y0 r true (ssd1306_clear fb) = some fb' ∧
      (∀ c, x0 - r ≤ c → c ≤ x0 + r →
        ∃ h, h ≤ r ∧ ∀ q, q < 64 → (get_pixel fb' c q = true ↔ (y0 - h ≤ q ∧ q ≤ y0 + h))) ∧
      (∀ q, q < 64 → (get_pixel fb' x0 q = true ↔ (y0 - r ≤ q ∧ q ≤ y0 + r))) ∧
      (∀ p q, p < 128 → q < 64 → get_pixel fb' p q = true →
        x0 - r ≤ p ∧ p ≤ x0 + r ∧ y0 - r ≤ q ∧ q ≤ y0 + r) := by
  unfold ssd1306_draw_full_circle
  have h0 := foldl_draw_pixel (fun i => (x0, to_u8 i, true))
    (int_range ((y0 : Int) - r) ((y0 : Int) + r)) (ssd1306_clear fb)
  simp only at h0
  rw [h0]
  have mc := mem_centre_line_writes x0 y0 r hy hy'
  have cc : ∀ w ∈ (int_range ((y0 : Int) - r) ((y0 : Int) + r)).map
      (fun i => (x0, to_u8 i, true)), w.2.2 = true := by
    rintro ⟨p, q, c⟩ hm
    exact ((mc p q c).mp hm).1
  have hwf0 := wf_apply_writes
    ((int_range ((y0 : Int) - r) ((y0 : Int) + r)).map (fun i => (x0, to_u8 i, true)))
    _ (wf_clear fb)
  have hline : ∀ q, y0 - r ≤ q → q ≤ y0 + r →
      get_pixel (apply_writes ((int_range ((y0 : Int) - r) ((y0 : Int) + r)).map
        (fun i => (x0, to_u8 i, true))) (ssd1306_clear fb)) x0 q = true := by
    intro q hq1 hq2
    apply get_pixel_on_of_mem _ cc _ (wf_clear fb) _ _ (by omega) (by omega)
    exact (mc _ _ _).mpr ⟨rfl, rfl, hq1, hq2⟩
  obtain ⟨fb', hres, -, hruns, hcov, hcentre⟩ := full_circle_loop_solid x0 y0 r hx hx' hy hy'
    (r + 1) { x := 0, y := r, f := 1 - r, ddF_x := 1, ddF_y := -2 * r } _ hwf0
    (centredRuns_apply_writes y0 r r hy (le_refl _) (fun p => p = x0) _ mc _ (wf_clear fb)
      (centredRuns_clear y0 r fb))
    (by
      intro d hd hcond
      have hd0 : d = 0 := by
        simp only at hcond
        omega
      subst hd0
      exact ⟨hline y0 (by omega) (by omega), hline y0 (by omega) (by omega)⟩)
    hline (le_refl _) (by simp) (by simp) (le_refl _) (fun _ => ⟨rfl, rfl⟩) (by simp)
    (by omega)
  obtain ⟨fb2, hres', -, hsym⟩ := full_circle_loop_sym x0 y0 r hx hx' hy hy' (r + 1)
    { x := 0, y := r, f := 1 - r, ddF_x := 1, ddF_y := -2 * r }
    _ hwf0
    (circleSym_apply_writes x0 y0 r hx hx' hy hy' _
      (symWrites_centre_line x0 y0 r hx hy hy') _ (wf_clear fb) (circleSym_clear x0 y0 r fb))
    (le_refl _) (by simp) (by simp) (le_refl _) (by simp) (by omega)
  rw [hres] at hres'
  cases Option.some.inj hres'
  have hrun : ∀ c, x0 - r ≤ c → c ≤ x0 + r →
      ∃ h, h ≤ r ∧ ∀ q, q < 64 → (get_pixel fb' c q = true ↔ (y0 - h ≤ q ∧ q ≤ y0 + h)) := by
    intro c hc1 hc2
    rcases hruns c (by omega) with hblank | hrun
    · exfalso
      have hon : get_pixel fb' c y0 = true := by
        rcases Nat.le_total x0 c with hle | hle
        · have := (hcov (c - x0) (by omega)).1
          rwa [show x0 + (c - x0) = c by omega] at this
        · have := (hcov (x0 - c) (by omega)).2
          rwa [show x0 - (x0 - c) = c by omega] at this
      rw [hblank y0 (by omega)] at hon
      cases hon
    · exact hrun
  refine ⟨fb', hres, hrun, ?_, ?_⟩
  · intro q hq
    obtain ⟨h, hh, hr⟩ := hrun x0 (by omega) (by omega)
    have htop := (hr (y0 + r) (by omega)).mp (hcentre (y0 + r) (by omega) (by omega))
    have hhr : h = r := by omega
    rw [hhr] at hr
    exact hr q hq
  · intro p q hp hq hon
    exact (hsym p q hp hq hon).1

theorem full_circle_paints_solid_disk_witness :
    ∃ fb', ssd1306_draw_full_circle 64 32 10 true (ssd1306_clear []) = some fb' ∧
      (∀ c, 64 - 10 ≤ c → c ≤ 64 + 10 →
        ∃ h, h ≤ 10 ∧ ∀ q, q < 64 → (get_pixel fb' c q = true ↔ (32 - h ≤ q ∧ q ≤ 32 + h))) ∧
      (∀ q, q < 64 → (get_pixel fb' 64 q = true ↔ (32 - 10 ≤ q ∧ q ≤ 32 + 10))) ∧
      (∀ p q, p < 128 → q < 64 → get_pixel fb' p q = true →
        64 - 10 ≤ p ∧ p ≤ 64 + 10 ∧ 32 - 10 ≤ q ∧ q ≤ 32 + 10) :=
  full_circle_paints_solid_disk [] 64 32 10 (by decide) (by decide) (by decide) (by decide)

end SSD1306
